import Mathlib

/-!
Touch-to-input translation of `UI/GamepadEmu.cpp`

A shallow embedding of the on-screen controller widgets of `UI/GamepadEmu.cpp`
(`MultiTouchButton`, `PSPButton`, `PSPCross`, `PSPStick`) and of the pad layout
(`InitPadLayout`, `CreatePadLayout`), and theorems about them.

Conventions of the embedding.

* A widget method that mutates the widget and calls the emulated controller
  becomes a function returning the new widget together with the list of
  calls it made, in program order (`SinkCall`).
* A `float` stored in a widget or carried by a touch event is a rational, the
  value of a finite float.  The float computations of `ProcessTouch` are on
  floats with signed zeros, infinities and NaN (`IEEE`): an operation is the
  exact operation followed by a rounding step (`IEEE.roundWith`) that overflows
  to an infinity beyond `FLT_MAX`.  The rounding of finite values, the C
  library functions `sqrtf` and `atan2f` and the conversion of a float that is
  not finite to `int` are parameters (`Libm`); what a theorem needs to know
  about them is a hypothesis of that theorem.
* `uint32_t` and `int` bit masks are natural numbers below `2 ^ 32`; `~` is
  complement on 32 bits.
* `g_Config.bHapticFeedback` is the parameter `haptic`.
* For the statements about a divisor that is exactly zero the `float`
  computation of `ProcessTouch` is embedded a second time, without the rounding
  step (`ProcessTouchIEEE`); with a zero divisor and unrounded offsets the two
  embeddings of `PSPStick::ProcessTouch` agree
  (`PSPStick.ProcessTouch_zero_divisor`).
* `InitPadLayout` and `CreatePadLayout` are functions of `g_Config` and of the
  display size; `int` values are unbounded integers.
-/

namespace GamepadEmu

/-! ## Collaborators declared outside `GamepadEmu.cpp` -/

/-- Modelled from the spec: the touch-kind flag bits of `TouchInput::flags`
(`TOUCH_MOVE`, `TOUCH_DOWN`, `TOUCH_UP`) are declared in the input library
header, which is not part of the sources; the spec's PointerEvent has the
kinds Down, Move and Up.  Distinct single bits, as in that header. -/
def TOUCH_MOVE : Nat := 1

/-- Modelled from the spec: see `TOUCH_MOVE`. -/
def TOUCH_DOWN : Nat := 2

/-- Modelled from the spec: see `TOUCH_MOVE`. -/
def TOUCH_UP : Nat := 4

/-- Modelled from the spec: the button bits `CTRL_UP`, `CTRL_RIGHT`,
`CTRL_DOWN`, `CTRL_LEFT` are declared in `Core/HLE/sceCtrl.h`, which is not
part of the sources; the spec calls them an opaque enumeration with one bit
per physical button.  The values are those of the PSP pad register. -/
def CTRL_UP : Nat := 0x0010

/-- Modelled from the spec: see `CTRL_UP`. -/
def CTRL_RIGHT : Nat := 0x0020

/-- Modelled from the spec: see `CTRL_UP`. -/
def CTRL_DOWN : Nat := 0x0040

/-- Modelled from the spec: see `CTRL_UP`. -/
def CTRL_LEFT : Nat := 0x0080

/-- Modelled from the spec: the macro `M_PI` of `<math.h>`; the value is the
double nearest to π, which is the rational `884279719003555 / 2 ^ 48`. -/
def M_PI : ℚ := 884279719003555 / 281474976710656

/-- The touch event handed to `Touch`: `struct TouchInput` with the fields the
widgets read. -/
structure TouchInput where
  x : ℚ
  y : ℚ
  id : Int
  flags : Nat
deriving DecidableEq

/-- Modelled from the spec: the HitRegion, an axis-aligned rectangle with a
containment test (`struct Bounds` of the UI library, not part of the
sources). -/
structure Bounds where
  x : ℚ
  y : ℚ
  w : ℚ
  h : ℚ
deriving DecidableEq

/-- Modelled from the spec: the containment test of the HitRegion. -/
def Bounds.Contains (b : Bounds) (px py : ℚ) : Bool :=
  decide (b.x ≤ px ∧ b.y ≤ py ∧ px < b.x + b.w ∧ py < b.y + b.h)

/-- Modelled from the spec: horizontal centre of the HitRegion. -/
def Bounds.centerX (b : Bounds) : ℚ := b.x + b.w * (1 / 2)

/-- Modelled from the spec: vertical centre of the HitRegion. -/
def Bounds.centerY (b : Bounds) : ℚ := b.y + b.h * (1 / 2)

/-! ## Floats

A `float` is a finite value, a zero of either sign, an infinity or NaN.  A
float operation is the exact operation on these values followed by rounding;
the rounding of finite results is a parameter, the overflow to infinity and
the special values are those of IEEE 754.
-/

/-- A `float` with the special values of IEEE 754: a finite value, negative
zero, an infinity (`inf true` is minus infinity), or NaN.  `fin 0` is
positive zero. -/
inductive IEEE where
  | fin (q : ℚ) : IEEE
  | negZero : IEEE
  | inf (neg : Bool) : IEEE
  | nan : IEEE
deriving DecidableEq

/-- The sign bit of a float (false for NaN, whose sign is never used). -/
def IEEE.signBit : IEEE → Bool
  | .fin q => decide (q < 0)
  | .negZero => true
  | .inf neg => neg
  | .nan => false

/-- The value of a finite float; none for an infinity or NaN. -/
def IEEE.value? : IEEE → Option ℚ
  | .fin q => some q
  | .negZero => some 0
  | .inf _ => none
  | .nan => none

/-- The finite float with the given value; a zero takes the given sign. -/
def IEEE.ofValue (neg : Bool) (q : ℚ) : IEEE :=
  if q = 0 then (if neg then IEEE.negZero else IEEE.fin 0) else IEEE.fin q

/-- Float negation. -/
def IEEE.neg : IEEE → IEEE
  | .fin q => if q = 0 then IEEE.negZero else IEEE.fin (-q)
  | .negZero => IEEE.fin 0
  | .inf s => IEEE.inf (!s)
  | .nan => IEEE.nan

/-- Float addition: infinities of opposite sign give NaN; an exact sum of zero
is negative zero only when both operands are negative. -/
def IEEE.add (a b : IEEE) : IEEE :=
  match a.value?, b.value? with
  | some p, some q =>
    if p + q = 0 then (if a.signBit && b.signBit then IEEE.negZero else IEEE.fin 0)
    else IEEE.fin (p + q)
  | some _, none =>
    match b with
    | .inf t => IEEE.inf t
    | _ => IEEE.nan
  | none, some _ =>
    match a with
    | .inf s => IEEE.inf s
    | _ => IEEE.nan
  | none, none =>
    match a, b with
    | .inf s, .inf t => if s = t then IEEE.inf s else IEEE.nan
    | _, _ => IEEE.nan

/-- Float subtraction. -/
def IEEE.sub (a b : IEEE) : IEEE := IEEE.add a (IEEE.neg b)

/-- Float multiplication: zero times infinity gives NaN. -/
def IEEE.mul (a b : IEEE) : IEEE :=
  match a.value?, b.value? with
  | some p, some q => IEEE.ofValue (xor a.signBit b.signBit) (p * q)
  | some p, none =>
    match b with
    | .inf t => if p = 0 then IEEE.nan else IEEE.inf (xor a.signBit t)
    | _ => IEEE.nan
  | none, some q =>
    match a with
    | .inf s => if q = 0 then IEEE.nan else IEEE.inf (xor s b.signBit)
    | _ => IEEE.nan
  | none, none =>
    match a, b with
    | .inf s, .inf t => IEEE.inf (xor s t)
    | _, _ => IEEE.nan

/-- Float division: a non-zero finite value divided by zero gives an infinity,
zero by zero and infinity by infinity give NaN. -/
def IEEE.div (a b : IEEE) : IEEE :=
  match a.value?, b.value? with
  | some p, some q =>
    if q = 0 then (if p = 0 then IEEE.nan else IEEE.inf (xor a.signBit b.signBit))
    else IEEE.ofValue (xor a.signBit b.signBit) (p / q)
  | some _, none =>
    match b with
    | .inf t => IEEE.ofValue (xor a.signBit t) 0
    | _ => IEEE.nan
  | none, some _ =>
    match a with
    | .inf s => IEEE.inf (xor s b.signBit)
    | _ => IEEE.nan
  | none, none => IEEE.nan

/-- The comparison `a < b` of floats: false when either is NaN. -/
def IEEE.lt (a b : IEEE) : Bool :=
  match a.value?, b.value? with
  | some p, some q => decide (p < q)
  | some _, none =>
    match b with
    | .inf t => !t
    | _ => false
  | none, some _ =>
    match a with
    | .inf s => s
    | _ => false
  | none, none =>
    match a, b with
    | .inf s, .inf t => s && !t
    | _, _ => false

/-- The function `std::max` on floats: `(a < b) ? b : a`. -/
def stdMaxIEEE (a b : IEEE) : IEEE := if IEEE.lt a b then b else a

/-- The function `std::min` on floats: `(b < a) ? b : a`. -/
def stdMinIEEE (a b : IEEE) : IEEE := if IEEE.lt b a then b else a

/-- The constant `FLT_MAX`, the largest finite `float`: `2 ^ 128 - 2 ^ 104`. -/
def FLT_MAX : ℚ := 340282346638528859811704183484516925440

/-- The rounding step of a float operation, applied to its exact result.
`round` is the rounding of a non-zero rational to the float format with no
upper limit on the exponent; a result whose rounding exceeds `FLT_MAX`
overflows to the infinity of its sign, a result rounded to zero keeps its
sign.  Exact zeros, infinities and NaN are left as they are. -/
def IEEE.roundWith (round : ℚ → ℚ) : IEEE → IEEE
  | .fin q =>
    if q = 0 then IEEE.fin 0
    else if FLT_MAX < |round q| then IEEE.inf (decide (q < 0))
    else IEEE.ofValue (decide (q < 0)) (round q)
  | .negZero => IEEE.negZero
  | .inf s => IEEE.inf s
  | .nan => IEEE.nan

/-- The floating-point environment of the program: the rounding of the float
unit (`round`, see `IEEE.roundWith`), the C library functions `sqrtf` and
`atan2f`, and `intOfNonFinite`, the result of converting a `float` that is
not finite to `int`, which C++ leaves undefined and the hardware decides. -/
structure Libm where
  round : ℚ → ℚ
  sqrtf : IEEE → IEEE
  atan2f : IEEE → IEEE → IEEE
  intOfNonFinite : IEEE → Int

/-- Float addition `a + b`. -/
def Libm.fadd (L : Libm) (a b : IEEE) : IEEE := IEEE.roundWith L.round (IEEE.add a b)

/-- Float subtraction `a - b`. -/
def Libm.fsub (L : Libm) (a b : IEEE) : IEEE := IEEE.roundWith L.round (IEEE.sub a b)

/-- Float multiplication `a * b`. -/
def Libm.fmul (L : Libm) (a b : IEEE) : IEEE := IEEE.roundWith L.round (IEEE.mul a b)

/-- Float division `a / b`. -/
def Libm.fdiv (L : Libm) (a b : IEEE) : IEEE := IEEE.roundWith L.round (IEEE.div a b)

/-- A call made to the emulated controller (`__CtrlButtonDown`,
`__CtrlButtonUp`, `__CtrlSetAnalogX`, `__CtrlSetAnalogY`) or to the haptic
subsystem (`Vibrate(HAPTIC_VIRTUAL_KEY)`). -/
inductive SinkCall where
  | Vibrate : SinkCall
  | CtrlButtonDown (bit : Nat) : SinkCall
  | CtrlButtonUp (bit : Nat) : SinkCall
  | CtrlSetAnalogX (v : IEEE) (stick : Int) : SinkCall
  | CtrlSetAnalogY (v : IEEE) (stick : Int) : SinkCall
deriving DecidableEq

/-- Is the call a `__CtrlButtonDown`? -/
def SinkCall.isButtonDown : SinkCall → Bool
  | .CtrlButtonDown _ => true
  | _ => false

/-- Is the call a `__CtrlButtonUp`? -/
def SinkCall.isButtonUp : SinkCall → Bool
  | .CtrlButtonUp _ => true
  | _ => false

/-- Is the call a `Vibrate`? -/
def SinkCall.isVibrate : SinkCall → Bool
  | .Vibrate => true
  | _ => false

/-! ## Machine integers -/

/-- The expression `1 << id`, for a pointer ID in `0..31`. -/
def shl1 (id : Int) : Nat := 1 <<< id.toNat

/-- Conversion to `uint32_t`. -/
def u32 (v : Nat) : Nat := v % 2 ^ 32

/-- The operator `~` on a 32-bit value. -/
def not32 (v : Nat) : Nat := 0xFFFFFFFF ^^^ u32 v

/-- The test `(input.flags & FLAG)` of an `if`. -/
def hasFlag (flags flag : Nat) : Bool := decide (flags &&& flag ≠ 0)

/-! ## MultiTouchButton and PSPButton -/

/-- The fields of `MultiTouchButton` that `Touch` reads or writes. -/
structure MultiTouchButton where
  bounds_ : Bounds
  pointerDownMask_ : Nat
deriving DecidableEq

/-- `MultiTouchButton::Touch`. -/
def MultiTouchButton.Touch (b : MultiTouchButton) (input : TouchInput) : MultiTouchButton :=
  let b1 :=
    if hasFlag input.flags TOUCH_DOWN && b.bounds_.Contains input.x input.y then
      { b with pointerDownMask_ := u32 (b.pointerDownMask_ ||| shl1 input.id) }
    else b
  let b2 :=
    if hasFlag input.flags TOUCH_MOVE then
      if b1.bounds_.Contains input.x input.y then
        { b1 with pointerDownMask_ := u32 (b1.pointerDownMask_ ||| shl1 input.id) }
      else
        { b1 with pointerDownMask_ := b1.pointerDownMask_ &&& not32 (shl1 input.id) }
    else b1
  if hasFlag input.flags TOUCH_UP then
    { b2 with pointerDownMask_ := b2.pointerDownMask_ &&& not32 (shl1 input.id) }
  else b2

/-- The fields of `PSPButton`: a `MultiTouchButton` and its button bit. -/
structure PSPButton extends MultiTouchButton where
  pspButtonBit_ : Nat
deriving DecidableEq

/-- `PSPButton::Touch`: the new widget and the calls made. -/
def PSPButton.Touch (haptic : Bool) (b : PSPButton) (input : TouchInput) :
    PSPButton × List SinkCall :=
  let lastDown := decide (b.pointerDownMask_ ≠ 0)
  let b1 : PSPButton := { b with toMultiTouchButton := b.toMultiTouchButton.Touch input }
  let down := decide (b1.pointerDownMask_ ≠ 0)
  if down && !lastDown then
    (b1, (if haptic then [SinkCall.Vibrate] else []) ++ [SinkCall.CtrlButtonDown b1.pspButtonBit_])
  else if lastDown && !down then
    (b1, [SinkCall.CtrlButtonUp b1.pspButtonBit_])
  else
    (b1, [])

/-- A sequence of events delivered to one `PSPButton`, with all calls made. -/
def PSPButton.run (haptic : Bool) : PSPButton → List TouchInput → PSPButton × List SinkCall
  | b, [] => (b, [])
  | b, e :: es =>
    let r := PSPButton.Touch haptic b e
    let rest := PSPButton.run haptic r.1 es
    (rest.1, r.2 ++ rest.2)

/-- Number of events of the sequence across which `pointerDownMask_ != 0` goes
from false to true. -/
def risingEdges : MultiTouchButton → List TouchInput → Nat
  | _, [] => 0
  | b, e :: es =>
    (if b.pointerDownMask_ = 0 ∧ (b.Touch e).pointerDownMask_ ≠ 0 then 1 else 0)
      + risingEdges (b.Touch e) es

/-- Number of events of the sequence across which `pointerDownMask_ != 0` goes
from true to false. -/
def fallingEdges : MultiTouchButton → List TouchInput → Nat
  | _, [] => 0
  | b, e :: es =>
    (if b.pointerDownMask_ ≠ 0 ∧ (b.Touch e).pointerDownMask_ = 0 then 1 else 0)
      + fallingEdges (b.Touch e) es

/-! ## PSPCross -/

/-- The fields of `PSPCross` that `Touch` and `ProcessTouch` read or write. -/
structure PSPCross where
  bounds_ : Bounds
  scale_ : ℚ
  radius_ : ℚ
  dragPointerId_ : Int
  down_ : Nat
deriving DecidableEq

/-- The constructor `PSPCross::PSPCross`: no drag pointer, no direction. -/
def PSPCross.new (bounds : Bounds) (scale radius : ℚ) : PSPCross :=
  { bounds_ := bounds, scale_ := scale, radius_ := radius, dragPointerId_ := -1, down_ := 0 }

/-- The table `dir` of `PSPCross::ProcessTouch`. -/
def dir : List Nat := [CTRL_RIGHT, CTRL_DOWN, CTRL_LEFT, CTRL_UP]

/-- The local `inv_stick_size` of `PSPCross::ProcessTouch`:
`1.0f / (stick_size_ * scale_)` with `stick_size_ = radius_`, in float
arithmetic. -/
def PSPCross.inv_stick_size (L : Libm) (c : PSPCross) : IEEE :=
  L.fdiv (IEEE.fin 1) (L.fmul (IEEE.fin c.radius_) (IEEE.fin c.scale_))

/-- The local `dx` of `PSPCross::ProcessTouch`. -/
def PSPCross.dx (L : Libm) (c : PSPCross) (x : ℚ) : IEEE :=
  L.fmul (L.fsub (IEEE.fin x) (IEEE.fin c.bounds_.centerX)) (c.inv_stick_size L)

/-- The local `dy` of `PSPCross::ProcessTouch`. -/
def PSPCross.dy (L : Libm) (c : PSPCross) (y : ℚ) : IEEE :=
  L.fmul (L.fsub (IEEE.fin y) (IEEE.fin c.bounds_.centerY)) (c.inv_stick_size L)

/-- The local `rad` of `PSPCross::ProcessTouch`. -/
def PSPCross.rad (L : Libm) (c : PSPCross) (x y : ℚ) : IEEE :=
  L.sqrtf (L.fadd (L.fmul (c.dx L x) (c.dx L x)) (L.fmul (c.dy L y) (c.dy L y)))

/-- The constant `deadzone` of `PSPCross::ProcessTouch`.  The literal is
`0.17f`; no `float` lies between `0.17` and the float nearest to it, so on
floats the comparison `rad < deadzone` is the comparison with `17 / 100`. -/
def deadzone : ℚ := 17 / 100

/-- The local `direction` of `PSPCross::ProcessTouch`, for the angle that
`atan2f` returns; `& 7` on a two's complement `int` is the remainder modulo 8
in `0..7`.  The arithmetic on a finite angle is exact; an angle that is not
finite stays so up to the conversion to `int`. -/
def PSPCross.direction (L : Libm) (dy dx : IEEE) : Int :=
  match (L.atan2f dy dx).value? with
  | some a => ⌊a / (2 * M_PI) * 8 + 1 / 2⌋ % 8
  | none => L.intOfNonFinite (L.atan2f dy dx) % 8

/-- The `switch (direction)` of `PSPCross::ProcessTouch`, applied to
`ctrlMask = 0`. -/
def PSPCross.switchMask (direction : Int) : Nat :=
  match direction with
  | 0 => 0 ||| CTRL_RIGHT
  | 1 => 0 ||| (CTRL_RIGHT ||| CTRL_DOWN)
  | 2 => 0 ||| CTRL_DOWN
  | 3 => 0 ||| (CTRL_DOWN ||| CTRL_LEFT)
  | 4 => 0 ||| CTRL_LEFT
  | 5 => 0 ||| (CTRL_UP ||| CTRL_LEFT)
  | 6 => 0 ||| CTRL_UP
  | 7 => 0 ||| (CTRL_UP ||| CTRL_RIGHT)
  | _ => 0

/-- The loop over `dir` at the end of `PSPCross::ProcessTouch`. -/
def PSPCross.edgeCalls (haptic : Bool) (pressed released : Nat) : List Nat → List SinkCall
  | [] => []
  | d :: ds =>
    (if pressed &&& d ≠ 0 then
        (if haptic then [SinkCall.Vibrate] else []) ++ [SinkCall.CtrlButtonDown d]
      else [])
      ++ (if released &&& d ≠ 0 then [SinkCall.CtrlButtonUp d] else [])
      ++ PSPCross.edgeCalls haptic pressed released ds

/-- `PSPCross::ProcessTouch`: the new widget and the calls made. -/
def PSPCross.ProcessTouch (L : Libm) (haptic : Bool) (c : PSPCross) (x y : ℚ) (down : Bool) :
    PSPCross × List SinkCall :=
  let dx := c.dx L x
  let dy := c.dy L y
  let rad := c.rad L x y
  let down :=
    if IEEE.lt rad (IEEE.fin deadzone) || IEEE.lt (IEEE.fin 2) rad then false else down
  let lastDown := c.down_
  let ctrlMask := if down then PSPCross.switchMask (PSPCross.direction L dy dx) else 0
  let pressed := ctrlMask &&& not32 lastDown
  let released := not32 ctrlMask &&& lastDown
  ({ c with down_ := ctrlMask }, PSPCross.edgeCalls haptic pressed released dir)

/-- `PSPCross::Touch`: the new widget and the calls made. -/
def PSPCross.Touch (L : Libm) (haptic : Bool) (c : PSPCross) (input : TouchInput) :
    PSPCross × List SinkCall :=
  let r1 : PSPCross × List SinkCall :=
    if hasFlag input.flags TOUCH_DOWN then
      if c.dragPointerId_ = -1 ∧ c.bounds_.Contains input.x input.y = true then
        PSPCross.ProcessTouch L haptic { c with dragPointerId_ := input.id } input.x input.y true
      else (c, [])
    else (c, [])
  let r2 : PSPCross × List SinkCall :=
    if hasFlag input.flags TOUCH_MOVE then
      if input.id = r1.1.dragPointerId_ then
        let r := PSPCross.ProcessTouch L haptic r1.1 input.x input.y true
        (r.1, r1.2 ++ r.2)
      else r1
    else r1
  if hasFlag input.flags TOUCH_UP then
    if input.id = r2.1.dragPointerId_ then
      let r := PSPCross.ProcessTouch L haptic { r2.1 with dragPointerId_ := -1 } input.x input.y false
      (r.1, r2.2 ++ r.2)
    else r2
  else r2

/-! ## PSPStick -/

/-- The fields of `PSPStick` that `Touch` and `ProcessTouch` read or write. -/
structure PSPStick where
  bounds_ : Bounds
  dragPointerId_ : Int
  stick_ : Int
  scale_ : ℚ
  stick_size_ : ℚ
deriving DecidableEq

/-- The constructor `PSPStick::PSPStick`: no drag pointer, `stick_size_ = 50`. -/
def PSPStick.new (bounds : Bounds) (stick : Int) (scale : ℚ) : PSPStick :=
  { bounds_ := bounds, dragPointerId_ := -1, stick_ := stick, scale_ := scale, stick_size_ := 50 }

/-- The local `inv_stick_size` of `PSPStick::ProcessTouch`:
`1.0f / (stick_size_ * scale_)` in float arithmetic. -/
def PSPStick.inv_stick_size (L : Libm) (s : PSPStick) : IEEE :=
  L.fdiv (IEEE.fin 1) (L.fmul (IEEE.fin s.stick_size_) (IEEE.fin s.scale_))

/-- The local `dx` of `PSPStick::ProcessTouch`, before clamping. -/
def PSPStick.dx (L : Libm) (s : PSPStick) (x : ℚ) : IEEE :=
  L.fmul (L.fsub (IEEE.fin x) (IEEE.fin s.bounds_.centerX)) (s.inv_stick_size L)

/-- The local `dy` of `PSPStick::ProcessTouch`, before clamping. -/
def PSPStick.dy (L : Libm) (s : PSPStick) (y : ℚ) : IEEE :=
  L.fmul (L.fsub (IEEE.fin y) (IEEE.fin s.bounds_.centerY)) (s.inv_stick_size L)

/-- `PSPStick::ProcessTouch`: the calls made (the widget is not modified). -/
def PSPStick.ProcessTouch (L : Libm) (s : PSPStick) (x y : ℚ) (down : Bool) : List SinkCall :=
  if down then
    let dx := s.dx L x
    let dy := s.dy L y
    let dx := stdMinIEEE (IEEE.fin 1) (stdMaxIEEE (IEEE.fin (-1)) dx)
    let dy := stdMinIEEE (IEEE.fin 1) (stdMaxIEEE (IEEE.fin (-1)) dy)
    [SinkCall.CtrlSetAnalogX dx s.stick_, SinkCall.CtrlSetAnalogY (IEEE.neg dy) s.stick_]
  else
    [SinkCall.CtrlSetAnalogX (IEEE.fin 0) s.stick_, SinkCall.CtrlSetAnalogY (IEEE.fin 0) s.stick_]

/-- `PSPStick::Touch`: the new widget and the calls made. -/
def PSPStick.Touch (L : Libm) (s : PSPStick) (input : TouchInput) : PSPStick × List SinkCall :=
  let r1 : PSPStick × List SinkCall :=
    if hasFlag input.flags TOUCH_DOWN then
      if s.dragPointerId_ = -1 ∧ s.bounds_.Contains input.x input.y = true then
        let s1 := { s with dragPointerId_ := input.id }
        (s1, s1.ProcessTouch L input.x input.y true)
      else (s, [])
    else (s, [])
  let r2 : PSPStick × List SinkCall :=
    if hasFlag input.flags TOUCH_MOVE then
      if input.id = r1.1.dragPointerId_ then
        (r1.1, r1.2 ++ r1.1.ProcessTouch L input.x input.y true)
      else r1
    else r1
  if hasFlag input.flags TOUCH_UP then
    if input.id = r2.1.dragPointerId_ then
      let s3 := { r2.1 with dragPointerId_ := -1 }
      (s3, r2.2 ++ s3.ProcessTouch L input.x input.y false)
    else r2
  else r2

/-! ## Events of a single kind -/

/-- A Down event: only `TOUCH_DOWN` set. -/
def downEvent (id : Int) (x y : ℚ) : TouchInput := { x := x, y := y, id := id, flags := TOUCH_DOWN }

/-- A Move event: only `TOUCH_MOVE` set. -/
def moveEvent (id : Int) (x y : ℚ) : TouchInput := { x := x, y := y, id := id, flags := TOUCH_MOVE }

/-- An Up event: only `TOUCH_UP` set. -/
def upEvent (id : Int) (x y : ℚ) : TouchInput := { x := x, y := y, id := id, flags := TOUCH_UP }

/-! ## Vocabulary of the specification -/

/-- The value `clamp(v, -1, 1)` as the specification uses it: `v` when it
lies in `[-1, 1]`, otherwise the nearer end of the interval. -/
def clampUnit (v : ℚ) : ℚ := if v < -1 then -1 else if 1 < v then 1 else v

/-- Is direction bit `d` a member of the direction mask `m`? -/
def hasDir (m d : Nat) : Bool := decide (m &&& d ≠ 0)

/-- How many of the four directions of `dir` the mask `m` contains. -/
def dirCount (m : Nat) : Nat := (dir.filter (hasDir m)).length

/-! ## Concrete widgets used to instantiate the theorems -/

/-- A 160 by 160 hit region with its centre at (80, 80). -/
def exBounds : Bounds := { x := 0, y := 0, w := 160, h := 160 }

/-- A D-pad of radius 40 at scale 1 that owns pointer 3 and holds Right+Down. -/
def exCross : PSPCross :=
  { bounds_ := exBounds, scale_ := 1, radius_ := 40, dragPointerId_ := 3,
    down_ := CTRL_RIGHT ||| CTRL_DOWN }

/-- An analog stick at scale 1 that owns pointer 3. -/
def exStick : PSPStick :=
  { bounds_ := exBounds, dragPointerId_ := 3, stick_ := 0, scale_ := 1, stick_size_ := 50 }

/-- The float `1e-41f`, a subnormal of the float format: `7136 / 2 ^ 149`,
which is `223 / 2 ^ 144`. -/
def tinyScale : ℚ := 223 / 2 ^ 144

/-- The analog stick `exStick` with `scale_` set to `1e-41f`.  The product
`stick_size_ * scale_` is the subnormal float `11150 / 2 ^ 144`, whose
reciprocal, about `2.0e39`, is beyond `FLT_MAX`. -/
def exStickTiny : PSPStick := { exStick with scale_ := tinyScale }

/-- The D-pad `exCross` with `scale_` set to `1e-41f`.  The product
`radius_ * scale_` is the subnormal float `8920 / 2 ^ 144`, whose reciprocal,
about `2.5e39`, is beyond `FLT_MAX`. -/
def exCrossTiny : PSPCross := { exCross with scale_ := tinyScale }

/-- A table of float results of `sqrtf` on finite non-negative values: exact
at 0, 1 and 9, the nearest float at 2, a coarse value elsewhere. -/
def exSqrt (v : ℚ) : ℚ :=
  if v = 0 then 0 else if v = 1 then 1
  else if v = 2 then 11863283 / 8388608 else if v = 9 then 3 else (v + 1) / 2

/-- A floating-point environment for instantiating theorems.  No rounding is
applied to finite results, so it agrees with the float unit wherever the exact
result is a float or overflows.  `sqrtf` is the table `exSqrt`, keeps zeros and
plus infinity and gives NaN on negative values and NaN; `atan2f` is the nearest
float to `M_PI / 4` on the diagonal `dy = dx > 0`, 0 on other finite arguments
and NaN otherwise; the conversion of a float that is not finite to `int` gives
`INT_MIN`, as on x86. -/
def exLibm : Libm :=
  { round := fun q => q
    sqrtf := fun v =>
      match v with
      | .fin q => if q < 0 then IEEE.nan else IEEE.fin (exSqrt q)
      | .negZero => IEEE.negZero
      | .inf false => IEEE.inf false
      | _ => IEEE.nan
    atan2f := fun dy dx =>
      match dy.value?, dx.value? with
      | some p, some q => if p = q ∧ 0 < q then IEEE.fin (13176795 / 16777216) else IEEE.fin 0
      | _, _ => IEEE.nan
    intOfNonFinite := fun _ => -2147483648 }

/-! ## The pad layout -/

/-- The fields of `g_Config` that `InitPadLayout` and `CreatePadLayout` read or
write. -/
structure Config where
  fButtonScale : ℚ
  bShowAnalogStick : Bool
  bShowTouchControls : Bool
  iActionButtonSpacing : Int
  iActionButtonCenterX : Int
  iActionButtonCenterY : Int
  iDpadRadius : Int
  iDpadX : Int
  iDpadY : Int
  iAnalogStickX : Int
  iAnalogStickY : Int
  iStartKeyX : Int
  iStartKeyY : Int
  iSelectKeyX : Int
  iSelectKeyY : Int
  iUnthrottleKeyX : Int
  iUnthrottleKeyY : Int
  iLKeyX : Int
  iLKeyY : Int
  iRKeyX : Int
  iRKeyY : Int
deriving DecidableEq

/-- Conversion of a `float` or `double` to `int`: truncation toward zero.
`int` values are unbounded integers here; overflow is not represented. -/
def toInt (q : ℚ) : Int := if 0 ≤ q then ⌊q⌋ else ⌈q⌉

/-- The local `Action_button_spacing` of `InitPadLayout`. -/
def Action_button_spacing (scale : ℚ) : Int := toInt (50 * scale)

/-- The local `Action_button_center_X` of `InitPadLayout`. -/
def Action_button_center_X (dp_xres : Int) (scale : ℚ) : Int :=
  dp_xres - Action_button_spacing scale * 2

/-- The local `Action_button_center_Y` of `InitPadLayout`. -/
def Action_button_center_Y (dp_yres : Int) (scale : ℚ) : Int :=
  dp_yres - Action_button_spacing scale * 2

/-- The local `D_pad_Radius` of `InitPadLayout`. -/
def D_pad_Radius (scale : ℚ) : Int := toInt (40 * scale)

/-- The local `D_pad_X` of `InitPadLayout`. -/
def D_pad_X (scale : ℚ) : Int := toInt (5 / 2 * (D_pad_Radius scale : ℚ))

/-- The local `D_pad_Y` of `InitPadLayout`, after the adjustment made when the
analog stick is shown. -/
def D_pad_Y (dp_yres : Int) (scale : ℚ) (showStick : Bool) : Int :=
  let D_pad_Y := dp_yres - D_pad_Radius scale
  if showStick then toInt ((D_pad_Y : ℚ) - 200 * scale) else D_pad_Y

/-- The local `analog_stick_Y` of `InitPadLayout`. -/
def analog_stick_Y (dp_yres : Int) (scale : ℚ) : Int := toInt ((dp_yres : ℚ) - 80 * scale)

/-- The local `bottom_key_spacing` of `InitPadLayout`. -/
def bottom_key_spacing (scale : ℚ) : Int := toInt (100 * scale)

/-- The local `start_key_X` of `InitPadLayout`; `dp_xres / 2` is the division
of `int`, which truncates. -/
def start_key_X (dp_xres : Int) (scale : ℚ) : Int :=
  toInt ((Int.tdiv dp_xres 2 : ℚ) + (bottom_key_spacing scale : ℚ) * scale)

/-- The locals `start_key_Y`, `select_key_Y` and `unthrottle_key_Y` of
`InitPadLayout`, all `dp_yres - 60 * scale`. -/
def bottom_key_Y (dp_yres : Int) (scale : ℚ) : Int := toInt ((dp_yres : ℚ) - 60 * scale)

/-- The local `select_key_X` of `InitPadLayout`. -/
def select_key_X (dp_xres : Int) : Int := Int.tdiv dp_xres 2

/-- The local `unthrottle_key_X` of `InitPadLayout`. -/
def unthrottle_key_X (dp_xres : Int) (scale : ℚ) : Int :=
  toInt ((Int.tdiv dp_xres 2 : ℚ) - (bottom_key_spacing scale : ℚ) * scale)

/-- The local `l_key_X` of `InitPadLayout`. -/
def l_key_X (scale : ℚ) : Int := toInt (70 * scale)

/-- The locals `l_key_Y` and `r_key_Y` of `InitPadLayout`, both `40 * scale`. -/
def shoulder_key_Y (scale : ℚ) : Int := toInt (40 * scale)

/-- The local `r_key_X` of `InitPadLayout`. -/
def r_key_X (dp_xres : Int) (scale : ℚ) : Int := toInt ((dp_xres : ℚ) - 60 * scale)

/-- The block of `InitPadLayout` that sets `iActionButtonSpacing`. -/
def InitPadLayout.actionButtonSpacing (g : Config) : Config :=
  if g.iActionButtonSpacing = -1 then
    { g with iActionButtonSpacing := Action_button_spacing g.fButtonScale }
  else g

/-- The block of `InitPadLayout` that sets `iActionButtonCenterX` and
`iActionButtonCenterY`. -/
def InitPadLayout.actionButtonCenter (dp_xres dp_yres : Int) (g : Config) : Config :=
  if g.iActionButtonCenterX = -1 ∨ g.iActionButtonCenterY = -1 then
    { g with iActionButtonCenterX := Action_button_center_X dp_xres g.fButtonScale
             iActionButtonCenterY := Action_button_center_Y dp_yres g.fButtonScale }
  else g

/-- The block of `InitPadLayout` that sets `iDpadRadius`. -/
def InitPadLayout.dpadRadius (g : Config) : Config :=
  if g.iDpadRadius = -1 then { g with iDpadRadius := D_pad_Radius g.fButtonScale } else g

/-- The block of `InitPadLayout` that sets `iDpadX` and `iDpadY`. -/
def InitPadLayout.dpad (dp_yres : Int) (g : Config) : Config :=
  if g.iDpadX = -1 ∨ g.iDpadY = -1 then
    { g with iDpadX := D_pad_X g.fButtonScale
             iDpadY := D_pad_Y dp_yres g.fButtonScale g.bShowAnalogStick }
  else g

/-- The block of `InitPadLayout` that sets `iAnalogStickX` and `iAnalogStickY`;
`analog_stick_X` is `D_pad_X`. -/
def InitPadLayout.analogStick (dp_yres : Int) (g : Config) : Config :=
  if g.iAnalogStickX = -1 ∨ g.iAnalogStickY = -1 then
    { g with iAnalogStickX := D_pad_X g.fButtonScale
             iAnalogStickY := analog_stick_Y dp_yres g.fButtonScale }
  else g

/-- The block of `InitPadLayout` that sets `iStartKeyX` and `iStartKeyY`. -/
def InitPadLayout.startKey (dp_xres dp_yres : Int) (g : Config) : Config :=
  if g.iStartKeyX = -1 ∨ g.iStartKeyY = -1 then
    { g with iStartKeyX := start_key_X dp_xres g.fButtonScale
             iStartKeyY := bottom_key_Y dp_yres g.fButtonScale }
  else g

/-- The block of `InitPadLayout` that sets `iSelectKeyX` and `iSelectKeyY`. -/
def InitPadLayout.selectKey (dp_xres dp_yres : Int) (g : Config) : Config :=
  if g.iSelectKeyX = -1 ∨ g.iSelectKeyY = -1 then
    { g with iSelectKeyX := select_key_X dp_xres
             iSelectKeyY := bottom_key_Y dp_yres g.fButtonScale }
  else g

/-- The block of `InitPadLayout` that sets `iUnthrottleKeyX` and
`iUnthrottleKeyY`. -/
def InitPadLayout.unthrottleKey (dp_xres dp_yres : Int) (g : Config) : Config :=
  if g.iUnthrottleKeyX = -1 ∨ g.iUnthrottleKeyY = -1 then
    { g with iUnthrottleKeyX := unthrottle_key_X dp_xres g.fButtonScale
             iUnthrottleKeyY := bottom_key_Y dp_yres g.fButtonScale }
  else g

/-- The block of `InitPadLayout` that sets `iLKeyX` and `iLKeyY`. -/
def InitPadLayout.lKey (g : Config) : Config :=
  if g.iLKeyX = -1 ∨ g.iLKeyY = -1 then
    { g with iLKeyX := l_key_X g.fButtonScale
             iLKeyY := shoulder_key_Y g.fButtonScale }
  else g

/-- The block of `InitPadLayout` that sets `iRKeyX` and `iRKeyY`. -/
def InitPadLayout.rKey (dp_xres : Int) (g : Config) : Config :=
  if g.iRKeyX = -1 ∨ g.iRKeyY = -1 then
    { g with iRKeyX := r_key_X dp_xres g.fButtonScale
             iRKeyY := shoulder_key_Y g.fButtonScale }
  else g

/-- `InitPadLayout`, as a function of the display size `dp_xres`, `dp_yres` and
of `g_Config`, returning the new `g_Config`: its ten `if` blocks in program
order (the innermost application runs first).  No block writes
`fButtonScale` or `bShowAnalogStick`, so each block reads the scale from the
configuration it receives. -/
def InitPadLayout (dp_xres dp_yres : Int) (g : Config) : Config :=
  InitPadLayout.rKey dp_xres
    (InitPadLayout.lKey
      (InitPadLayout.unthrottleKey dp_xres dp_yres
        (InitPadLayout.selectKey dp_xres dp_yres
          (InitPadLayout.startKey dp_xres dp_yres
            (InitPadLayout.analogStick dp_yres
              (InitPadLayout.dpad dp_yres
                (InitPadLayout.dpadRadius
                  (InitPadLayout.actionButtonCenter dp_xres dp_yres
                    (InitPadLayout.actionButtonSpacing g)))))))))

/-- The widgets that `CreatePadLayout` adds to the root layout. -/
inductive PadWidget where
  | pause | circle | cross | triangle | square | start | select | unthrottle
  | ltrigger | rtrigger
  | dpad (radius : Int)
  | analogStick
deriving DecidableEq

/-- One `root->Add(...)` of `CreatePadLayout`: the widget and the position given
to its `AnchorLayoutParams`. -/
structure Placement where
  widget : PadWidget
  x : Int
  y : Int
deriving DecidableEq

/-- `CreatePadLayout`: the widgets added and their positions, in program
order.  `usePause` is the platform macro `USE_PAUSE_BUTTON`. -/
def CreatePadLayout (usePause : Bool) (dp_xres : Int) (g : Config) : List Placement :=
  let Action_button_spacing := g.iActionButtonSpacing
  let Action_button_center_X := g.iActionButtonCenterX
  let Action_button_center_Y := g.iActionButtonCenterY
  let halfW := Int.tdiv dp_xres 2
  if g.bShowTouchControls then
    (if usePause then [Placement.mk PadWidget.pause halfW 20] else [])
    ++ [ ⟨PadWidget.circle, Action_button_center_X + Action_button_spacing, Action_button_center_Y⟩,
         ⟨PadWidget.cross, Action_button_center_X, Action_button_center_Y + Action_button_spacing⟩,
         ⟨PadWidget.triangle, Action_button_center_X,
            Action_button_center_Y - Action_button_spacing⟩,
         ⟨PadWidget.square, Action_button_center_X - Action_button_spacing, Action_button_center_Y⟩,
         ⟨PadWidget.start, g.iStartKeyX, g.iStartKeyY⟩,
         ⟨PadWidget.select, g.iSelectKeyX, g.iSelectKeyY⟩,
         ⟨PadWidget.unthrottle, g.iUnthrottleKeyX, g.iUnthrottleKeyY⟩,
         ⟨PadWidget.ltrigger, g.iLKeyX, g.iLKeyY⟩,
         ⟨PadWidget.rtrigger, g.iRKeyX, g.iRKeyY⟩,
         ⟨PadWidget.dpad g.iDpadRadius, g.iDpadX, g.iDpadY⟩ ]
    ++ (if g.bShowAnalogStick then [⟨PadWidget.analogStick, g.iAnalogStickX, g.iAnalogStickY⟩]
        else [])
  else []

/-- Every persisted layout field holds the sentinel -1. -/
def Config.allUnset (g : Config) : Prop :=
  g.iActionButtonSpacing = -1 ∧ g.iActionButtonCenterX = -1 ∧ g.iActionButtonCenterY = -1
  ∧ g.iDpadRadius = -1 ∧ g.iDpadX = -1 ∧ g.iDpadY = -1
  ∧ g.iAnalogStickX = -1 ∧ g.iAnalogStickY = -1
  ∧ g.iStartKeyX = -1 ∧ g.iStartKeyY = -1 ∧ g.iSelectKeyX = -1 ∧ g.iSelectKeyY = -1
  ∧ g.iUnthrottleKeyX = -1 ∧ g.iUnthrottleKeyY = -1
  ∧ g.iLKeyX = -1 ∧ g.iLKeyY = -1 ∧ g.iRKeyX = -1 ∧ g.iRKeyY = -1

/-- The persisted layout fields of a configuration, in the order of
`InitPadLayout`. -/
def Config.layoutFields (g : Config) : List Int :=
  [g.iActionButtonSpacing, g.iActionButtonCenterX, g.iActionButtonCenterY, g.iDpadRadius,
    g.iDpadX, g.iDpadY, g.iAnalogStickX, g.iAnalogStickY, g.iStartKeyX, g.iStartKeyY,
    g.iSelectKeyX, g.iSelectKeyY, g.iUnthrottleKeyX, g.iUnthrottleKeyY, g.iLKeyX, g.iLKeyY,
    g.iRKeyX, g.iRKeyY]

/-- A configuration with every layout field unset, scale 1 and the analog
stick shown. -/
def exConfig : Config :=
  { fButtonScale := 1, bShowAnalogStick := true, bShowTouchControls := true,
    iActionButtonSpacing := -1, iActionButtonCenterX := -1, iActionButtonCenterY := -1,
    iDpadRadius := -1, iDpadX := -1, iDpadY := -1, iAnalogStickX := -1, iAnalogStickY := -1,
    iStartKeyX := -1, iStartKeyY := -1, iSelectKeyX := -1, iSelectKeyY := -1,
    iUnthrottleKeyX := -1, iUnthrottleKeyY := -1, iLKeyX := -1, iLKeyY := -1,
    iRKeyX := -1, iRKeyY := -1 }

/-- The configuration `exConfig` after the user has set `iDpadX` to 5: the
D-pad's X is set, its Y is still the sentinel. -/
def exConfigHalfSet : Config := { exConfig with iDpadX := 5 }

/-! ## Sequences of events and the button register -/

/-- A sequence of events delivered to one `MultiTouchButton`, in order. -/
def MultiTouchButton.run (b : MultiTouchButton) (evs : List TouchInput) : MultiTouchButton :=
  evs.foldl MultiTouchButton.Touch b

/-- A sequence of events delivered to one `PSPCross`, in order: the widget
after the last event. -/
def PSPCross.run (L : Libm) (haptic : Bool) (c : PSPCross) (evs : List TouchInput) : PSPCross :=
  evs.foldl (fun w e => (PSPCross.Touch L haptic w e).1) c

/-- A sequence of events delivered to one `PSPStick`, in order: the widget
after the last event. -/
def PSPStick.run (L : Libm) (s : PSPStick) (evs : List TouchInput) : PSPStick :=
  evs.foldl (fun w e => (PSPStick.Touch L w e).1) s

/-- An event that can put pointer `i` into the mask of a button with the given
bounds: a Down or Move of `i` whose position is inside the bounds. -/
def isCapture (bounds : Bounds) (i : Int) (e : TouchInput) : Bool :=
  decide (e.id = i) && (hasFlag e.flags TOUCH_DOWN || hasFlag e.flags TOUCH_MOVE)
    && bounds.Contains e.x e.y

/-- An event that takes pointer `i` out of the mask: an Up of `i`, or a Move of
`i` whose position is outside the bounds. -/
def isRelease (bounds : Bounds) (i : Int) (e : TouchInput) : Bool :=
  decide (e.id = i)
    && (hasFlag e.flags TOUCH_UP
        || (hasFlag e.flags TOUCH_MOVE && !bounds.Contains e.x e.y))

/-- Modelled from the spec: `__CtrlButtonDown` of the input sink
(`Core/HLE/sceCtrl.cpp`, not part of the sources), which sets the bits of
`bit` in the button-bit register. -/
def CtrlButtonDown (buttons bit : Nat) : Nat := buttons ||| bit

/-- Modelled from the spec: `__CtrlButtonUp` of the input sink, which clears
the bits of `bit` in the button-bit register. -/
def CtrlButtonUp (buttons bit : Nat) : Nat := buttons &&& not32 bit

/-- Modelled from the spec: `__CtrlPeekButtons` of the input sink, which
returns the button-bit register. -/
def CtrlPeekButtons (buttons : Nat) : Nat := buttons

/-- The effect of one call on the button-bit register; only the two button
calls change it. -/
def applyCall (buttons : Nat) : SinkCall → Nat
  | .CtrlButtonDown bit => CtrlButtonDown buttons bit
  | .CtrlButtonUp bit => CtrlButtonUp buttons bit
  | _ => buttons

/-- `PSPButton::IsDown`, reading the button-bit register `buttons`. -/
def PSPButton.IsDown (b : PSPButton) (buttons : Nat) : Bool :=
  decide (CtrlPeekButtons buttons &&& b.pspButtonBit_ ≠ 0)

/-- The angle of the axis or diagonal of the half-axis or open quadrant in
which the offset `(dx, dy)` lies; the arguments are not NaN, a zero of either
sign lies on the axis. -/
def quadAngle (dy dx : IEEE) : ℚ :=
  if IEEE.lt (IEEE.fin 0) dx then
    (if IEEE.lt (IEEE.fin 0) dy then M_PI / 4
      else if IEEE.lt dy (IEEE.fin 0) then -(M_PI / 4) else 0)
  else if IEEE.lt dx (IEEE.fin 0) then
    (if IEEE.lt (IEEE.fin 0) dy then 3 * M_PI / 4
      else if IEEE.lt dy (IEEE.fin 0) then -(3 * M_PI / 4) else M_PI)
  else
    (if IEEE.lt (IEEE.fin 0) dy then M_PI / 2
      else if IEEE.lt dy (IEEE.fin 0) then -(M_PI / 2) else 0)

/-- A coarse floating-point environment for instantiating theorems: `atan2f`
is NaN when an argument is NaN and `quadAngle` otherwise; the rest is that of
`exLibm`. -/
def quadLibm : Libm :=
  { round := exLibm.round
    sqrtf := exLibm.sqrtf
    atan2f := fun dy dx =>
      if dy = IEEE.nan ∨ dx = IEEE.nan then IEEE.nan else IEEE.fin (quadAngle dy dx)
    intOfNonFinite := exLibm.intOfNonFinite }

/-! ## Division by zero without rounding

For the statements about a divisor that is exactly zero, `ProcessTouch` is
embedded once more with the float operations taken without the rounding step:
a zero product is exact, and no finite quotient is formed from it.
-/

/-- `PSPStick::ProcessTouch` with the float operations taken without the
rounding step: the values passed to `__CtrlSetAnalogX` and to
`__CtrlSetAnalogY`.  The fields of the widget and the touch position are
finite. -/
def PSPStick.ProcessTouchIEEE (s : PSPStick) (x y : ℚ) (down : Bool) : IEEE × IEEE :=
  if down then
    let inv_stick_size :=
      IEEE.div (IEEE.fin 1) (IEEE.mul (IEEE.fin s.stick_size_) (IEEE.fin s.scale_))
    let dx := IEEE.mul (IEEE.sub (IEEE.fin x) (IEEE.fin s.bounds_.centerX)) inv_stick_size
    let dy := IEEE.mul (IEEE.sub (IEEE.fin y) (IEEE.fin s.bounds_.centerY)) inv_stick_size
    let dx := stdMinIEEE (IEEE.fin 1) (stdMaxIEEE (IEEE.fin (-1)) dx)
    let dy := stdMinIEEE (IEEE.fin 1) (stdMaxIEEE (IEEE.fin (-1)) dy)
    (dx, IEEE.neg dy)
  else
    (IEEE.fin 0, IEEE.fin 0)

/-- The C library on floats with special values: `sqrtf`, and `octant`, the
value of `(int)(floorf((atan2f(dy, dx) / (2 * M_PI) * 8) + 0.5f))`, whose
conversion to `int` is left to the hardware when the float is not finite. -/
structure LibmIEEE where
  sqrtf : IEEE → IEEE
  octant : IEEE → IEEE → Int

/-- `PSPCross::ProcessTouch` with the float operations taken without the
rounding step: the new widget and the calls made. -/
def PSPCross.ProcessTouchIEEE (M : LibmIEEE) (haptic : Bool) (c : PSPCross) (x y : ℚ)
    (down : Bool) : PSPCross × List SinkCall :=
  let inv_stick_size :=
    IEEE.div (IEEE.fin 1) (IEEE.mul (IEEE.fin c.radius_) (IEEE.fin c.scale_))
  let dx := IEEE.mul (IEEE.sub (IEEE.fin x) (IEEE.fin c.bounds_.centerX)) inv_stick_size
  let dy := IEEE.mul (IEEE.sub (IEEE.fin y) (IEEE.fin c.bounds_.centerY)) inv_stick_size
  let rad := M.sqrtf (IEEE.add (IEEE.mul dx dx) (IEEE.mul dy dy))
  let down := if IEEE.lt rad (IEEE.fin deadzone) || IEEE.lt (IEEE.fin 2) rad then false else down
  let lastDown := c.down_
  let ctrlMask := if down then PSPCross.switchMask (M.octant dy dx % 8) else 0
  let pressed := ctrlMask &&& not32 lastDown
  let released := not32 ctrlMask &&& lastDown
  ({ c with down_ := ctrlMask }, PSPCross.edgeCalls haptic pressed released dir)

/-- The analog stick `exStick` with `scale_` set to 0. -/
def exStickZero : PSPStick := { exStick with scale_ := 0 }

/-- The D-pad `exCross` with `scale_` set to 0. -/
def exCrossZero : PSPCross := { exCross with scale_ := 0 }

/-- A C library on floats with special values for instantiating theorems:
`sqrtf` keeps infinities and NaN, `octant` is 0. -/
def exLibmIEEE : LibmIEEE :=
  { sqrtf := fun v =>
      match v with
      | .fin q => IEEE.fin (exSqrt q)
      | .negZero => IEEE.negZero
      | .inf false => IEEE.inf false
      | _ => IEEE.nan
    octant := fun _ _ => 0 }

/-! ## Theorems: PSPButton edges -/

theorem PSPButton.Touch_widget (haptic : Bool) (b : PSPButton) (e : TouchInput) :
    (PSPButton.Touch haptic b e).1 =
      { b with toMultiTouchButton := b.toMultiTouchButton.Touch e } := by
  unfold PSPButton.Touch
  dsimp only
  split_ifs <;> rfl

theorem PSPButton.Touch_countDown (haptic : Bool) (b : PSPButton) (e : TouchInput) :
    (PSPButton.Touch haptic b e).2.countP SinkCall.isButtonDown =
      if b.pointerDownMask_ = 0 ∧ (b.toMultiTouchButton.Touch e).pointerDownMask_ ≠ 0
        then 1 else 0 := by
  unfold PSPButton.Touch
  by_cases h0 : b.pointerDownMask_ = 0 <;>
    by_cases h1 : (b.toMultiTouchButton.Touch e).pointerDownMask_ = 0 <;>
    cases haptic <;> simp [h0, h1, SinkCall.isButtonDown, List.countP_cons]

theorem PSPButton.Touch_countUp (haptic : Bool) (b : PSPButton) (e : TouchInput) :
    (PSPButton.Touch haptic b e).2.countP SinkCall.isButtonUp =
      if b.pointerDownMask_ ≠ 0 ∧ (b.toMultiTouchButton.Touch e).pointerDownMask_ = 0
        then 1 else 0 := by
  unfold PSPButton.Touch
  by_cases h0 : b.pointerDownMask_ = 0 <;>
    by_cases h1 : (b.toMultiTouchButton.Touch e).pointerDownMask_ = 0 <;>
    cases haptic <;> simp [h0, h1, SinkCall.isButtonUp, List.countP_cons]

theorem PSPButton.Touch_countVibrate (haptic : Bool) (b : PSPButton) (e : TouchInput) :
    (PSPButton.Touch haptic b e).2.countP SinkCall.isVibrate =
      if haptic = true ∧ b.pointerDownMask_ = 0 ∧
          (b.toMultiTouchButton.Touch e).pointerDownMask_ ≠ 0
        then 1 else 0 := by
  unfold PSPButton.Touch
  by_cases h0 : b.pointerDownMask_ = 0 <;>
    by_cases h1 : (b.toMultiTouchButton.Touch e).pointerDownMask_ = 0 <;>
    cases haptic <;> simp [h0, h1, SinkCall.isVibrate, List.countP_cons]

theorem PSPButton.run_counts (haptic : Bool) (evs : List TouchInput) :
    ∀ b : PSPButton,
      (PSPButton.run haptic b evs).2.countP SinkCall.isButtonDown
          = risingEdges b.toMultiTouchButton evs
      ∧ (PSPButton.run haptic b evs).2.countP SinkCall.isButtonUp
          = fallingEdges b.toMultiTouchButton evs
      ∧ (PSPButton.run haptic b evs).2.countP SinkCall.isVibrate
          = if haptic = true then risingEdges b.toMultiTouchButton evs else 0 := by
  induction evs with
  | nil => intro b; simp [PSPButton.run, risingEdges, fallingEdges]
  | cons e es ih =>
    intro b
    obtain ⟨hd, hu, hv⟩ := ih (PSPButton.Touch haptic b e).1
    have hw : (PSPButton.Touch haptic b e).1.toMultiTouchButton
        = b.toMultiTouchButton.Touch e := by rw [PSPButton.Touch_widget]
    rw [hw] at hd hu hv
    refine ⟨?_, ?_, ?_⟩
    · simp only [PSPButton.run, List.countP_append, risingEdges, PSPButton.Touch_countDown]
      rw [hd]
    · simp only [PSPButton.run, List.countP_append, fallingEdges, PSPButton.Touch_countUp]
      rw [hu]
    · simp only [PSPButton.run, List.countP_append, risingEdges, PSPButton.Touch_countVibrate]
      rw [hv]
      cases haptic <;> simp

/-- C1: for every PSPButton, starting mask and sequence of touch events with
pointer IDs in 0..31, the number of `__CtrlButtonDown` calls is the number of
events across which `pointerDownMask_ != 0` goes from false to true, the
number of `__CtrlButtonUp` calls is the number of true-to-false transitions,
and an event reaching a button whose mask is already non-zero (a second
pointer joining) makes no `__CtrlButtonDown` and no `Vibrate` call. -/
theorem PSPButton_edge_counts (haptic : Bool) (b : PSPButton) (evs : List TouchInput)
    (_hid : ∀ e ∈ evs, 0 ≤ e.id ∧ e.id < 32) :
    (PSPButton.run haptic b evs).2.countP SinkCall.isButtonDown
        = risingEdges b.toMultiTouchButton evs
    ∧ (PSPButton.run haptic b evs).2.countP SinkCall.isButtonUp
        = fallingEdges b.toMultiTouchButton evs
    ∧ (∀ e : TouchInput, 0 ≤ e.id ∧ e.id < 32 → b.pointerDownMask_ ≠ 0 →
        ∀ c ∈ (PSPButton.Touch haptic b e).2,
          c.isButtonDown = false ∧ c.isVibrate = false) := by
  refine ⟨(PSPButton.run_counts haptic evs b).1, (PSPButton.run_counts haptic evs b).2.1, ?_⟩
  intro e _ hne c hc
  have hd := PSPButton.Touch_countDown haptic b e
  have hv := PSPButton.Touch_countVibrate haptic b e
  simp only [hne, false_and, and_false, if_false, List.countP_eq_zero] at hd hv
  exact ⟨by simpa using hd c hc, by simpa using hv c hc⟩

/-- Witness for C1: two fingers go down on a button and are lifted again. -/
theorem PSPButton_edge_counts_witness :
    (∀ e ∈ [downEvent 0 5 5, downEvent 1 6 6, upEvent 0 5 5, upEvent 1 6 6],
        0 ≤ e.id ∧ e.id < 32)
    ∧ ((PSPButton.run true ⟨⟨⟨0, 0, 10, 10⟩, 0⟩, 0x4000⟩
          [downEvent 0 5 5, downEvent 1 6 6, upEvent 0 5 5, upEvent 1 6 6]).2.countP
            SinkCall.isButtonDown
        = risingEdges ⟨⟨0, 0, 10, 10⟩, 0⟩
            [downEvent 0 5 5, downEvent 1 6 6, upEvent 0 5 5, upEvent 1 6 6]
      ∧ (PSPButton.run true ⟨⟨⟨0, 0, 10, 10⟩, 0⟩, 0x4000⟩
          [downEvent 0 5 5, downEvent 1 6 6, upEvent 0 5 5, upEvent 1 6 6]).2.countP
            SinkCall.isButtonUp
        = fallingEdges ⟨⟨0, 0, 10, 10⟩, 0⟩
            [downEvent 0 5 5, downEvent 1 6 6, upEvent 0 5 5, upEvent 1 6 6]
      ∧ (∀ e : TouchInput, 0 ≤ e.id ∧ e.id < 32 →
          (⟨⟨⟨0, 0, 10, 10⟩, 0⟩, 0x4000⟩ : PSPButton).pointerDownMask_ ≠ 0 →
          ∀ c ∈ (PSPButton.Touch true ⟨⟨⟨0, 0, 10, 10⟩, 0⟩, 0x4000⟩ e).2,
            c.isButtonDown = false ∧ c.isVibrate = false)) :=
  ⟨by simp [downEvent, upEvent],
   PSPButton_edge_counts true ⟨⟨⟨0, 0, 10, 10⟩, 0⟩, 0x4000⟩
     [downEvent 0 5 5, downEvent 1 6 6, upEvent 0 5 5, upEvent 1 6 6]
     (by simp [downEvent, upEvent])⟩

/-! ## Theorems: the pointer mask -/

theorem testBit_high (m j : Nat) (hm : m < 2 ^ 32) (hj : 32 ≤ j) : m.testBit j = false :=
  Nat.testBit_lt_two_pow (lt_of_lt_of_le hm (Nat.pow_le_pow_right (by norm_num) hj))

theorem testBit_setBit (m : Nat) (id : Int) (j : Nat) (hm : m < 2 ^ 32)
    (h0 : 0 ≤ id) (h1 : id < 32) :
    (u32 (m ||| shl1 id)).testBit j = (m.testBit j || decide (j = id.toNat)) := by
  have hi : id.toNat < 32 := by omega
  unfold u32 shl1
  rw [Nat.testBit_mod_two_pow, Nat.testBit_or, Nat.one_shiftLeft, Nat.testBit_two_pow]
  by_cases hj : j < 32
  · simp [hj, eq_comm]
  · have hne : j ≠ id.toNat := by omega
    simp [hj, hne, testBit_high m j hm (by omega)]

theorem testBit_clearBit (m : Nat) (id : Int) (j : Nat) (hm : m < 2 ^ 32)
    (h0 : 0 ≤ id) (h1 : id < 32) :
    (m &&& not32 (shl1 id)).testBit j = (m.testBit j && !decide (j = id.toNat)) := by
  have hi : id.toNat < 32 := by omega
  have hF : (0xFFFFFFFF : Nat) = 2 ^ 32 - 1 := by norm_num
  unfold not32 u32 shl1
  rw [Nat.testBit_and, Nat.testBit_xor, Nat.testBit_mod_two_pow, Nat.one_shiftLeft,
    Nat.testBit_two_pow, hF, Nat.testBit_two_pow_sub_one]
  by_cases hj : j < 32
  · by_cases hji : j = id.toNat
    · simp [hj, hji]
    · have : ¬ id.toNat = j := fun h => hji h.symm
      simp [hj, hji, this]
  · have hne : j ≠ id.toNat := by omega
    simp [hj, hne, testBit_high m j hm (by omega)]

theorem setBit_lt (m : Nat) (id : Int) : u32 (m ||| shl1 id) < 2 ^ 32 :=
  Nat.mod_lt _ (by norm_num)

theorem clearBit_lt (m : Nat) (id : Int) (hm : m < 2 ^ 32) : m &&& not32 (shl1 id) < 2 ^ 32 :=
  lt_of_le_of_lt Nat.and_le_left hm

theorem hasFlag_single :
    hasFlag TOUCH_DOWN TOUCH_DOWN = true ∧ hasFlag TOUCH_DOWN TOUCH_MOVE = false
    ∧ hasFlag TOUCH_DOWN TOUCH_UP = false ∧ hasFlag TOUCH_MOVE TOUCH_DOWN = false
    ∧ hasFlag TOUCH_MOVE TOUCH_MOVE = true ∧ hasFlag TOUCH_MOVE TOUCH_UP = false
    ∧ hasFlag TOUCH_UP TOUCH_DOWN = false ∧ hasFlag TOUCH_UP TOUCH_MOVE = false
    ∧ hasFlag TOUCH_UP TOUCH_UP = true := by decide

theorem MultiTouchButton.button_Touch_down (b : MultiTouchButton) (id : Int) (x y : ℚ) :
    b.Touch (downEvent id x y) =
      if b.bounds_.Contains x y then
        { b with pointerDownMask_ := u32 (b.pointerDownMask_ ||| shl1 id) }
      else b := by
  obtain ⟨h1, h2, h3, -⟩ := hasFlag_single
  simp [MultiTouchButton.Touch, downEvent, h1, h2, h3]

theorem MultiTouchButton.button_Touch_move (b : MultiTouchButton) (id : Int) (x y : ℚ) :
    b.Touch (moveEvent id x y) =
      if b.bounds_.Contains x y then
        { b with pointerDownMask_ := u32 (b.pointerDownMask_ ||| shl1 id) }
      else
        { b with pointerDownMask_ := b.pointerDownMask_ &&& not32 (shl1 id) } := by
  obtain ⟨-, -, -, h1, h2, h3, -⟩ := hasFlag_single
  simp [MultiTouchButton.Touch, moveEvent, h1, h2, h3]

theorem MultiTouchButton.button_Touch_up (b : MultiTouchButton) (id : Int) (x y : ℚ) :
    b.Touch (upEvent id x y) =
      { b with pointerDownMask_ := b.pointerDownMask_ &&& not32 (shl1 id) } := by
  obtain ⟨-, -, -, -, -, -, h1, h2, h3⟩ := hasFlag_single
  simp [MultiTouchButton.Touch, upEvent, h1, h2, h3]

/-- C2: for an event with pointer ID `id` in 0..31, `MultiTouchButton::Touch`
changes the pointer mask as follows, bit by bit: a Down event sets bit `id`
iff the position is inside the bounds and otherwise leaves the mask as it is;
a Move event sets bit `id` when the position is inside the bounds and clears it
otherwise; an Up event clears bit `id` whatever the position, and leaves the
mask as it is when the bit was clear.  Every other bit keeps its value. -/
theorem MultiTouchButton_Touch_mask (b : MultiTouchButton) (id : Int) (x y : ℚ)
    (hm : b.pointerDownMask_ < 2 ^ 32) (h0 : 0 ≤ id) (h1 : id < 32) :
    (∀ j, (b.Touch (downEvent id x y)).pointerDownMask_.testBit j
        = if j = id.toNat then (b.pointerDownMask_.testBit j || b.bounds_.Contains x y)
          else b.pointerDownMask_.testBit j)
    ∧ (b.bounds_.Contains x y = false →
        (b.Touch (downEvent id x y)).pointerDownMask_ = b.pointerDownMask_)
    ∧ (∀ j, (b.Touch (moveEvent id x y)).pointerDownMask_.testBit j
        = if j = id.toNat then b.bounds_.Contains x y else b.pointerDownMask_.testBit j)
    ∧ (∀ j, (b.Touch (upEvent id x y)).pointerDownMask_.testBit j
        = if j = id.toNat then false else b.pointerDownMask_.testBit j)
    ∧ (b.pointerDownMask_.testBit id.toNat = false →
        (b.Touch (upEvent id x y)).pointerDownMask_ = b.pointerDownMask_) := by
  have hup : ∀ j, (b.Touch (upEvent id x y)).pointerDownMask_.testBit j
      = if j = id.toNat then false else b.pointerDownMask_.testBit j := by
    intro j
    rw [MultiTouchButton.button_Touch_up]
    dsimp only
    rw [testBit_clearBit _ _ _ hm h0 h1]
    by_cases hj : j = id.toNat <;> simp [hj]
  refine ⟨?_, ?_, ?_, hup, ?_⟩
  · intro j
    rw [MultiTouchButton.button_Touch_down]
    by_cases hc : b.bounds_.Contains x y = true
    · rw [if_pos hc]
      dsimp only
      rw [testBit_setBit _ _ _ hm h0 h1]
      by_cases hj : j = id.toNat <;> simp [hj, hc]
    · rw [if_neg hc]
      by_cases hj : j = id.toNat <;> simp [hj, hc]
  · intro hc
    rw [MultiTouchButton.button_Touch_down]
    simp [hc]
  · intro j
    rw [MultiTouchButton.button_Touch_move]
    by_cases hc : b.bounds_.Contains x y = true
    · rw [if_pos hc]
      dsimp only
      rw [testBit_setBit _ _ _ hm h0 h1]
      by_cases hj : j = id.toNat <;> simp [hj, hc]
    · rw [if_neg hc]
      dsimp only
      rw [testBit_clearBit _ _ _ hm h0 h1]
      by_cases hj : j = id.toNat <;> simp [hj, hc]
  · intro hclear
    apply Nat.eq_of_testBit_eq
    intro j
    rw [hup j]
    by_cases hj : j = id.toNat
    · rw [if_pos hj, hj, hclear]
    · rw [if_neg hj]

/-- Witness for C2: pointer 3 on a button that already holds pointers 0 and 2. -/
theorem MultiTouchButton_Touch_mask_witness :
    (5 : Nat) < 2 ^ 32 ∧ (0 : Int) ≤ 3 ∧ (3 : Int) < 32
    ∧ (∀ j, ((⟨⟨0, 0, 10, 10⟩, 5⟩ : MultiTouchButton).Touch
          (moveEvent 3 20 5)).pointerDownMask_.testBit j
        = if j = (3 : Int).toNat then
            (⟨⟨0, 0, 10, 10⟩, 5⟩ : MultiTouchButton).bounds_.Contains 20 5
          else (⟨⟨0, 0, 10, 10⟩, 5⟩ : MultiTouchButton).pointerDownMask_.testBit j) :=
  ⟨by norm_num, by norm_num, by norm_num,
   (MultiTouchButton_Touch_mask ⟨⟨0, 0, 10, 10⟩, 5⟩ 3 20 5
      (by norm_num) (by norm_num) (by norm_num)).2.2.1⟩

/-! ## Theorems: ownership of the drag pointer -/

theorem PSPCross.ProcessTouch_drag (L : Libm) (haptic : Bool) (c : PSPCross) (x y : ℚ)
    (down : Bool) :
    (PSPCross.ProcessTouch L haptic c x y down).1.dragPointerId_ = c.dragPointerId_ := rfl

theorem PSPCross.cross_Touch_down (L : Libm) (haptic : Bool) (c : PSPCross) (id : Int) (x y : ℚ) :
    PSPCross.Touch L haptic c (downEvent id x y) =
      if c.dragPointerId_ = -1 ∧ c.bounds_.Contains x y = true then
        PSPCross.ProcessTouch L haptic { c with dragPointerId_ := id } x y true
      else (c, []) := by
  obtain ⟨h1, h2, h3, -⟩ := hasFlag_single
  simp [PSPCross.Touch, downEvent, h1, h2, h3]

theorem PSPCross.cross_Touch_move (L : Libm) (haptic : Bool) (c : PSPCross) (id : Int) (x y : ℚ) :
    PSPCross.Touch L haptic c (moveEvent id x y) =
      if id = c.dragPointerId_ then PSPCross.ProcessTouch L haptic c x y true
      else (c, []) := by
  obtain ⟨-, -, -, h1, h2, h3, -⟩ := hasFlag_single
  simp [PSPCross.Touch, moveEvent, h1, h2, h3]

theorem PSPCross.cross_Touch_up (L : Libm) (haptic : Bool) (c : PSPCross) (id : Int) (x y : ℚ) :
    PSPCross.Touch L haptic c (upEvent id x y) =
      if id = c.dragPointerId_ then
        PSPCross.ProcessTouch L haptic { c with dragPointerId_ := -1 } x y false
      else (c, []) := by
  obtain ⟨-, -, -, -, -, -, h1, h2, h3⟩ := hasFlag_single
  simp [PSPCross.Touch, upEvent, h1, h2, h3]

theorem PSPStick.stick_Touch_down (L : Libm) (s : PSPStick) (id : Int) (x y : ℚ) :
    s.Touch L (downEvent id x y) =
      if s.dragPointerId_ = -1 ∧ s.bounds_.Contains x y = true then
        ({ s with dragPointerId_ := id },
          PSPStick.ProcessTouch L { s with dragPointerId_ := id } x y true)
      else (s, []) := by
  obtain ⟨h1, h2, h3, -⟩ := hasFlag_single
  simp [PSPStick.Touch, downEvent, h1, h2, h3]

theorem PSPStick.stick_Touch_move (L : Libm) (s : PSPStick) (id : Int) (x y : ℚ) :
    s.Touch L (moveEvent id x y) =
      if id = s.dragPointerId_ then (s, s.ProcessTouch L x y true) else (s, []) := by
  obtain ⟨-, -, -, h1, h2, h3, -⟩ := hasFlag_single
  simp [PSPStick.Touch, moveEvent, h1, h2, h3]

theorem PSPStick.stick_Touch_up (L : Libm) (s : PSPStick) (id : Int) (x y : ℚ) :
    s.Touch L (upEvent id x y) =
      if id = s.dragPointerId_ then
        ({ s with dragPointerId_ := -1 },
          PSPStick.ProcessTouch L { s with dragPointerId_ := -1 } x y false)
      else (s, []) := by
  obtain ⟨-, -, -, -, -, -, h1, h2, h3⟩ := hasFlag_single
  simp [PSPStick.Touch, upEvent, h1, h2, h3]

/-- Whatever flags an event carries, a `PSPCross` that owns a pointer changes
`dragPointerId_` only by an Up of the owner, and then to -1. -/
theorem PSPCross.cross_Touch_keeps_owner (L : Libm) (haptic : Bool) (c : PSPCross) (e : TouchInput)
    (hown : c.dragPointerId_ ≠ -1)
    (hch : (PSPCross.Touch L haptic c e).1.dragPointerId_ ≠ c.dragPointerId_) :
    hasFlag e.flags TOUCH_UP = true ∧ e.id = c.dragPointerId_
      ∧ (PSPCross.Touch L haptic c e).1.dragPointerId_ = -1 := by
  unfold PSPCross.Touch at hch ⊢
  simp only [hown, false_and, if_false, ite_self] at hch ⊢
  by_cases hu : hasFlag e.flags TOUCH_UP = true
  · by_cases hm : hasFlag e.flags TOUCH_MOVE = true
    · by_cases hi : e.id = c.dragPointerId_
      · simp [hu, hm, hi, PSPCross.ProcessTouch_drag]
      · simp [hu, hm, hi, PSPCross.ProcessTouch_drag] at hch
    · by_cases hi : e.id = c.dragPointerId_
      · simp [hu, hm, hi, PSPCross.ProcessTouch_drag]
      · simp [hu, hm, hi, PSPCross.ProcessTouch_drag] at hch
  · by_cases hm : hasFlag e.flags TOUCH_MOVE = true
    · by_cases hi : e.id = c.dragPointerId_
      · simp [hu, hm, hi, PSPCross.ProcessTouch_drag] at hch
      · simp [hu, hm, hi, PSPCross.ProcessTouch_drag] at hch
    · simp [hu, hm] at hch

/-- Whatever flags an event carries, a `PSPStick` that owns a pointer changes
`dragPointerId_` only by an Up of the owner, and then to -1. -/
theorem PSPStick.stick_Touch_keeps_owner (L : Libm) (s : PSPStick) (e : TouchInput)
    (hown : s.dragPointerId_ ≠ -1)
    (hch : (s.Touch L e).1.dragPointerId_ ≠ s.dragPointerId_) :
    hasFlag e.flags TOUCH_UP = true ∧ e.id = s.dragPointerId_
      ∧ (s.Touch L e).1.dragPointerId_ = -1 := by
  unfold PSPStick.Touch at hch ⊢
  simp only [hown, false_and, if_false, ite_self] at hch ⊢
  by_cases hu : hasFlag e.flags TOUCH_UP = true
  · by_cases hm : hasFlag e.flags TOUCH_MOVE = true
    · by_cases hi : e.id = s.dragPointerId_
      · simp [hu, hm, hi]
      · simp [hu, hm, hi] at hch
    · by_cases hi : e.id = s.dragPointerId_
      · simp [hu, hm, hi]
      · simp [hu, hm, hi] at hch
  · by_cases hm : hasFlag e.flags TOUCH_MOVE = true
    · by_cases hi : e.id = s.dragPointerId_
      · simp [hu, hm, hi] at hch
      · simp [hu, hm, hi] at hch
    · simp [hu, hm] at hch

/-- C3: for `PSPCross::Touch` and `PSPStick::Touch` and a pointer ID in 0..31:
a Down event changes `dragPointerId_` only when the widget owns no pointer and
the position is inside the bounds, and then captures the pointer; a widget
that owns a pointer changes `dragPointerId_` only on an Up event of the owner,
which resets it to -1; a Down that is not accepted (in particular a Down while
another pointer is owned), and a Move or Up of a pointer that is not the
owner, leave the whole widget (`dragPointerId_`, `down_`) unchanged and make
no call. -/
theorem drag_pointer_ownership (L : Libm) (haptic : Bool) (c : PSPCross) (s : PSPStick)
    (id : Int) (x y : ℚ) (_h0 : 0 ≤ id) (_h1 : id < 32) :
    ((PSPCross.Touch L haptic c (downEvent id x y)).1.dragPointerId_ ≠ c.dragPointerId_ →
        c.dragPointerId_ = -1 ∧ c.bounds_.Contains x y = true)
    ∧ (c.dragPointerId_ = -1 ∧ c.bounds_.Contains x y = true →
        (PSPCross.Touch L haptic c (downEvent id x y)).1.dragPointerId_ = id)
    ∧ (∀ e : TouchInput, c.dragPointerId_ ≠ -1 →
        (PSPCross.Touch L haptic c e).1.dragPointerId_ ≠ c.dragPointerId_ →
        hasFlag e.flags TOUCH_UP = true ∧ e.id = c.dragPointerId_
          ∧ (PSPCross.Touch L haptic c e).1.dragPointerId_ = -1)
    ∧ (¬ (c.dragPointerId_ = -1 ∧ c.bounds_.Contains x y = true) →
        PSPCross.Touch L haptic c (downEvent id x y) = (c, []))
    ∧ (id ≠ c.dragPointerId_ → PSPCross.Touch L haptic c (moveEvent id x y) = (c, []))
    ∧ (id ≠ c.dragPointerId_ → PSPCross.Touch L haptic c (upEvent id x y) = (c, []))
    ∧ ((s.Touch L (downEvent id x y)).1.dragPointerId_ ≠ s.dragPointerId_ →
        s.dragPointerId_ = -1 ∧ s.bounds_.Contains x y = true)
    ∧ (s.dragPointerId_ = -1 ∧ s.bounds_.Contains x y = true →
        (s.Touch L (downEvent id x y)).1.dragPointerId_ = id)
    ∧ (∀ e : TouchInput, s.dragPointerId_ ≠ -1 →
        (s.Touch L e).1.dragPointerId_ ≠ s.dragPointerId_ →
        hasFlag e.flags TOUCH_UP = true ∧ e.id = s.dragPointerId_
          ∧ (s.Touch L e).1.dragPointerId_ = -1)
    ∧ (¬ (s.dragPointerId_ = -1 ∧ s.bounds_.Contains x y = true) →
        s.Touch L (downEvent id x y) = (s, []))
    ∧ (id ≠ s.dragPointerId_ → s.Touch L (moveEvent id x y) = (s, []))
    ∧ (id ≠ s.dragPointerId_ → s.Touch L (upEvent id x y) = (s, [])) := by
  refine ⟨?_, ?_, ?_, ?_, ?_, ?_, ?_, ?_, ?_, ?_, ?_, ?_⟩
  · intro hch
    by_contra hcond
    rw [PSPCross.cross_Touch_down, if_neg hcond] at hch
    exact hch rfl
  · intro hcond
    rw [PSPCross.cross_Touch_down, if_pos hcond, PSPCross.ProcessTouch_drag]
  · intro e hown hch
    exact PSPCross.cross_Touch_keeps_owner L haptic c e hown hch
  · intro hcond
    rw [PSPCross.cross_Touch_down, if_neg hcond]
  · intro hne
    rw [PSPCross.cross_Touch_move, if_neg hne]
  · intro hne
    rw [PSPCross.cross_Touch_up, if_neg hne]
  · intro hch
    by_contra hcond
    rw [PSPStick.stick_Touch_down, if_neg hcond] at hch
    exact hch rfl
  · intro hcond
    rw [PSPStick.stick_Touch_down, if_pos hcond]
  · intro e hown hch
    exact PSPStick.stick_Touch_keeps_owner L s e hown hch
  · intro hcond
    rw [PSPStick.stick_Touch_down, if_neg hcond]
  · intro hne
    rw [PSPStick.stick_Touch_move, if_neg hne]
  · intro hne
    rw [PSPStick.stick_Touch_up, if_neg hne]

/-- Witness for C3: pointer 5 arrives at widgets that own pointer 3. -/
theorem drag_pointer_ownership_witness :
    (0 : Int) ≤ 5 ∧ (5 : Int) < 32 ∧ (5 : Int) ≠ exCross.dragPointerId_
    ∧ PSPCross.Touch exLibm true exCross (upEvent 5 100 80) = (exCross, [])
    ∧ (5 : Int) ≠ exStick.dragPointerId_
    ∧ exStick.Touch exLibm (upEvent 5 100 80) = (exStick, []) :=
  ⟨by norm_num, by norm_num, by decide,
   (drag_pointer_ownership exLibm true exCross exStick 5 100 80
      (by norm_num) (by norm_num)).2.2.2.2.2.1 (by decide),
   by decide,
   (drag_pointer_ownership exLibm true exCross exStick 5 100 80
      (by norm_num) (by norm_num)).2.2.2.2.2.2.2.2.2.2.2 (by decide)⟩

/-! ## Theorems: float operations -/

theorem IEEE.value?_ofValue (neg : Bool) (q : ℚ) : (IEEE.ofValue neg q).value? = some q := by
  unfold IEEE.ofValue
  by_cases h : q = 0
  · subst h
    cases neg <;> rfl
  · rw [if_neg h]
    rfl

theorem IEEE.value?_neg (v : IEEE) (r : ℚ) (h : v.value? = some r) :
    (IEEE.neg v).value? = some (-r) := by
  cases v with
  | fin q =>
    have hq : q = r := by simpa [IEEE.value?] using h
    subst hq
    by_cases h0 : q = 0
    · simp [IEEE.neg, IEEE.value?, h0]
    · simp [IEEE.neg, IEEE.value?, h0]
  | negZero =>
    have hq : (0 : ℚ) = r := by simpa [IEEE.value?] using h
    subst hq
    simp [IEEE.neg, IEEE.value?]
  | inf s => simp [IEEE.value?] at h
  | nan => simp [IEEE.value?] at h

theorem IEEE.lt_of_values (a b : IEEE) (p q : ℚ) (ha : a.value? = some p)
    (hb : b.value? = some q) : IEEE.lt a b = decide (p < q) := by
  unfold IEEE.lt
  rw [ha, hb]

theorem IEEE.sub_fin (x c : ℚ) :
    IEEE.sub (IEEE.fin x) (IEEE.fin c) = if x = c then IEEE.fin 0 else IEEE.fin (x - c) := by
  unfold IEEE.sub IEEE.neg
  by_cases hc : c = 0
  · subst hc
    by_cases hx : x = 0
    · subst hx
      simp [IEEE.add, IEEE.value?, IEEE.signBit]
    · simp [IEEE.add, IEEE.value?, hx]
  · by_cases hxc : x = c
    · subst hxc
      have h : ¬ (x < 0 ∧ 0 < x) := fun h => absurd h.1 (not_lt.mpr (le_of_lt h.2))
      simp [IEEE.add, IEEE.value?, IEEE.signBit, hc, h]
    · have h : x + -c ≠ 0 := fun h => hxc (by linarith)
      simp [IEEE.add, IEEE.value?, hc, hxc, h, sub_eq_add_neg]

theorem IEEE.mul_fin_of_zero (a b : ℚ) (h : a * b = 0) :
    IEEE.mul (IEEE.fin a) (IEEE.fin b)
      = if xor (decide (a < 0)) (decide (b < 0)) then IEEE.negZero else IEEE.fin 0 := by
  simp [IEEE.mul, IEEE.value?, IEEE.signBit, IEEE.ofValue, h]

theorem IEEE.one_div_zero (neg : Bool) :
    IEEE.div (IEEE.fin 1) (if neg then IEEE.negZero else IEEE.fin 0) = IEEE.inf neg := by
  cases neg <;> simp [IEEE.div, IEEE.value?, IEEE.signBit]

theorem IEEE.mul_fin_inf (p : ℚ) (t : Bool) :
    IEEE.mul (IEEE.fin p) (IEEE.inf t)
      = if p = 0 then IEEE.nan else IEEE.inf (xor (decide (p < 0)) t) := by
  simp [IEEE.mul, IEEE.value?, IEEE.signBit]

theorem clampIEEE_special :
    stdMinIEEE (IEEE.fin 1) (stdMaxIEEE (IEEE.fin (-1)) IEEE.nan) = IEEE.fin (-1)
    ∧ stdMinIEEE (IEEE.fin 1) (stdMaxIEEE (IEEE.fin (-1)) (IEEE.inf false)) = IEEE.fin 1
    ∧ stdMinIEEE (IEEE.fin 1) (stdMaxIEEE (IEEE.fin (-1)) (IEEE.inf true)) = IEEE.fin (-1) := by
  refine ⟨?_, ?_, ?_⟩ <;> simp [stdMinIEEE, stdMaxIEEE, IEEE.lt, IEEE.value?]

theorem IEEE.roundWith_of_value_zero (r : ℚ → ℚ) (v : IEEE) (h : v.value? = some 0) :
    IEEE.roundWith r v = v := by
  cases v with
  | fin q =>
    simp only [IEEE.value?, Option.some.injEq] at h
    subst h
    simp [IEEE.roundWith]
  | negZero => rfl
  | inf s => simp [IEEE.value?] at h
  | nan => simp [IEEE.value?] at h

/-- The float difference of a value and itself is positive zero. -/
theorem Libm.fsub_self (L : Libm) (a : ℚ) : L.fsub (IEEE.fin a) (IEEE.fin a) = IEEE.fin 0 := by
  unfold Libm.fsub
  rw [IEEE.sub_fin, if_pos rfl]
  simp [IEEE.roundWith]

/-- The float square of a zero is positive zero. -/
theorem Libm.fmul_self_zero (L : Libm) (z : IEEE) (hz : z.value? = some 0) :
    L.fmul z z = IEEE.fin 0 := by
  unfold Libm.fmul IEEE.mul
  simp only [hz]
  simp [IEEE.ofValue, IEEE.roundWith]

theorem Libm.fadd_zero_zero (L : Libm) : L.fadd (IEEE.fin 0) (IEEE.fin 0) = IEEE.fin 0 := by
  simp [Libm.fadd, IEEE.add, IEEE.value?, IEEE.signBit, IEEE.roundWith]

theorem IEEE.ofValue_ne_zero (neg : Bool) (q : ℚ) (h : q ≠ 0) :
    IEEE.ofValue neg q = IEEE.fin q := by
  unfold IEEE.ofValue
  rw [if_neg h]

/-- Rounding when no rounding is applied to finite results: a non-zero value
within the float range is kept. -/
theorem IEEE.roundWith_exact (r : ℚ → ℚ) (hr : ∀ q, r q = q) (q : ℚ) (hne : q ≠ 0)
    (hlo : -FLT_MAX ≤ q) (hhi : q ≤ FLT_MAX) : IEEE.roundWith r (IEEE.fin q) = IEEE.fin q := by
  have hle : ¬ FLT_MAX < |q| := not_lt.mpr (abs_le.mpr ⟨hlo, hhi⟩)
  simp only [IEEE.roundWith, if_neg hne, hr, if_neg hle]
  exact IEEE.ofValue_ne_zero _ _ hne

/-- Rounding when no rounding is applied to finite results: a positive value
beyond the float range overflows to plus infinity. -/
theorem IEEE.roundWith_overflow (r : ℚ → ℚ) (hr : ∀ q, r q = q) (q : ℚ)
    (hgt : FLT_MAX < q) : IEEE.roundWith r (IEEE.fin q) = IEEE.inf false := by
  have hpos : 0 < q := lt_trans (by norm_num [FLT_MAX]) hgt
  have hne : q ≠ 0 := ne_of_gt hpos
  have habs : FLT_MAX < |q| := by rwa [abs_of_pos hpos]
  have hneg : ¬ q < 0 := not_lt.mpr (le_of_lt hpos)
  simp only [IEEE.roundWith, if_neg hne, hr, if_pos habs, hneg, decide_False]

theorem IEEE.mul_fin_fin (a b : ℚ) (hne : a * b ≠ 0) :
    IEEE.mul (IEEE.fin a) (IEEE.fin b) = IEEE.fin (a * b) := by
  unfold IEEE.mul
  simp only [IEEE.value?]
  exact IEEE.ofValue_ne_zero _ _ hne

theorem IEEE.div_fin_fin (a b : ℚ) (ha : a ≠ 0) (hb : b ≠ 0) :
    IEEE.div (IEEE.fin a) (IEEE.fin b) = IEEE.fin (a / b) := by
  unfold IEEE.div
  simp only [IEEE.value?]
  rw [if_neg hb]
  exact IEEE.ofValue_ne_zero _ _ (div_ne_zero ha hb)

theorem IEEE.add_fin_fin (a b : ℚ) (hne : a + b ≠ 0) :
    IEEE.add (IEEE.fin a) (IEEE.fin b) = IEEE.fin (a + b) := by
  unfold IEEE.add
  simp only [IEEE.value?]
  rw [if_neg hne]

/-- Float multiplication when no rounding is applied to finite results. -/
theorem Libm.fmul_exact (L : Libm) (hr : ∀ q, L.round q = q) (a b : ℚ) (hne : a * b ≠ 0)
    (hlo : -FLT_MAX ≤ a * b) (hhi : a * b ≤ FLT_MAX) :
    L.fmul (IEEE.fin a) (IEEE.fin b) = IEEE.fin (a * b) := by
  unfold Libm.fmul
  rw [IEEE.mul_fin_fin _ _ hne, IEEE.roundWith_exact _ hr _ hne hlo hhi]

/-- Float division when no rounding is applied to finite results. -/
theorem Libm.fdiv_exact (L : Libm) (hr : ∀ q, L.round q = q) (a b : ℚ) (ha : a ≠ 0)
    (hb : b ≠ 0) (hlo : -FLT_MAX ≤ a / b) (hhi : a / b ≤ FLT_MAX) :
    L.fdiv (IEEE.fin a) (IEEE.fin b) = IEEE.fin (a / b) := by
  unfold Libm.fdiv
  rw [IEEE.div_fin_fin _ _ ha hb, IEEE.roundWith_exact _ hr _ (div_ne_zero ha hb) hlo hhi]

/-- Float division when no rounding is applied to finite results: a positive
quotient beyond the float range is plus infinity. -/
theorem Libm.fdiv_overflow (L : Libm) (hr : ∀ q, L.round q = q) (a b : ℚ) (ha : a ≠ 0)
    (hb : b ≠ 0) (hgt : FLT_MAX < a / b) :
    L.fdiv (IEEE.fin a) (IEEE.fin b) = IEEE.inf false := by
  unfold Libm.fdiv
  rw [IEEE.div_fin_fin _ _ ha hb, IEEE.roundWith_overflow _ hr _ hgt]

/-- Float subtraction when no rounding is applied to finite results. -/
theorem Libm.fsub_exact (L : Libm) (hr : ∀ q, L.round q = q) (a b : ℚ) (hne : a ≠ b)
    (hlo : -FLT_MAX ≤ a - b) (hhi : a - b ≤ FLT_MAX) :
    L.fsub (IEEE.fin a) (IEEE.fin b) = IEEE.fin (a - b) := by
  unfold Libm.fsub
  rw [IEEE.sub_fin, if_neg hne, IEEE.roundWith_exact _ hr _ (sub_ne_zero.mpr hne) hlo hhi]

/-- Float addition when no rounding is applied to finite results. -/
theorem Libm.fadd_exact (L : Libm) (hr : ∀ q, L.round q = q) (a b : ℚ) (hne : a + b ≠ 0)
    (hlo : -FLT_MAX ≤ a + b) (hhi : a + b ≤ FLT_MAX) :
    L.fadd (IEEE.fin a) (IEEE.fin b) = IEEE.fin (a + b) := by
  unfold Libm.fadd
  rw [IEEE.add_fin_fin _ _ hne, IEEE.roundWith_exact _ hr _ hne hlo hhi]

/-- Positive zero times a positive finite float is positive zero. -/
theorem Libm.fmul_zero_pos (L : Libm) (k : ℚ) (hk : 0 < k) :
    L.fmul (IEEE.fin 0) (IEEE.fin k) = IEEE.fin 0 := by
  have hn : ¬ k < 0 := not_lt.mpr (le_of_lt hk)
  simp [Libm.fmul, IEEE.mul, IEEE.value?, IEEE.signBit, IEEE.ofValue, IEEE.roundWith, hn]

/-- The normalised offset `(v - centre) * (1.0f / (size * scale))` when no
rounding is applied to finite results and every intermediate value is within
the float range. -/
theorem Libm.offset_exact (L : Libm) (hr : ∀ q, L.round q = q) (v centre size scale : ℚ)
    (hd : size * scale ≠ 0) (hd1 : -FLT_MAX ≤ size * scale) (hd2 : size * scale ≤ FLT_MAX)
    (hi1 : -FLT_MAX ≤ 1 / (size * scale)) (hi2 : 1 / (size * scale) ≤ FLT_MAX)
    (hv : v ≠ centre) (hv1 : -FLT_MAX ≤ v - centre) (hv2 : v - centre ≤ FLT_MAX)
    (hq1 : -FLT_MAX ≤ (v - centre) * (1 / (size * scale)))
    (hq2 : (v - centre) * (1 / (size * scale)) ≤ FLT_MAX) :
    L.fmul (L.fsub (IEEE.fin v) (IEEE.fin centre))
        (L.fdiv (IEEE.fin 1) (L.fmul (IEEE.fin size) (IEEE.fin scale)))
      = IEEE.fin ((v - centre) * (1 / (size * scale))) := by
  rw [Libm.fmul_exact L hr size scale hd hd1 hd2,
    Libm.fdiv_exact L hr 1 _ one_ne_zero hd hi1 hi2,
    Libm.fsub_exact L hr v centre hv hv1 hv2,
    Libm.fmul_exact L hr _ _ (mul_ne_zero (sub_ne_zero.mpr hv) (one_div_ne_zero hd)) hq1 hq2]

/-- The normalised offset of a position on the centre line, for a positive
divisor within the float range: positive zero. -/
theorem Libm.offset_centre (L : Libm) (hr : ∀ q, L.round q = q) (centre size scale : ℚ)
    (hd : 0 < size * scale) (hd2 : size * scale ≤ FLT_MAX)
    (hi2 : 1 / (size * scale) ≤ FLT_MAX) :
    L.fmul (L.fsub (IEEE.fin centre) (IEEE.fin centre))
        (L.fdiv (IEEE.fin 1) (L.fmul (IEEE.fin size) (IEEE.fin scale)))
      = IEEE.fin 0 := by
  have hF : (0 : ℚ) ≤ FLT_MAX := by norm_num [FLT_MAX]
  have hi : 0 < 1 / (size * scale) := one_div_pos.mpr hd
  rw [Libm.fmul_exact L hr size scale (ne_of_gt hd) (by linarith) hd2,
    Libm.fdiv_exact L hr 1 _ one_ne_zero (ne_of_gt hd) (by linarith) hi2,
    Libm.fsub_self, Libm.fmul_zero_pos L _ hi]

/-! ## Theorems: direction of the D-pad -/

theorem PSPCross.ProcessTouch_mask (L : Libm) (haptic : Bool) (c : PSPCross) (x y : ℚ)
    (down : Bool) :
    (PSPCross.ProcessTouch L haptic c x y down).1.down_ =
      if (if (IEEE.lt (c.rad L x y) (IEEE.fin deadzone)
              || IEEE.lt (IEEE.fin 2) (c.rad L x y)) = true then false else down) = true then
        PSPCross.switchMask (PSPCross.direction L (c.dy L y) (c.dx L x))
      else 0 := rfl

theorem PSPCross.ProcessTouch_calls (L : Libm) (haptic : Bool) (c : PSPCross) (x y : ℚ)
    (down : Bool) :
    (PSPCross.ProcessTouch L haptic c x y down).2 =
      PSPCross.edgeCalls haptic
        ((PSPCross.ProcessTouch L haptic c x y down).1.down_ &&& not32 c.down_)
        (not32 (PSPCross.ProcessTouch L haptic c x y down).1.down_ &&& c.down_) dir := rfl

theorem PSPCross.ProcessTouch_not_down (L : Libm) (haptic : Bool) (c : PSPCross) (x y : ℚ) :
    (PSPCross.ProcessTouch L haptic c x y false).1.down_ = 0 := by
  rw [PSPCross.ProcessTouch_mask]
  simp

theorem PSPCross.direction_range (L : Libm) (dy dx : IEEE) :
    0 ≤ PSPCross.direction L dy dx ∧ PSPCross.direction L dy dx < 8 := by
  unfold PSPCross.direction
  split
  · exact ⟨Int.emod_nonneg _ (by norm_num), Int.emod_lt_of_pos _ (by norm_num)⟩
  · exact ⟨Int.emod_nonneg _ (by norm_num), Int.emod_lt_of_pos _ (by norm_num)⟩

theorem PSPCross.switchMask_cases (d : Int) (h0 : 0 ≤ d) (h8 : d < 8) :
    PSPCross.switchMask d ∈
      [CTRL_RIGHT, CTRL_RIGHT ||| CTRL_DOWN, CTRL_DOWN, CTRL_DOWN ||| CTRL_LEFT, CTRL_LEFT,
        CTRL_UP ||| CTRL_LEFT, CTRL_UP, CTRL_UP ||| CTRL_RIGHT] := by
  interval_cases d <;> decide

/-- A touch whose `rad` is in the dead zone or beyond twice the radius gives
the empty mask. -/
theorem PSPCross.ProcessTouch_dead (L : Libm) (haptic : Bool) (c : PSPCross) (x y : ℚ)
    (down : Bool)
    (h : IEEE.lt (c.rad L x y) (IEEE.fin (17 / 100)) = true
      ∨ IEEE.lt (IEEE.fin 2) (c.rad L x y) = true) :
    (PSPCross.ProcessTouch L haptic c x y down).1.down_ = 0 := by
  rw [PSPCross.ProcessTouch_mask]
  have h2 : (IEEE.lt (c.rad L x y) (IEEE.fin deadzone)
      || IEEE.lt (IEEE.fin 2) (c.rad L x y)) = true := by
    unfold deadzone
    rcases h with h | h <;> simp [h]
  simp [h2]

/-- Normalised offsets that are both a zero give `rad = sqrtf(0)`. -/
theorem PSPCross.rad_of_zero (L : Libm) (c : PSPCross) (x y : ℚ)
    (hx : (c.dx L x).value? = some 0) (hy : (c.dy L y).value? = some 0) :
    c.rad L x y = L.sqrtf (IEEE.fin 0) := by
  unfold PSPCross.rad
  rw [Libm.fmul_self_zero L _ hx, Libm.fmul_self_zero L _ hy, Libm.fadd_zero_zero]

theorem PSPCross.ProcessTouch_mask_cases (L : Libm) (haptic : Bool) (c : PSPCross) (x y : ℚ)
    (down : Bool) :
    (PSPCross.ProcessTouch L haptic c x y down).1.down_ ∈
      [0, CTRL_RIGHT, CTRL_RIGHT ||| CTRL_DOWN, CTRL_DOWN, CTRL_DOWN ||| CTRL_LEFT, CTRL_LEFT,
        CTRL_UP ||| CTRL_LEFT, CTRL_UP, CTRL_UP ||| CTRL_RIGHT] := by
  rw [PSPCross.ProcessTouch_mask]
  by_cases h : (if (IEEE.lt (c.rad L x y) (IEEE.fin deadzone)
      || IEEE.lt (IEEE.fin 2) (c.rad L x y)) = true then false else down) = true
  · rw [if_pos h]
    exact List.mem_cons_of_mem _
      (PSPCross.switchMask_cases _ (PSPCross.direction_range L _ _).1
        (PSPCross.direction_range L _ _).2)
  · rw [if_neg h]
    exact List.mem_cons_self _ _

/-- The normalised X offset of the D-pad `exCross` off the centre line, when
no rounding is applied to finite results. -/
theorem exCross_dx (L : Libm) (hr : ∀ q, L.round q = q) (x : ℚ) (hne : x ≠ 80)
    (hlo : -1000 ≤ x) (hhi : x ≤ 1000) : exCross.dx L x = IEEE.fin ((x - 80) / 40) := by
  have h := Libm.offset_exact L hr x 80 40 1 (by norm_num) (by norm_num [FLT_MAX])
    (by norm_num [FLT_MAX]) (by norm_num [FLT_MAX]) (by norm_num [FLT_MAX]) hne
    (by norm_num [FLT_MAX]; linarith) (by norm_num [FLT_MAX]; linarith)
    (by norm_num [FLT_MAX]; linarith) (by norm_num [FLT_MAX]; linarith)
  have hc : exCross.bounds_.centerX = 80 := by norm_num [exCross, exBounds, Bounds.centerX]
  unfold PSPCross.dx PSPCross.inv_stick_size
  rw [hc]
  rw [show exCross.radius_ = 40 from rfl, show exCross.scale_ = 1 from rfl, h]
  congr 1
  ring

/-- The normalised Y offset of the D-pad `exCross` off the centre line, when
no rounding is applied to finite results. -/
theorem exCross_dy (L : Libm) (hr : ∀ q, L.round q = q) (y : ℚ) (hne : y ≠ 80)
    (hlo : -1000 ≤ y) (hhi : y ≤ 1000) : exCross.dy L y = IEEE.fin ((y - 80) / 40) := by
  have h := Libm.offset_exact L hr y 80 40 1 (by norm_num) (by norm_num [FLT_MAX])
    (by norm_num [FLT_MAX]) (by norm_num [FLT_MAX]) (by norm_num [FLT_MAX]) hne
    (by norm_num [FLT_MAX]; linarith) (by norm_num [FLT_MAX]; linarith)
    (by norm_num [FLT_MAX]; linarith) (by norm_num [FLT_MAX]; linarith)
  have hc : exCross.bounds_.centerY = 80 := by norm_num [exCross, exBounds, Bounds.centerY]
  unfold PSPCross.dy PSPCross.inv_stick_size
  rw [hc]
  rw [show exCross.radius_ = 40 from rfl, show exCross.scale_ = 1 from rfl, h]
  congr 1
  ring

/-- The normalised offsets of the D-pad `exCross` on its centre lines. -/
theorem exCross_centre (L : Libm) (hr : ∀ q, L.round q = q) :
    exCross.dx L 80 = IEEE.fin 0 ∧ exCross.dy L 80 = IEEE.fin 0 := by
  have h := Libm.offset_centre L hr 80 40 1 (by norm_num) (by norm_num [FLT_MAX])
    (by norm_num [FLT_MAX])
  have hx : exCross.bounds_.centerX = 80 := by norm_num [exCross, exBounds, Bounds.centerX]
  have hy : exCross.bounds_.centerY = 80 := by norm_num [exCross, exBounds, Bounds.centerY]
  unfold PSPCross.dx PSPCross.dy PSPCross.inv_stick_size
  rw [hx, hy]
  exact ⟨h, h⟩

/-- The value of `rad` for the D-pad `exCross` at a position on the horizontal
centre line, when no rounding is applied to finite results. -/
theorem exCross_rad_on_axis (L : Libm) (hr : ∀ q, L.round q = q) (x : ℚ) (hne : x ≠ 80)
    (hlo : -1000 ≤ x) (hhi : x ≤ 1000) :
    exCross.rad L x 80 = L.sqrtf (IEEE.fin ((x - 80) / 40 * ((x - 80) / 40))) := by
  have hq : (x - 80) / 40 ≠ 0 := div_ne_zero (sub_ne_zero.mpr hne) (by norm_num)
  have hb1 : -1000 ≤ (x - 80) / 40 := by linarith
  have hb2 : (x - 80) / 40 ≤ 1000 := by linarith
  have hsq : (x - 80) / 40 * ((x - 80) / 40) ≠ 0 := mul_ne_zero hq hq
  have hs1 : 0 ≤ (x - 80) / 40 * ((x - 80) / 40) := mul_self_nonneg _
  have hs2 : (x - 80) / 40 * ((x - 80) / 40) ≤ 1000000 := by nlinarith
  unfold PSPCross.rad
  rw [exCross_dx L hr x hne hlo hhi, (exCross_centre L hr).2,
    Libm.fmul_exact L hr _ _ hsq (by norm_num [FLT_MAX]; linarith)
      (by norm_num [FLT_MAX]; linarith),
    Libm.fmul_self_zero L (IEEE.fin 0) rfl]
  have hadd := Libm.fadd_exact L hr ((x - 80) / 40 * ((x - 80) / 40)) 0
    (by rw [add_zero]; exact hsq) (by norm_num [FLT_MAX]; linarith)
    (by norm_num [FLT_MAX]; linarith)
  rw [hadd, add_zero]

/-- C5: after every call of `PSPCross::ProcessTouch` the direction mask `down_`
is one of the nine masks of the octant table: it is empty or contains exactly
one or exactly two of `CTRL_RIGHT`, `CTRL_DOWN`, `CTRL_LEFT`, `CTRL_UP`, never
three or four, and never Left with Right nor Up with Down. -/
theorem PSPCross_at_most_two_directions (L : Libm) (haptic : Bool) (c : PSPCross) (x y : ℚ)
    (down : Bool) :
    (PSPCross.ProcessTouch L haptic c x y down).1.down_ ∈
        [0, CTRL_RIGHT, CTRL_RIGHT ||| CTRL_DOWN, CTRL_DOWN, CTRL_DOWN ||| CTRL_LEFT,
          CTRL_LEFT, CTRL_UP ||| CTRL_LEFT, CTRL_UP, CTRL_UP ||| CTRL_RIGHT]
    ∧ ((PSPCross.ProcessTouch L haptic c x y down).1.down_ = 0
        ∨ dirCount (PSPCross.ProcessTouch L haptic c x y down).1.down_ = 1
        ∨ dirCount (PSPCross.ProcessTouch L haptic c x y down).1.down_ = 2)
    ∧ ¬ (hasDir (PSPCross.ProcessTouch L haptic c x y down).1.down_ CTRL_LEFT = true
          ∧ hasDir (PSPCross.ProcessTouch L haptic c x y down).1.down_ CTRL_RIGHT = true)
    ∧ ¬ (hasDir (PSPCross.ProcessTouch L haptic c x y down).1.down_ CTRL_UP = true
          ∧ hasDir (PSPCross.ProcessTouch L haptic c x y down).1.down_ CTRL_DOWN = true) := by
  have hmem := PSPCross.ProcessTouch_mask_cases L haptic c x y down
  refine ⟨hmem, ?_⟩
  generalize (PSPCross.ProcessTouch L haptic c x y down).1.down_ = m at hmem
  simp only [List.mem_cons, List.mem_singleton, List.mem_nil_iff, or_false] at hmem
  rcases hmem with h | h | h | h | h | h | h | h | h <;> subst h <;> decide

/-! ## Theorems: edge calls of the D-pad -/

theorem and_two_pow_ne_zero (m k : Nat) : m &&& 2 ^ k ≠ 0 ↔ m.testBit k = true := by
  rw [Nat.and_two_pow]
  cases m.testBit k <;> simp

theorem testBit_not32 (a k : Nat) (hk : k < 32) : (not32 a).testBit k = !a.testBit k := by
  have hF : (0xFFFFFFFF : Nat) = 2 ^ 32 - 1 := by norm_num
  unfold not32 u32
  rw [Nat.testBit_xor, hF, Nat.testBit_two_pow_sub_one, Nat.testBit_mod_two_pow]
  simp [hk]

theorem dir_two_pow (d : Nat) (hd : d ∈ dir) : ∃ k, k < 32 ∧ d = 2 ^ k := by
  simp only [dir, List.mem_cons, List.mem_singleton, List.mem_nil_iff, or_false] at hd
  rcases hd with h | h | h | h <;> subst h
  · exact ⟨5, by norm_num, by decide⟩
  · exact ⟨6, by norm_num, by decide⟩
  · exact ⟨7, by norm_num, by decide⟩
  · exact ⟨4, by norm_num, by decide⟩

/-- The test `pressed & dir[i]`: the bit is set now and was clear before. -/
theorem pressed_test (new old d : Nat) (hd : d ∈ dir) :
    (new &&& not32 old) &&& d ≠ 0 ↔ (old &&& d = 0 ∧ new &&& d ≠ 0) := by
  obtain ⟨k, hk, rfl⟩ := dir_two_pow d hd
  have hold : old &&& 2 ^ k = 0 ↔ old.testBit k = false := by
    rw [← Bool.not_eq_true, ← and_two_pow_ne_zero, not_not]
  rw [and_two_pow_ne_zero, and_two_pow_ne_zero, hold, Nat.testBit_and, testBit_not32 _ _ hk]
  cases new.testBit k <;> cases old.testBit k <;> simp

/-- The test `released & dir[i]`: the bit was set before and is clear now. -/
theorem released_test (new old d : Nat) (hd : d ∈ dir) :
    (not32 new &&& old) &&& d ≠ 0 ↔ (old &&& d ≠ 0 ∧ new &&& d = 0) := by
  obtain ⟨k, hk, rfl⟩ := dir_two_pow d hd
  have hnew : new &&& 2 ^ k = 0 ↔ new.testBit k = false := by
    rw [← Bool.not_eq_true, ← and_two_pow_ne_zero, not_not]
  rw [and_two_pow_ne_zero, and_two_pow_ne_zero, hnew, Nat.testBit_and, testBit_not32 _ _ hk]
  cases new.testBit k <;> cases old.testBit k <;> simp

theorem PSPCross.edgeCalls_count_down (haptic : Bool) (p r bit : Nat) :
    ∀ ds : List Nat, ds.Nodup →
      (PSPCross.edgeCalls haptic p r ds).count (SinkCall.CtrlButtonDown bit)
        = if bit ∈ ds ∧ p &&& bit ≠ 0 then 1 else 0 := by
  intro ds
  induction ds with
  | nil => intro _; simp [PSPCross.edgeCalls]
  | cons d ds ih =>
    intro hnd
    rw [List.nodup_cons] at hnd
    simp only [PSPCross.edgeCalls, List.count_append, ih hnd.2]
    by_cases hb : bit = d
    · subst hb
      have hnot : bit ∉ ds := hnd.1
      by_cases hp : p &&& bit = 0 <;> by_cases hr : r &&& bit = 0 <;> cases haptic <;>
        simp [hp, hr, hnot, List.count_cons]
    · have hb2 : ¬ d = bit := fun h => hb h.symm
      by_cases hp : p &&& d = 0 <;> by_cases hr : r &&& d = 0 <;> cases haptic <;>
        simp [hp, hr, hb, hb2, List.count_cons]

theorem PSPCross.edgeCalls_count_up (haptic : Bool) (p r bit : Nat) :
    ∀ ds : List Nat, ds.Nodup →
      (PSPCross.edgeCalls haptic p r ds).count (SinkCall.CtrlButtonUp bit)
        = if bit ∈ ds ∧ r &&& bit ≠ 0 then 1 else 0 := by
  intro ds
  induction ds with
  | nil => intro _; simp [PSPCross.edgeCalls]
  | cons d ds ih =>
    intro hnd
    rw [List.nodup_cons] at hnd
    simp only [PSPCross.edgeCalls, List.count_append, ih hnd.2]
    by_cases hb : bit = d
    · subst hb
      have hnot : bit ∉ ds := hnd.1
      by_cases hp : p &&& bit = 0 <;> by_cases hr : r &&& bit = 0 <;> cases haptic <;>
        simp [hp, hr, hnot, List.count_cons]
    · have hb2 : ¬ d = bit := fun h => hb h.symm
      by_cases hp : p &&& d = 0 <;> by_cases hr : r &&& d = 0 <;> cases haptic <;>
        simp [hp, hr, hb, hb2, List.count_cons]

theorem PSPCross.edgeCalls_countP_vibrate (haptic : Bool) (p r : Nat) (ds : List Nat) :
    (PSPCross.edgeCalls haptic p r ds).countP SinkCall.isVibrate
      = if haptic = true then
          (PSPCross.edgeCalls haptic p r ds).countP SinkCall.isButtonDown
        else 0 := by
  induction ds with
  | nil => simp [PSPCross.edgeCalls]
  | cons d ds ih =>
    simp only [PSPCross.edgeCalls, List.countP_append, ih]
    by_cases hp : p &&& d = 0 <;> by_cases hr : r &&& d = 0 <;> cases haptic <;>
      simp [hp, hr, List.countP_cons, SinkCall.isVibrate, SinkCall.isButtonDown]

theorem PSPCross.edgeCalls_kinds (haptic : Bool) (p r : Nat) (ds : List Nat) :
    ∀ call ∈ PSPCross.edgeCalls haptic p r ds,
      call = SinkCall.Vibrate
      ∨ (∃ d ∈ ds, p &&& d ≠ 0 ∧ call = SinkCall.CtrlButtonDown d)
      ∨ (∃ d ∈ ds, r &&& d ≠ 0 ∧ call = SinkCall.CtrlButtonUp d) := by
  induction ds with
  | nil => simp [PSPCross.edgeCalls]
  | cons d ds ih =>
    intro call hc
    simp only [PSPCross.edgeCalls, List.mem_append] at hc
    rcases hc with (hc | hc) | hc
    · by_cases hp : p &&& d = 0
      · simp [hp] at hc
      · cases haptic
        · simp [hp] at hc
          exact Or.inr (Or.inl ⟨d, List.mem_cons_self _ _, hp, hc⟩)
        · simp [hp] at hc
          rcases hc with hc | hc
          · exact Or.inl hc
          · exact Or.inr (Or.inl ⟨d, List.mem_cons_self _ _, hp, hc⟩)
    · by_cases hr : r &&& d = 0
      · simp [hr] at hc
      · simp [hr] at hc
        exact Or.inr (Or.inr ⟨d, List.mem_cons_self _ _, hr, hc⟩)
    · rcases ih call hc with h | ⟨d2, hd2, h2, h3⟩ | ⟨d2, hd2, h2, h3⟩
      · exact Or.inl h
      · exact Or.inr (Or.inl ⟨d2, List.mem_cons_of_mem _ hd2, h2, h3⟩)
      · exact Or.inr (Or.inr ⟨d2, List.mem_cons_of_mem _ hd2, h2, h3⟩)

theorem dir_nodup : dir.Nodup := by decide

/-- C6: for every previous direction mask, an Up event of the pointer owned by
a `PSPCross` sets `down_` to 0, resets `dragPointerId_` to -1, and in that same
`Touch` call calls `__CtrlButtonUp` exactly once for each direction of `dir`
that was set in the previous mask and for no other bit; every call made is
such a `__CtrlButtonUp`, so there is no `__CtrlButtonDown` and no `Vibrate`. -/
theorem PSPCross_release (L : Libm) (haptic : Bool) (c : PSPCross) (id : Int) (x y : ℚ)
    (_h0 : 0 ≤ id) (_h1 : id < 32) (hown : c.dragPointerId_ = id) :
    (PSPCross.Touch L haptic c (upEvent id x y)).1.down_ = 0
    ∧ (PSPCross.Touch L haptic c (upEvent id x y)).1.dragPointerId_ = -1
    ∧ (∀ bit : Nat,
        (PSPCross.Touch L haptic c (upEvent id x y)).2.count (SinkCall.CtrlButtonUp bit)
          = if bit ∈ dir ∧ c.down_ &&& bit ≠ 0 then 1 else 0)
    ∧ (∀ call ∈ (PSPCross.Touch L haptic c (upEvent id x y)).2,
        ∃ d ∈ dir, c.down_ &&& d ≠ 0 ∧ call = SinkCall.CtrlButtonUp d)
    ∧ (PSPCross.Touch L haptic c (upEvent id x y)).2.countP SinkCall.isButtonDown = 0
    ∧ (PSPCross.Touch L haptic c (upEvent id x y)).2.countP SinkCall.isVibrate = 0 := by
  rw [PSPCross.cross_Touch_up, if_pos hown.symm]
  have hmask : (PSPCross.ProcessTouch L haptic { c with dragPointerId_ := -1 } x y false).1.down_
      = 0 := PSPCross.ProcessTouch_not_down L haptic _ x y
  have hcalls : (PSPCross.ProcessTouch L haptic { c with dragPointerId_ := -1 } x y false).2
      = PSPCross.edgeCalls haptic (0 &&& not32 c.down_) (not32 0 &&& c.down_) dir := by
    rw [PSPCross.ProcessTouch_calls, hmask]
  have hp : ∀ d : Nat, (0 &&& not32 c.down_) &&& d = 0 := by
    intro d
    simp
  have hkinds : ∀ call ∈ PSPCross.edgeCalls haptic (0 &&& not32 c.down_)
      (not32 0 &&& c.down_) dir,
      ∃ d ∈ dir, c.down_ &&& d ≠ 0 ∧ call = SinkCall.CtrlButtonUp d := by
    intro call hc
    have hpd : ∀ d ∈ dir, (0 &&& not32 c.down_) &&& d = 0 := fun d _ => hp d
    have hnv : call ≠ SinkCall.Vibrate := by
      intro hv
      have hcount := PSPCross.edgeCalls_countP_vibrate haptic (0 &&& not32 c.down_)
        (not32 0 &&& c.down_) dir
      have hd0 : (PSPCross.edgeCalls haptic (0 &&& not32 c.down_)
          (not32 0 &&& c.down_) dir).countP SinkCall.isButtonDown = 0 := by
        rw [List.countP_eq_zero]
        intro a ha
        rcases PSPCross.edgeCalls_kinds haptic _ _ dir a ha with h | ⟨d, hd, h2, _⟩ | ⟨d, _, _, h3⟩
        · rw [h]; simp [SinkCall.isButtonDown]
        · exact absurd (hpd d hd) h2
        · rw [h3]; simp [SinkCall.isButtonDown]
      rw [hd0] at hcount
      have hz : (PSPCross.edgeCalls haptic (0 &&& not32 c.down_)
          (not32 0 &&& c.down_) dir).countP SinkCall.isVibrate = 0 := by
        rw [hcount]; simp
      rw [List.countP_eq_zero] at hz
      have := hz call hc
      rw [hv] at this
      simp [SinkCall.isVibrate] at this
    rcases PSPCross.edgeCalls_kinds haptic _ _ dir call hc with h | ⟨d, hd, h2, _⟩ | ⟨d, hd, h2, h3⟩
    · exact absurd h hnv
    · exact absurd (hpd d hd) h2
    · exact ⟨d, hd, ((released_test 0 c.down_ d hd).1 h2).1, h3⟩
  refine ⟨hmask, PSPCross.ProcessTouch_drag L haptic _ x y false, ?_, ?_, ?_, ?_⟩
  · intro bit
    rw [hcalls, PSPCross.edgeCalls_count_up haptic _ _ bit dir dir_nodup]
    by_cases hb : bit ∈ dir
    · have hiff := released_test 0 c.down_ bit hb
      by_cases hold : c.down_ &&& bit = 0
      · have : ¬ ((not32 0 &&& c.down_) &&& bit ≠ 0) := fun h => (hiff.1 h).1 hold
        simp [hold, this]
      · have : (not32 0 &&& c.down_) &&& bit ≠ 0 := hiff.2 ⟨hold, by simp⟩
        simp [hb, hold, this]
    · simp [hb]
  · rw [hcalls]
    exact hkinds
  · rw [hcalls, List.countP_eq_zero]
    intro call hc
    obtain ⟨d, _, _, h3⟩ := hkinds call hc
    rw [h3]; simp [SinkCall.isButtonDown]
  · rw [hcalls, List.countP_eq_zero]
    intro call hc
    obtain ⟨d, _, _, h3⟩ := hkinds call hc
    rw [h3]; simp [SinkCall.isVibrate]

/-- Witness for C6: the owner, pointer 3, is lifted while Right+Down are held. -/
theorem PSPCross_release_witness :
    (0 : Int) ≤ 3 ∧ (3 : Int) < 32 ∧ exCross.dragPointerId_ = 3
    ∧ (PSPCross.Touch exLibm true exCross (upEvent 3 120 80)).1.down_ = 0
    ∧ (PSPCross.Touch exLibm true exCross (upEvent 3 120 80)).1.dragPointerId_ = -1
    ∧ (PSPCross.Touch exLibm true exCross (upEvent 3 120 80)).2.countP
        SinkCall.isButtonDown = 0 :=
  ⟨by norm_num, by norm_num, rfl,
   (PSPCross_release exLibm true exCross 3 120 80 (by norm_num) (by norm_num) rfl).1,
   (PSPCross_release exLibm true exCross 3 120 80 (by norm_num) (by norm_num) rfl).2.1,
   (PSPCross_release exLibm true exCross 3 120 80 (by norm_num) (by norm_num) rfl).2.2.2.2.1⟩

/-- The loop at the end of `PSPCross::ProcessTouch`, for any previous mask `old`
and any new mask `new`: per direction, one `__CtrlButtonDown` iff the bit goes
from 0 to 1 and one `__CtrlButtonUp` iff it goes from 1 to 0. -/
theorem PSPCross.edgeCalls_edges (haptic : Bool) (new old d : Nat) (hd : d ∈ dir) :
    (PSPCross.edgeCalls haptic (new &&& not32 old) (not32 new &&& old) dir).count
        (SinkCall.CtrlButtonDown d) = (if old &&& d = 0 ∧ new &&& d ≠ 0 then 1 else 0)
    ∧ (PSPCross.edgeCalls haptic (new &&& not32 old) (not32 new &&& old) dir).count
        (SinkCall.CtrlButtonUp d) = (if old &&& d ≠ 0 ∧ new &&& d = 0 then 1 else 0) := by
  constructor
  · rw [PSPCross.edgeCalls_count_down haptic _ _ d dir dir_nodup]
    by_cases h : old &&& d = 0 ∧ new &&& d ≠ 0
    · rw [if_pos h, if_pos ⟨hd, (pressed_test new old d hd).2 h⟩]
    · rw [if_neg h, if_neg (fun h2 => h ((pressed_test new old d hd).1 h2.2))]
  · rw [PSPCross.edgeCalls_count_up haptic _ _ d dir dir_nodup]
    by_cases h : old &&& d ≠ 0 ∧ new &&& d = 0
    · rw [if_pos h, if_pos ⟨hd, (released_test new old d hd).2 h⟩]
    · rw [if_neg h, if_neg (fun h2 => h ((released_test new old d hd).1 h2.2))]

/-- C7: in `PSPCross::ProcessTouch`, for every previous mask and every newly
computed mask and for each direction `d` of `dir` independently:
`__CtrlButtonDown(d)` is called once if the bit of `d` goes from 0 to 1 and
not at all otherwise, `__CtrlButtonUp(d)` is called once if it goes from 1 to
0 and not at all otherwise, a direction whose bit does not change produces no
call, and `Vibrate` is called as often as `__CtrlButtonDown` when haptic
feedback is enabled and never when it is disabled. -/
theorem PSPCross_per_direction_edges (L : Libm) (haptic : Bool) (c : PSPCross) (x y : ℚ)
    (down : Bool) (d : Nat) (hd : d ∈ dir) :
    (PSPCross.ProcessTouch L haptic c x y down).2.count (SinkCall.CtrlButtonDown d)
        = (if c.down_ &&& d = 0 ∧ (PSPCross.ProcessTouch L haptic c x y down).1.down_ &&& d ≠ 0
            then 1 else 0)
    ∧ (PSPCross.ProcessTouch L haptic c x y down).2.count (SinkCall.CtrlButtonUp d)
        = (if c.down_ &&& d ≠ 0 ∧ (PSPCross.ProcessTouch L haptic c x y down).1.down_ &&& d = 0
            then 1 else 0)
    ∧ ((c.down_ &&& d = 0 ↔ (PSPCross.ProcessTouch L haptic c x y down).1.down_ &&& d = 0) →
        (PSPCross.ProcessTouch L haptic c x y down).2.count (SinkCall.CtrlButtonDown d) = 0
        ∧ (PSPCross.ProcessTouch L haptic c x y down).2.count (SinkCall.CtrlButtonUp d) = 0)
    ∧ (PSPCross.ProcessTouch L haptic c x y down).2.countP SinkCall.isVibrate
        = (if haptic = true then
            (PSPCross.ProcessTouch L haptic c x y down).2.countP SinkCall.isButtonDown
          else 0) := by
  have hedges := PSPCross.edgeCalls_edges haptic
    (PSPCross.ProcessTouch L haptic c x y down).1.down_ c.down_ d hd
  rw [← PSPCross.ProcessTouch_calls] at hedges
  refine ⟨hedges.1, hedges.2, ?_, ?_⟩
  · intro hsame
    rw [hedges.1, hedges.2]
    constructor
    · rw [if_neg]
      intro h
      exact h.2 (hsame.1 h.1)
    · rw [if_neg]
      intro h
      exact h.1 (hsame.2 h.2)
  · rw [PSPCross.ProcessTouch_calls]
    exact PSPCross.edgeCalls_countP_vibrate haptic _ _ dir

/-- Witness for C7: the direction `CTRL_RIGHT` of the table `dir`. -/
theorem PSPCross_per_direction_edges_witness :
    CTRL_RIGHT ∈ dir
    ∧ (PSPCross.ProcessTouch exLibm true exCross 120 80 true).2.count
        (SinkCall.CtrlButtonUp CTRL_RIGHT)
      = (if exCross.down_ &&& CTRL_RIGHT ≠ 0
            ∧ (PSPCross.ProcessTouch exLibm true exCross 120 80 true).1.down_ &&& CTRL_RIGHT = 0
          then 1 else 0) :=
  ⟨by decide,
   (PSPCross_per_direction_edges exLibm true exCross 120 80 true CTRL_RIGHT (by decide)).2.1⟩

/-! ## Theorems: octants of the D-pad -/

theorem M_PI_gt_three : 3 < M_PI := by
  unfold M_PI
  norm_num

theorem PSPCross.ProcessTouch_mask_in_range (L : Libm) (haptic : Bool) (c : PSPCross)
    (x y : ℚ) (hrad : ∃ r : ℚ, (c.rad L x y).value? = some r ∧ 17 / 100 ≤ r ∧ r ≤ 2) :
    (PSPCross.ProcessTouch L haptic c x y true).1.down_
      = PSPCross.switchMask (PSPCross.direction L (c.dy L y) (c.dx L x)) := by
  obtain ⟨r, hr, hlo, hhi⟩ := hrad
  rw [PSPCross.ProcessTouch_mask]
  have h1 : IEEE.lt (c.rad L x y) (IEEE.fin deadzone) = false := by
    rw [IEEE.lt_of_values _ (IEEE.fin deadzone) r deadzone hr rfl]
    unfold deadzone
    exact decide_eq_false (not_lt.mpr hlo)
  have h2 : IEEE.lt (IEEE.fin 2) (c.rad L x y) = false := by
    rw [IEEE.lt_of_values (IEEE.fin 2) _ 2 r rfl hr]
    exact decide_eq_false (not_lt.mpr hhi)
  simp [h1, h2]

/-- The octant of a finite angle. -/
theorem PSPCross.direction_of_value (L : Libm) (dy dx : IEEE) (a : ℚ)
    (h : (L.atan2f dy dx).value? = some a) :
    PSPCross.direction L dy dx = ⌊a / (2 * M_PI) * 8 + 1 / 2⌋ % 8 := by
  unfold PSPCross.direction
  rw [h]

/-- C8: `PSPCross::ProcessTouch` with `down = true` and an offset on the
positive X axis (`dy = 0`, `dx > 0`) whose normalised radius lies in
`[0.17, 2.0]` yields the direction mask `CTRL_RIGHT` alone, given that
`atan2f(0, v)` is 0 for positive `v`.  The offsets and the radius are the
floats that the code computes; a zero of either sign counts as 0. -/
theorem PSPCross_positive_x_axis (L : Libm) (haptic : Bool) (c : PSPCross) (x y : ℚ)
    (hatan : ∀ (z : IEEE) (v : ℚ), z.value? = some 0 → 0 < v →
      (L.atan2f z (IEEE.fin v)).value? = some 0)
    (hdy : (c.dy L y).value? = some 0) (hdx : ∃ v : ℚ, 0 < v ∧ c.dx L x = IEEE.fin v)
    (hrad : ∃ r : ℚ, (c.rad L x y).value? = some r ∧ 17 / 100 ≤ r ∧ r ≤ 2) :
    (PSPCross.ProcessTouch L haptic c x y true).1.down_ = CTRL_RIGHT := by
  obtain ⟨v, hv, hdxv⟩ := hdx
  rw [PSPCross.ProcessTouch_mask_in_range L haptic c x y hrad, hdxv,
    PSPCross.direction_of_value L _ _ 0 (hatan _ v hdy hv)]
  have hdir : ⌊(0 : ℚ) / (2 * M_PI) * 8 + 1 / 2⌋ % 8 = 0 := by norm_num
  rw [hdir]
  decide

/-- Witness for C8: a touch at (120, 80), one radius to the right of the
centre (80, 80). -/
theorem PSPCross_positive_x_axis_witness :
    (∀ (z : IEEE) (v : ℚ), z.value? = some 0 → 0 < v →
      (exLibm.atan2f z (IEEE.fin v)).value? = some 0)
    ∧ (exCross.dy exLibm 80).value? = some 0
    ∧ (∃ v : ℚ, 0 < v ∧ exCross.dx exLibm 120 = IEEE.fin v)
    ∧ (∃ r : ℚ, (exCross.rad exLibm 120 80).value? = some r ∧ 17 / 100 ≤ r ∧ r ≤ 2)
    ∧ (PSPCross.ProcessTouch exLibm true exCross 120 80 true).1.down_ = CTRL_RIGHT :=
  have hr : ∀ q, exLibm.round q = q := fun _ => rfl
  have hatan : ∀ (z : IEEE) (v : ℚ), z.value? = some 0 → 0 < v →
      (exLibm.atan2f z (IEEE.fin v)).value? = some 0 := by
    intro z v hz hv
    have hne : ¬ ((0 : ℚ) = v ∧ 0 < v) := fun h => absurd h.1 (ne_of_lt hv)
    simp only [exLibm, hz]
    simp [IEEE.value?, hne]
  have hdy : (exCross.dy exLibm 80).value? = some 0 := by
    rw [(exCross_centre exLibm hr).2]
    rfl
  have hdx : ∃ v : ℚ, 0 < v ∧ exCross.dx exLibm 120 = IEEE.fin v :=
    ⟨(120 - 80) / 40, by norm_num,
      exCross_dx exLibm hr 120 (by norm_num) (by norm_num) (by norm_num)⟩
  have hrad : ∃ r : ℚ, (exCross.rad exLibm 120 80).value? = some r ∧ 17 / 100 ≤ r ∧ r ≤ 2 := by
    refine ⟨1, ?_, by norm_num, by norm_num⟩
    rw [exCross_rad_on_axis exLibm hr 120 (by norm_num) (by norm_num) (by norm_num)]
    norm_num [exLibm, exSqrt, IEEE.value?]
  ⟨hatan, hdy, hdx, hrad,
   PSPCross_positive_x_axis exLibm true exCross 120 80 hatan hdy hdx hrad⟩

/-- C9: `PSPCross::ProcessTouch` with `down = true` and an offset at 45 degrees
in screen coordinates (`dx = dy > 0`, to the right of and below the centre)
whose normalised radius lies in `[0.17, 2.0]` yields the direction mask
`CTRL_RIGHT | CTRL_DOWN`, given that `atan2f(v, v)` for positive `v` is within
one millionth of `M_PI / 4`.  The offsets and the radius are the floats that
the code computes. -/
theorem PSPCross_diagonal_right_down (L : Libm) (haptic : Bool) (c : PSPCross) (x y : ℚ)
    (hatan : ∀ v : ℚ, 0 < v →
      ∃ a : ℚ, (L.atan2f (IEEE.fin v) (IEEE.fin v)).value? = some a
        ∧ |a - M_PI / 4| ≤ 1 / 1000000)
    (hdy : c.dy L y = c.dx L x) (hdx : ∃ v : ℚ, 0 < v ∧ c.dx L x = IEEE.fin v)
    (hrad : ∃ r : ℚ, (c.rad L x y).value? = some r ∧ 17 / 100 ≤ r ∧ r ≤ 2) :
    (PSPCross.ProcessTouch L haptic c x y true).1.down_ = CTRL_RIGHT ||| CTRL_DOWN := by
  obtain ⟨v, hv, hdxv⟩ := hdx
  obtain ⟨a, hval, hnear⟩ := hatan v hv
  rw [PSPCross.ProcessTouch_mask_in_range L haptic c x y hrad, hdy, hdxv,
    PSPCross.direction_of_value L _ _ a hval]
  have hpi := M_PI_gt_three
  have hpos : (0 : ℚ) < M_PI := by linarith
  have ha := abs_le.mp hnear
  have hq : a / (2 * M_PI) * 8 + 1 / 2 = a * 4 / M_PI + 1 / 2 := by
    field_simp
    ring
  have hfloor : ⌊a / (2 * M_PI) * 8 + 1 / 2⌋ = 1 := by
    rw [hq, Int.floor_eq_iff]
    constructor
    · have h1 : (1 : ℚ) / 2 ≤ a * 4 / M_PI := by
        rw [le_div_iff₀ hpos]
        linarith [ha.1]
      push_cast
      linarith
    · have h2 : a * 4 / M_PI < 3 / 2 := by
        rw [div_lt_iff₀ hpos]
        linarith [ha.2]
      push_cast
      linarith
  rw [hfloor]
  decide

/-- Witness for C9: a touch at (120, 120), one radius to the right of and one
radius below the centre (80, 80). -/
theorem PSPCross_diagonal_right_down_witness :
    (∀ v : ℚ, 0 < v →
      ∃ a : ℚ, (exLibm.atan2f (IEEE.fin v) (IEEE.fin v)).value? = some a
        ∧ |a - M_PI / 4| ≤ 1 / 1000000)
    ∧ exCross.dy exLibm 120 = exCross.dx exLibm 120
    ∧ (∃ v : ℚ, 0 < v ∧ exCross.dx exLibm 120 = IEEE.fin v)
    ∧ (∃ r : ℚ, (exCross.rad exLibm 120 120).value? = some r ∧ 17 / 100 ≤ r ∧ r ≤ 2)
    ∧ (PSPCross.ProcessTouch exLibm true exCross 120 120 true).1.down_
        = CTRL_RIGHT ||| CTRL_DOWN :=
  have hr : ∀ q, exLibm.round q = q := fun _ => rfl
  have hatan : ∀ v : ℚ, 0 < v →
      ∃ a : ℚ, (exLibm.atan2f (IEEE.fin v) (IEEE.fin v)).value? = some a
        ∧ |a - M_PI / 4| ≤ 1 / 1000000 := by
    intro v hv
    refine ⟨13176795 / 16777216, ?_, ?_⟩
    · simp [exLibm, IEEE.value?, hv]
    · unfold M_PI
      rw [abs_le]
      constructor <;> norm_num
  have hx : exCross.dx exLibm 120 = IEEE.fin ((120 - 80) / 40) :=
    exCross_dx exLibm hr 120 (by norm_num) (by norm_num) (by norm_num)
  have hy : exCross.dy exLibm 120 = IEEE.fin ((120 - 80) / 40) :=
    exCross_dy exLibm hr 120 (by norm_num) (by norm_num) (by norm_num)
  have hdy : exCross.dy exLibm 120 = exCross.dx exLibm 120 := by rw [hx, hy]
  have hdx : ∃ v : ℚ, 0 < v ∧ exCross.dx exLibm 120 = IEEE.fin v :=
    ⟨(120 - 80) / 40, by norm_num, hx⟩
  have hrad : ∃ r : ℚ, (exCross.rad exLibm 120 120).value? = some r ∧ 17 / 100 ≤ r ∧ r ≤ 2 := by
    refine ⟨11863283 / 8388608, ?_, by norm_num, by norm_num⟩
    unfold PSPCross.rad
    rw [hx, hy]
    have h1 : (120 - 80 : ℚ) / 40 = 1 := by norm_num
    rw [h1, Libm.fmul_exact exLibm hr 1 1 (by norm_num) (by norm_num [FLT_MAX])
        (by norm_num [FLT_MAX]),
      Libm.fadd_exact exLibm hr _ _ (by norm_num) (by norm_num [FLT_MAX])
        (by norm_num [FLT_MAX])]
    norm_num [exLibm, exSqrt, IEEE.value?]
  ⟨hatan, hdy, hdx, hrad,
   PSPCross_diagonal_right_down exLibm true exCross 120 120 hatan hdy hdx hrad⟩

/-! ## Theorems: the analog stick -/

theorem clampUnit_range (v : ℚ) : -1 ≤ clampUnit v ∧ clampUnit v ≤ 1 := by
  unfold clampUnit
  split_ifs with h1 h2
  · norm_num
  · norm_num
  · exact ⟨not_lt.mp h1, not_lt.mp h2⟩

/-- The clamp written with `std::min` and `std::max`, on a finite float, is the
clamp of its value to `[-1, 1]`. -/
theorem value?_clampIEEE (v : IEEE) (r : ℚ) (h : v.value? = some r) :
    (stdMinIEEE (IEEE.fin 1) (stdMaxIEEE (IEEE.fin (-1)) v)).value? = some (clampUnit r) := by
  have h1 : (IEEE.fin 1).value? = some 1 := rfl
  have hm1 : (IEEE.fin (-1)).value? = some (-1) := rfl
  unfold clampUnit
  by_cases hlo : r < -1
  · have hmax : stdMaxIEEE (IEEE.fin (-1)) v = IEEE.fin (-1) := by
      unfold stdMaxIEEE
      rw [IEEE.lt_of_values _ _ _ _ hm1 h]
      simp [not_lt.mpr (le_of_lt hlo)]
    rw [hmax, if_pos hlo]
    unfold stdMinIEEE
    rw [IEEE.lt_of_values _ _ _ _ hm1 h1]
    norm_num [IEEE.value?]
  · rw [if_neg hlo]
    by_cases heq : r = -1
    · have hmax : stdMaxIEEE (IEEE.fin (-1)) v = IEEE.fin (-1) := by
        unfold stdMaxIEEE
        rw [IEEE.lt_of_values _ _ _ _ hm1 h]
        simp [heq]
      rw [hmax, heq]
      unfold stdMinIEEE
      rw [IEEE.lt_of_values _ _ _ _ hm1 h1]
      norm_num [IEEE.value?]
    · have hgt : -1 < r := lt_of_le_of_ne (not_lt.mp hlo) (Ne.symm heq)
      have hmax : stdMaxIEEE (IEEE.fin (-1)) v = v := by
        unfold stdMaxIEEE
        rw [IEEE.lt_of_values _ _ _ _ hm1 h]
        simp [hgt]
      rw [hmax]
      unfold stdMinIEEE
      rw [IEEE.lt_of_values _ _ _ _ h h1]
      by_cases hhi : 1 < r
      · have h2 : ¬ r < 1 := not_lt.mpr (le_of_lt hhi)
        simp [hhi, h2, h1]
      · by_cases h3 : r < 1
        · simp [hhi, h3, h]
        · have h4 : r = 1 := le_antisymm (not_lt.mp hhi) (not_lt.mp h3)
          simp [h4, h1]

/-- The calls of `PSPStick::ProcessTouch` with `down = true`. -/
theorem PSPStick.ProcessTouch_down (L : Libm) (s : PSPStick) (x y : ℚ) :
    s.ProcessTouch L x y true
      = [SinkCall.CtrlSetAnalogX
            (stdMinIEEE (IEEE.fin 1) (stdMaxIEEE (IEEE.fin (-1)) (s.dx L x))) s.stick_,
          SinkCall.CtrlSetAnalogY
            (IEEE.neg (stdMinIEEE (IEEE.fin 1) (stdMaxIEEE (IEEE.fin (-1)) (s.dy L y))))
            s.stick_] := rfl

/-- The reciprocal `1.0f / (size * 1e-41f)` for a size of 40 or 50 is plus
infinity, and the normalised offset at the centre is NaN. -/
theorem Libm.offset_centre_tiny (L : Libm) (hr : ∀ q, L.round q = q) (centre size : ℚ)
    (h1 : 1 ≤ size) (h2 : size ≤ 50) :
    L.fmul (L.fsub (IEEE.fin centre) (IEEE.fin centre))
        (L.fdiv (IEEE.fin 1) (L.fmul (IEEE.fin size) (IEEE.fin tinyScale)))
      = IEEE.nan := by
  have ht : (0 : ℚ) < tinyScale := by norm_num [tinyScale]
  have hp : 0 < size * tinyScale := mul_pos (by linarith) ht
  have hple : size * tinyScale ≤ 50 * tinyScale := by nlinarith
  have hgt : FLT_MAX < 1 / (size * tinyScale) := by
    rw [lt_div_iff₀ hp]
    have h3 : FLT_MAX * (50 * tinyScale) < 1 := by norm_num [FLT_MAX, tinyScale]
    have hF : (0 : ℚ) < FLT_MAX := by norm_num [FLT_MAX]
    nlinarith
  rw [Libm.fmul_exact L hr size tinyScale (ne_of_gt hp)
      (by have hF : (0 : ℚ) < FLT_MAX := by norm_num [FLT_MAX]
          linarith)
      (by have h4 : 50 * tinyScale ≤ FLT_MAX := by norm_num [FLT_MAX, tinyScale]
          linarith),
    Libm.fdiv_overflow L hr 1 _ one_ne_zero (ne_of_gt hp) hgt, Libm.fsub_self]
  simp [Libm.fmul, IEEE.mul, IEEE.value?, IEEE.roundWith]

/-- Counterexample for C10: an analog stick of size 50 whose `scale_` is the
float `1e-41f`, touched at its centre (80, 80).  The divisor
`stick_size_ * scale_` is not zero and the offsets divided by it are 0, whose
clamp is 0; the float reciprocal of the divisor is plus infinity, the
quotients are `0 * inf`, which is NaN, and `PSPStick::ProcessTouch` writes
`(-1, 1)`. -/
theorem tiny_scale_stick_writes_corner :
    exStickTiny.stick_size_ * exStickTiny.scale_ ≠ 0
    ∧ clampUnit ((80 - exStickTiny.bounds_.centerX)
        / (exStickTiny.stick_size_ * exStickTiny.scale_)) = 0
    ∧ -clampUnit ((80 - exStickTiny.bounds_.centerY)
        / (exStickTiny.stick_size_ * exStickTiny.scale_)) = 0
    ∧ PSPStick.ProcessTouch exLibm exStickTiny 80 80 true
        = [SinkCall.CtrlSetAnalogX (IEEE.fin (-1)) 0, SinkCall.CtrlSetAnalogY (IEEE.fin 1) 0] := by
  have hr : ∀ q, exLibm.round q = q := fun _ => rfl
  have hx : exStickTiny.bounds_.centerX = 80 := by
    norm_num [exStickTiny, exStick, exBounds, Bounds.centerX]
  have hy : exStickTiny.bounds_.centerY = 80 := by
    norm_num [exStickTiny, exStick, exBounds, Bounds.centerY]
  have hnan := Libm.offset_centre_tiny exLibm hr 80 50 (by norm_num) (by norm_num)
  have hdx : exStickTiny.dx exLibm 80 = IEEE.nan := by
    unfold PSPStick.dx PSPStick.inv_stick_size
    rw [hx]
    exact hnan
  have hdy : exStickTiny.dy exLibm 80 = IEEE.nan := by
    unfold PSPStick.dy PSPStick.inv_stick_size
    rw [hy]
    exact hnan
  refine ⟨by norm_num [exStickTiny, exStick, tinyScale], ?_, ?_, ?_⟩
  · rw [hx]
    norm_num [clampUnit]
  · rw [hy]
    norm_num [clampUnit]
  · rw [PSPStick.ProcessTouch_down, hdx, hdy, clampIEEE_special.1]
    simp [IEEE.neg]
    rfl

/-- C10, amended: `PSPStick::ProcessTouch` with `down = true` writes one value
`wx` to `__CtrlSetAnalogX` and one value `wy` to `__CtrlSetAnalogY`.  With
`dx` and `dy` the float quotients that the code computes from the offsets and
`stick_size_ * scale_`: for a finite `dx`, `wx` is `clamp(dx, -1, 1)`, and for
a finite `dy`, `wy` is `-clamp(dy, -1, 1)`; an infinite quotient is clamped to
the end of the interval on its side; a NaN quotient is written as `wx = -1`,
`wy = 1`.  Each axis depends on its own quotient only, both written values are
finite and lie in `[-1, 1]`, and `dx = 1.5`, `dy = -2.0` writes `(1, 1)`. -/
theorem PSPStick_square_clamp (L : Libm) (s : PSPStick) (x y : ℚ) :
    ∃ wx wy : IEEE,
      s.ProcessTouch L x y true
        = [SinkCall.CtrlSetAnalogX wx s.stick_, SinkCall.CtrlSetAnalogY wy s.stick_]
      ∧ (∀ r : ℚ, (s.dx L x).value? = some r → wx.value? = some (clampUnit r))
      ∧ (∀ r : ℚ, (s.dy L y).value? = some r → wy.value? = some (-clampUnit r))
      ∧ (s.dx L x = IEEE.inf false → wx = IEEE.fin 1)
      ∧ (s.dx L x = IEEE.inf true → wx = IEEE.fin (-1))
      ∧ (s.dy L y = IEEE.inf false → wy = IEEE.fin (-1))
      ∧ (s.dy L y = IEEE.inf true → wy = IEEE.fin 1)
      ∧ (s.dx L x = IEEE.nan → wx = IEEE.fin (-1))
      ∧ (s.dy L y = IEEE.nan → wy = IEEE.fin 1)
      ∧ (∃ vx : ℚ, wx.value? = some vx ∧ -1 ≤ vx ∧ vx ≤ 1)
      ∧ (∃ vy : ℚ, wy.value? = some vy ∧ -1 ≤ vy ∧ vy ≤ 1)
      ∧ (s.dx L x = IEEE.fin (3 / 2) → s.dy L y = IEEE.fin (-2) →
          wx = IEEE.fin 1 ∧ wy = IEEE.fin 1) := by
  have hneg1 : IEEE.neg (IEEE.fin 1) = IEEE.fin (-1) := by simp [IEEE.neg]
  have hnegm1 : IEEE.neg (IEEE.fin (-1)) = IEEE.fin 1 := by simp [IEEE.neg]
  have hrange : ∀ v : IEEE, ∃ q : ℚ,
      (stdMinIEEE (IEEE.fin 1) (stdMaxIEEE (IEEE.fin (-1)) v)).value? = some q
        ∧ -1 ≤ q ∧ q ≤ 1 := by
    intro v
    cases v with
    | fin q => exact ⟨_, value?_clampIEEE _ q rfl, clampUnit_range q⟩
    | negZero => exact ⟨_, value?_clampIEEE _ 0 rfl, clampUnit_range 0⟩
    | inf t =>
      cases t
      · rw [clampIEEE_special.2.1]
        exact ⟨1, rfl, by norm_num, by norm_num⟩
      · rw [clampIEEE_special.2.2]
        exact ⟨-1, rfl, by norm_num, by norm_num⟩
    | nan =>
      rw [clampIEEE_special.1]
      exact ⟨-1, rfl, by norm_num, by norm_num⟩
  refine ⟨_, _, PSPStick.ProcessTouch_down L s x y, ?_, ?_, ?_, ?_, ?_, ?_, ?_, ?_, ?_, ?_, ?_⟩
  · intro r h
    exact value?_clampIEEE _ r h
  · intro r h
    exact IEEE.value?_neg _ _ (value?_clampIEEE _ r h)
  · intro h
    rw [h, clampIEEE_special.2.1]
  · intro h
    rw [h, clampIEEE_special.2.2]
  · intro h
    rw [h, clampIEEE_special.2.1, hneg1]
  · intro h
    rw [h, clampIEEE_special.2.2, hnegm1]
  · intro h
    rw [h, clampIEEE_special.1]
  · intro h
    rw [h, clampIEEE_special.1, hnegm1]
  · exact hrange _
  · obtain ⟨q, hq, h1, h2⟩ := hrange (s.dy L y)
    exact ⟨-q, IEEE.value?_neg _ _ hq, by linarith, by linarith⟩
  · intro hx hy
    rw [hx, hy]
    constructor
    · simp [stdMinIEEE, stdMaxIEEE, IEEE.lt, IEEE.value?]
      norm_num
    · simp [stdMinIEEE, stdMaxIEEE, IEEE.lt, IEEE.value?, IEEE.neg]

/-- The normalised offsets of the stick `exStick` off the centre lines, when no
rounding is applied to finite results. -/
theorem exStick_offsets (L : Libm) (hr : ∀ q, L.round q = q) (v : ℚ) (hne : v ≠ 80)
    (hlo : -1000 ≤ v) (hhi : v ≤ 1000) :
    exStick.dx L v = IEEE.fin ((v - 80) / 50) ∧ exStick.dy L v = IEEE.fin ((v - 80) / 50) := by
  have h := Libm.offset_exact L hr v 80 50 1 (by norm_num) (by norm_num [FLT_MAX])
    (by norm_num [FLT_MAX]) (by norm_num [FLT_MAX]) (by norm_num [FLT_MAX]) hne
    (by norm_num [FLT_MAX]; linarith) (by norm_num [FLT_MAX]; linarith)
    (by norm_num [FLT_MAX]; linarith) (by norm_num [FLT_MAX]; linarith)
  have hx : exStick.bounds_.centerX = 80 := by norm_num [exStick, exBounds, Bounds.centerX]
  have hy : exStick.bounds_.centerY = 80 := by norm_num [exStick, exBounds, Bounds.centerY]
  have hq : (v - 80) * (1 / (50 * 1)) = (v - 80) / 50 := by ring
  unfold PSPStick.dx PSPStick.dy PSPStick.inv_stick_size
  rw [hx, hy, show exStick.stick_size_ = 50 from rfl, show exStick.scale_ = 1 from rfl, h, hq]
  exact ⟨rfl, rfl⟩

/-- Witness for C10: a touch at (155, -20) on a stick of size 50 at scale 1
centred at (80, 80), that is normalised `dx = 1.5`, `dy = -2`. -/
theorem PSPStick_square_clamp_witness :
    exStick.dx exLibm 155 = IEEE.fin (3 / 2) ∧ exStick.dy exLibm (-20) = IEEE.fin (-2)
    ∧ PSPStick.ProcessTouch exLibm exStick 155 (-20) true
        = [SinkCall.CtrlSetAnalogX (IEEE.fin 1) exStick.stick_,
            SinkCall.CtrlSetAnalogY (IEEE.fin 1) exStick.stick_] :=
  have hr : ∀ q, exLibm.round q = q := fun _ => rfl
  have hx : exStick.dx exLibm 155 = IEEE.fin (3 / 2) := by
    rw [(exStick_offsets exLibm hr 155 (by norm_num) (by norm_num) (by norm_num)).1]
    norm_num
  have hy : exStick.dy exLibm (-20) = IEEE.fin (-2) := by
    rw [(exStick_offsets exLibm hr (-20) (by norm_num) (by norm_num) (by norm_num)).2]
    norm_num
  match PSPStick_square_clamp exLibm exStick 155 (-20) with
  | ⟨_, _, hc, _, _, _, _, _, _, _, _, _, _, hex⟩ =>
    ⟨hx, hy, by rw [hc, (hex hx hy).1, (hex hx hy).2]⟩

/-! ## Theorems: release and replay -/

/-- C11: for every position carried by the event, an Up event of the pointer
owned by a `PSPStick` resets `dragPointerId_` to -1 and makes exactly the two
calls `__CtrlSetAnalogX(0)` and `__CtrlSetAnalogY(0)`. -/
theorem PSPStick_release_zero (L : Libm) (s : PSPStick) (id : Int) (x y : ℚ)
    (hown : s.dragPointerId_ = id) :
    s.Touch L (upEvent id x y)
      = ({ s with dragPointerId_ := -1 },
          [SinkCall.CtrlSetAnalogX (IEEE.fin 0) s.stick_,
            SinkCall.CtrlSetAnalogY (IEEE.fin 0) s.stick_]) := by
  rw [PSPStick.stick_Touch_up, if_pos hown.symm]
  rfl

/-- Witness for C11: the owner, pointer 3, is lifted far from the stick. -/
theorem PSPStick_release_zero_witness :
    exStick.dragPointerId_ = 3
    ∧ exStick.Touch exLibm (upEvent 3 500 (-7))
      = ({ exStick with dragPointerId_ := -1 },
          [SinkCall.CtrlSetAnalogX (IEEE.fin 0) exStick.stick_,
            SinkCall.CtrlSetAnalogY (IEEE.fin 0) exStick.stick_]) :=
  ⟨rfl, PSPStick_release_zero exLibm exStick 3 500 (-7) rfl⟩

theorem setBit_idem (m b : Nat) : u32 (u32 (m ||| b) ||| b) = u32 (m ||| b) := by
  apply Nat.eq_of_testBit_eq
  intro j
  unfold u32
  simp only [Nat.testBit_mod_two_pow, Nat.testBit_or]
  cases decide (j < 32) <;> cases m.testBit j <;> cases b.testBit j <;> rfl

theorem clearBit_idem (m n : Nat) : (m &&& n) &&& n = m &&& n := by
  rw [Nat.land_assoc, Nat.and_self]

theorem MultiTouchButton.move_idem (b : MultiTouchButton) (id : Int) (x y : ℚ) :
    (b.Touch (moveEvent id x y)).Touch (moveEvent id x y) = b.Touch (moveEvent id x y) := by
  rw [MultiTouchButton.button_Touch_move b]
  by_cases hc : b.bounds_.Contains x y = true
  · rw [if_pos hc, MultiTouchButton.button_Touch_move]
    dsimp only
    rw [if_pos hc, setBit_idem]
  · rw [if_neg hc, MultiTouchButton.button_Touch_move]
    dsimp only
    rw [if_neg hc, clearBit_idem]

theorem PSPButton.Touch_same_mask (haptic : Bool) (b : PSPButton) (e : TouchInput)
    (h : b.toMultiTouchButton.Touch e = b.toMultiTouchButton) :
    PSPButton.Touch haptic b e = (b, []) := by
  unfold PSPButton.Touch
  rw [h]
  by_cases h0 : b.pointerDownMask_ = 0 <;> simp [h0]

theorem PSPCross.edgeCalls_none (haptic : Bool) (p r : Nat) :
    ∀ ds : List Nat, (∀ d ∈ ds, p &&& d = 0 ∧ r &&& d = 0) →
      PSPCross.edgeCalls haptic p r ds = [] := by
  intro ds
  induction ds with
  | nil => intro _; rfl
  | cons d ds ih =>
    intro h
    have hd := h d (List.mem_cons_self _ _)
    have hrest := ih (fun e he => h e (List.mem_cons_of_mem _ he))
    simp [PSPCross.edgeCalls, hd.1, hd.2, hrest]

theorem PSPCross.edgeCalls_same (haptic : Bool) (m : Nat) :
    PSPCross.edgeCalls haptic (m &&& not32 m) (not32 m &&& m) dir = [] := by
  apply PSPCross.edgeCalls_none
  intro d hd
  constructor
  · by_contra h
    have := (pressed_test m m d hd).1 h
    exact this.2 this.1
  · by_contra h
    have := (released_test m m d hd).1 h
    exact this.1 this.2

theorem PSPCross.ProcessTouch_replay (L : Libm) (haptic : Bool) (c : PSPCross) (x y : ℚ)
    (down : Bool) :
    PSPCross.ProcessTouch L haptic (PSPCross.ProcessTouch L haptic c x y down).1 x y down
      = ((PSPCross.ProcessTouch L haptic c x y down).1, []) := by
  have hm : (PSPCross.ProcessTouch L haptic
      (PSPCross.ProcessTouch L haptic c x y down).1 x y down).1
      = (PSPCross.ProcessTouch L haptic c x y down).1 := rfl
  have hc := PSPCross.ProcessTouch_calls L haptic
    (PSPCross.ProcessTouch L haptic c x y down).1 x y down
  rw [hm, PSPCross.edgeCalls_same] at hc
  exact Prod.ext hm hc

/-- C12: replaying an identical Move event (same pointer ID in 0..31, same
position) right after the first is idempotent: for `PSPButton` and `PSPCross`
the second `Touch` makes no call at all (no `__CtrlButtonDown`,
`__CtrlButtonUp` or `Vibrate`) and leaves the widget as it was after the
first; for `PSPStick` the widget is unchanged by the Move and the second
`Touch` makes the same axis writes as the first. -/
theorem move_replay_idempotent (L : Libm) (haptic : Bool) (b : PSPButton) (c : PSPCross)
    (s : PSPStick) (id : Int) (x y : ℚ) (_h0 : 0 ≤ id) (_h1 : id < 32) :
    PSPButton.Touch haptic (PSPButton.Touch haptic b (moveEvent id x y)).1 (moveEvent id x y)
        = ((PSPButton.Touch haptic b (moveEvent id x y)).1, [])
    ∧ PSPCross.Touch L haptic (PSPCross.Touch L haptic c (moveEvent id x y)).1
          (moveEvent id x y)
        = ((PSPCross.Touch L haptic c (moveEvent id x y)).1, [])
    ∧ (s.Touch L (moveEvent id x y)).1 = s
    ∧ (s.Touch L (moveEvent id x y)).1.Touch L (moveEvent id x y)
        = s.Touch L (moveEvent id x y) := by
  have hstick : (s.Touch L (moveEvent id x y)).1 = s := by
    rw [PSPStick.stick_Touch_move]
    split_ifs <;> rfl
  refine ⟨?_, ?_, hstick, ?_⟩
  · apply PSPButton.Touch_same_mask
    rw [PSPButton.Touch_widget]
    exact MultiTouchButton.move_idem b.toMultiTouchButton id x y
  · rw [PSPCross.cross_Touch_move L haptic c]
    by_cases hid : id = c.dragPointerId_
    · rw [if_pos hid, PSPCross.cross_Touch_move, PSPCross.ProcessTouch_drag, if_pos hid]
      exact PSPCross.ProcessTouch_replay L haptic c x y true
    · rw [if_neg hid, PSPCross.cross_Touch_move, if_neg hid]
  · rw [hstick]

/-- Witness for C12: the owner, pointer 3, moves to (120, 120) twice. -/
theorem move_replay_idempotent_witness :
    (0 : Int) ≤ 3 ∧ (3 : Int) < 32
    ∧ PSPCross.Touch exLibm true (PSPCross.Touch exLibm true exCross (moveEvent 3 120 120)).1
          (moveEvent 3 120 120)
        = ((PSPCross.Touch exLibm true exCross (moveEvent 3 120 120)).1, []) :=
  ⟨by norm_num, by norm_num,
   (move_replay_idempotent exLibm true ⟨⟨exBounds, 0⟩, 0x4000⟩ exCross exStick 3 120 120
      (by norm_num) (by norm_num)).2.1⟩

/-! ## Theorems: the pad layout -/

theorem InitPadLayout.actionButtonSpacing_eq (g : Config) :
    InitPadLayout.actionButtonSpacing g =
      { g with iActionButtonSpacing :=
          if g.iActionButtonSpacing = -1 then Action_button_spacing g.fButtonScale
          else g.iActionButtonSpacing } := by
  unfold InitPadLayout.actionButtonSpacing
  split_ifs <;> rfl

theorem InitPadLayout.actionButtonCenter_eq (dp_xres dp_yres : Int) (g : Config) :
    InitPadLayout.actionButtonCenter dp_xres dp_yres g =
      { g with
        iActionButtonCenterX :=
          if g.iActionButtonCenterX = -1 ∨ g.iActionButtonCenterY = -1 then
            Action_button_center_X dp_xres g.fButtonScale else g.iActionButtonCenterX
        iActionButtonCenterY :=
          if g.iActionButtonCenterX = -1 ∨ g.iActionButtonCenterY = -1 then
            Action_button_center_Y dp_yres g.fButtonScale else g.iActionButtonCenterY } := by
  unfold InitPadLayout.actionButtonCenter
  split_ifs <;> rfl

theorem InitPadLayout.dpadRadius_eq (g : Config) :
    InitPadLayout.dpadRadius g =
      { g with iDpadRadius :=
          if g.iDpadRadius = -1 then D_pad_Radius g.fButtonScale else g.iDpadRadius } := by
  unfold InitPadLayout.dpadRadius
  split_ifs <;> rfl

theorem InitPadLayout.dpad_eq (dp_yres : Int) (g : Config) :
    InitPadLayout.dpad dp_yres g =
      { g with
        iDpadX := if g.iDpadX = -1 ∨ g.iDpadY = -1 then D_pad_X g.fButtonScale else g.iDpadX
        iDpadY := if g.iDpadX = -1 ∨ g.iDpadY = -1 then
            D_pad_Y dp_yres g.fButtonScale g.bShowAnalogStick else g.iDpadY } := by
  unfold InitPadLayout.dpad
  split_ifs <;> rfl

theorem InitPadLayout.analogStick_eq (dp_yres : Int) (g : Config) :
    InitPadLayout.analogStick dp_yres g =
      { g with
        iAnalogStickX := if g.iAnalogStickX = -1 ∨ g.iAnalogStickY = -1 then
            D_pad_X g.fButtonScale else g.iAnalogStickX
        iAnalogStickY := if g.iAnalogStickX = -1 ∨ g.iAnalogStickY = -1 then
            analog_stick_Y dp_yres g.fButtonScale else g.iAnalogStickY } := by
  unfold InitPadLayout.analogStick
  split_ifs <;> rfl

theorem InitPadLayout.startKey_eq (dp_xres dp_yres : Int) (g : Config) :
    InitPadLayout.startKey dp_xres dp_yres g =
      { g with
        iStartKeyX := if g.iStartKeyX = -1 ∨ g.iStartKeyY = -1 then
            start_key_X dp_xres g.fButtonScale else g.iStartKeyX
        iStartKeyY := if g.iStartKeyX = -1 ∨ g.iStartKeyY = -1 then
            bottom_key_Y dp_yres g.fButtonScale else g.iStartKeyY } := by
  unfold InitPadLayout.startKey
  split_ifs <;> rfl

theorem InitPadLayout.selectKey_eq (dp_xres dp_yres : Int) (g : Config) :
    InitPadLayout.selectKey dp_xres dp_yres g =
      { g with
        iSelectKeyX := if g.iSelectKeyX = -1 ∨ g.iSelectKeyY = -1 then
            select_key_X dp_xres else g.iSelectKeyX
        iSelectKeyY := if g.iSelectKeyX = -1 ∨ g.iSelectKeyY = -1 then
            bottom_key_Y dp_yres g.fButtonScale else g.iSelectKeyY } := by
  unfold InitPadLayout.selectKey
  split_ifs <;> rfl

theorem InitPadLayout.unthrottleKey_eq (dp_xres dp_yres : Int) (g : Config) :
    InitPadLayout.unthrottleKey dp_xres dp_yres g =
      { g with
        iUnthrottleKeyX := if g.iUnthrottleKeyX = -1 ∨ g.iUnthrottleKeyY = -1 then
            unthrottle_key_X dp_xres g.fButtonScale else g.iUnthrottleKeyX
        iUnthrottleKeyY := if g.iUnthrottleKeyX = -1 ∨ g.iUnthrottleKeyY = -1 then
            bottom_key_Y dp_yres g.fButtonScale else g.iUnthrottleKeyY } := by
  unfold InitPadLayout.unthrottleKey
  split_ifs <;> rfl

theorem InitPadLayout.lKey_eq (g : Config) :
    InitPadLayout.lKey g =
      { g with
        iLKeyX := if g.iLKeyX = -1 ∨ g.iLKeyY = -1 then l_key_X g.fButtonScale else g.iLKeyX
        iLKeyY := if g.iLKeyX = -1 ∨ g.iLKeyY = -1 then
            shoulder_key_Y g.fButtonScale else g.iLKeyY } := by
  unfold InitPadLayout.lKey
  split_ifs <;> rfl

theorem InitPadLayout.rKey_eq (dp_xres : Int) (g : Config) :
    InitPadLayout.rKey dp_xres g =
      { g with
        iRKeyX := if g.iRKeyX = -1 ∨ g.iRKeyY = -1 then
            r_key_X dp_xres g.fButtonScale else g.iRKeyX
        iRKeyY := if g.iRKeyX = -1 ∨ g.iRKeyY = -1 then
            shoulder_key_Y g.fButtonScale else g.iRKeyY } := by
  unfold InitPadLayout.rKey
  split_ifs <;> rfl

/-- The ten blocks of `InitPadLayout` touch disjoint fields, so the result can
be written field by field from the configuration before the call. -/
theorem InitPadLayout_fields (dp_xres dp_yres : Int) (g : Config) :
    InitPadLayout dp_xres dp_yres g =
      { g with
        iActionButtonSpacing :=
          if g.iActionButtonSpacing = -1 then Action_button_spacing g.fButtonScale
          else g.iActionButtonSpacing
        iActionButtonCenterX :=
          if g.iActionButtonCenterX = -1 ∨ g.iActionButtonCenterY = -1 then
            Action_button_center_X dp_xres g.fButtonScale else g.iActionButtonCenterX
        iActionButtonCenterY :=
          if g.iActionButtonCenterX = -1 ∨ g.iActionButtonCenterY = -1 then
            Action_button_center_Y dp_yres g.fButtonScale else g.iActionButtonCenterY
        iDpadRadius :=
          if g.iDpadRadius = -1 then D_pad_Radius g.fButtonScale else g.iDpadRadius
        iDpadX := if g.iDpadX = -1 ∨ g.iDpadY = -1 then D_pad_X g.fButtonScale else g.iDpadX
        iDpadY := if g.iDpadX = -1 ∨ g.iDpadY = -1 then
            D_pad_Y dp_yres g.fButtonScale g.bShowAnalogStick else g.iDpadY
        iAnalogStickX := if g.iAnalogStickX = -1 ∨ g.iAnalogStickY = -1 then
            D_pad_X g.fButtonScale else g.iAnalogStickX
        iAnalogStickY := if g.iAnalogStickX = -1 ∨ g.iAnalogStickY = -1 then
            analog_stick_Y dp_yres g.fButtonScale else g.iAnalogStickY
        iStartKeyX := if g.iStartKeyX = -1 ∨ g.iStartKeyY = -1 then
            start_key_X dp_xres g.fButtonScale else g.iStartKeyX
        iStartKeyY := if g.iStartKeyX = -1 ∨ g.iStartKeyY = -1 then
            bottom_key_Y dp_yres g.fButtonScale else g.iStartKeyY
        iSelectKeyX := if g.iSelectKeyX = -1 ∨ g.iSelectKeyY = -1 then
            select_key_X dp_xres else g.iSelectKeyX
        iSelectKeyY := if g.iSelectKeyX = -1 ∨ g.iSelectKeyY = -1 then
            bottom_key_Y dp_yres g.fButtonScale else g.iSelectKeyY
        iUnthrottleKeyX := if g.iUnthrottleKeyX = -1 ∨ g.iUnthrottleKeyY = -1 then
            unthrottle_key_X dp_xres g.fButtonScale else g.iUnthrottleKeyX
        iUnthrottleKeyY := if g.iUnthrottleKeyX = -1 ∨ g.iUnthrottleKeyY = -1 then
            bottom_key_Y dp_yres g.fButtonScale else g.iUnthrottleKeyY
        iLKeyX := if g.iLKeyX = -1 ∨ g.iLKeyY = -1 then l_key_X g.fButtonScale else g.iLKeyX
        iLKeyY := if g.iLKeyX = -1 ∨ g.iLKeyY = -1 then
            shoulder_key_Y g.fButtonScale else g.iLKeyY
        iRKeyX := if g.iRKeyX = -1 ∨ g.iRKeyY = -1 then
            r_key_X dp_xres g.fButtonScale else g.iRKeyX
        iRKeyY := if g.iRKeyX = -1 ∨ g.iRKeyY = -1 then
            shoulder_key_Y g.fButtonScale else g.iRKeyY } := by
  unfold InitPadLayout
  rw [InitPadLayout.actionButtonSpacing_eq, InitPadLayout.actionButtonCenter_eq,
    InitPadLayout.dpadRadius_eq, InitPadLayout.dpad_eq, InitPadLayout.analogStick_eq,
    InitPadLayout.startKey_eq, InitPadLayout.selectKey_eq, InitPadLayout.unthrottleKey_eq,
    InitPadLayout.lKey_eq, InitPadLayout.rKey_eq]
theorem ite_pair_idem (c : Prop) [Decidable c] (x y dx dy : Int)
    (hc : c ↔ (x = -1 ∨ y = -1)) :
    (if (if c then dx else x) = -1 ∨ (if c then dy else y) = -1 then dx
      else (if c then dx else x)) = (if c then dx else x)
    ∧ (if (if c then dx else x) = -1 ∨ (if c then dy else y) = -1 then dy
      else (if c then dy else y)) = (if c then dy else y) := by
  by_cases h : c
  · simp [h]
  · have h2 : ¬ (x = -1 ∨ y = -1) := fun h3 => h (hc.2 h3)
    simp [h, h2]

theorem ite_single_idem (x dx : Int) :
    (if (if x = -1 then dx else x) = -1 then dx else (if x = -1 then dx else x))
      = (if x = -1 then dx else x) := by
  by_cases h : x = -1
  · simp [h]
  · simp [h]

/-- Running `InitPadLayout` twice gives what running it once gives, from any
configuration. -/
theorem InitPadLayout_idem (dp_xres dp_yres : Int) (g : Config) :
    InitPadLayout dp_xres dp_yres (InitPadLayout dp_xres dp_yres g)
      = InitPadLayout dp_xres dp_yres g := by
  rw [InitPadLayout_fields dp_xres dp_yres (InitPadLayout dp_xres dp_yres g)]
  rw [InitPadLayout_fields dp_xres dp_yres g]
  simp only [ite_single_idem]
  simp only [(ite_pair_idem _ _ _ _ _ Iff.rfl).1, (ite_pair_idem _ _ _ _ _ Iff.rfl).2]
theorem InitPadLayout_of_allUnset (dp_xres dp_yres : Int) (g : Config) (h : g.allUnset) :
    (InitPadLayout dp_xres dp_yres g).layoutFields =
      [Action_button_spacing g.fButtonScale,
        Action_button_center_X dp_xres g.fButtonScale,
        Action_button_center_Y dp_yres g.fButtonScale,
        D_pad_Radius g.fButtonScale,
        D_pad_X g.fButtonScale, D_pad_Y dp_yres g.fButtonScale g.bShowAnalogStick,
        D_pad_X g.fButtonScale, analog_stick_Y dp_yres g.fButtonScale,
        start_key_X dp_xres g.fButtonScale, bottom_key_Y dp_yres g.fButtonScale,
        select_key_X dp_xres, bottom_key_Y dp_yres g.fButtonScale,
        unthrottle_key_X dp_xres g.fButtonScale, bottom_key_Y dp_yres g.fButtonScale,
        l_key_X g.fButtonScale, shoulder_key_Y g.fButtonScale,
        r_key_X dp_xres g.fButtonScale, shoulder_key_Y g.fButtonScale] := by
  obtain ⟨h1, h2, h3, h4, h5, h6, h7, h8, h9, h10, h11, h12, h13, h14, h15, h16, h17, h18⟩ := h
  rw [InitPadLayout_fields]
  simp only [Config.layoutFields, h1, h2, h3, h4, h5, h6, h7, h8, h9, h10, h11, h12, h13, h14,
    h15, h16, h17, h18, true_or, if_true]

/-- C13: `InitPadLayout` is deterministic and a fixed point: from a
configuration with every layout field at the sentinel -1 the fields it
writes are the defaults computed from the resolution, the button scale and
the show-stick flag alone, so two such configurations that agree on scale and
flag get the same fields; and running `InitPadLayout` a second time on the
result changes no field and hence no position that `CreatePadLayout` reads. -/
theorem InitPadLayout_fixed_point (dp_xres dp_yres : Int) (usePause : Bool) (g g2 : Config)
    (h : g.allUnset) (h2 : g2.allUnset) (hs : g2.fButtonScale = g.fButtonScale)
    (hb : g2.bShowAnalogStick = g.bShowAnalogStick) :
    (InitPadLayout dp_xres dp_yres g2).layoutFields
        = (InitPadLayout dp_xres dp_yres g).layoutFields
    ∧ (InitPadLayout dp_xres dp_yres g).layoutFields =
        [Action_button_spacing g.fButtonScale,
          Action_button_center_X dp_xres g.fButtonScale,
          Action_button_center_Y dp_yres g.fButtonScale,
          D_pad_Radius g.fButtonScale,
          D_pad_X g.fButtonScale, D_pad_Y dp_yres g.fButtonScale g.bShowAnalogStick,
          D_pad_X g.fButtonScale, analog_stick_Y dp_yres g.fButtonScale,
          start_key_X dp_xres g.fButtonScale, bottom_key_Y dp_yres g.fButtonScale,
          select_key_X dp_xres, bottom_key_Y dp_yres g.fButtonScale,
          unthrottle_key_X dp_xres g.fButtonScale, bottom_key_Y dp_yres g.fButtonScale,
          l_key_X g.fButtonScale, shoulder_key_Y g.fButtonScale,
          r_key_X dp_xres g.fButtonScale, shoulder_key_Y g.fButtonScale]
    ∧ InitPadLayout dp_xres dp_yres (InitPadLayout dp_xres dp_yres g)
        = InitPadLayout dp_xres dp_yres g
    ∧ CreatePadLayout usePause dp_xres
          (InitPadLayout dp_xres dp_yres (InitPadLayout dp_xres dp_yres g))
        = CreatePadLayout usePause dp_xres (InitPadLayout dp_xres dp_yres g) := by
  refine ⟨?_, InitPadLayout_of_allUnset dp_xres dp_yres g h,
    InitPadLayout_idem dp_xres dp_yres g, ?_⟩
  · rw [InitPadLayout_of_allUnset dp_xres dp_yres g h,
      InitPadLayout_of_allUnset dp_xres dp_yres g2 h2, hs, hb]
  · rw [InitPadLayout_idem]

/-- Witness for C13: an 800 by 480 display and the all-unset configuration. -/
theorem InitPadLayout_fixed_point_witness :
    exConfig.allUnset ∧ exConfig.fButtonScale = exConfig.fButtonScale
    ∧ exConfig.bShowAnalogStick = exConfig.bShowAnalogStick
    ∧ InitPadLayout 800 480 (InitPadLayout 800 480 exConfig) = InitPadLayout 800 480 exConfig :=
  have h : exConfig.allUnset := by
    unfold Config.allUnset exConfig
    decide
  ⟨h, rfl, rfl, (InitPadLayout_fixed_point 800 480 false exConfig exConfig h h rfl rfl).2.2.1⟩

/-- C17, as stated, fails: with the D-pad's X set to 5 and its Y unset,
`InitPadLayout` replaces the set X by the default 100. -/
theorem InitPadLayout_overwrites_set_coordinate :
    exConfigHalfSet.iDpadX = 5 ∧ exConfigHalfSet.iDpadX ≠ -1
    ∧ (InitPadLayout 800 480 exConfigHalfSet).iDpadX = 100
    ∧ (InitPadLayout 800 480 exConfigHalfSet).iDpadX ≠ exConfigHalfSet.iDpadX := by
  have h100 : (InitPadLayout 800 480 exConfigHalfSet).iDpadX = 100 := by
    rw [InitPadLayout_fields]
    norm_num [exConfigHalfSet, exConfig, D_pad_X, D_pad_Radius, toInt]
  refine ⟨rfl, by decide, h100, ?_⟩
  rw [h100]
  decide

/-- C17, amended: `InitPadLayout` keeps the action-button spacing and the D-pad
radius when they are not -1, and keeps both coordinates of a widget when
neither of them is -1; when either coordinate of a widget is -1, both are
replaced by their defaults. -/
theorem InitPadLayout_keeps_set_pairs (dp_xres dp_yres : Int) (g : Config) :
    (g.iActionButtonSpacing ≠ -1 →
        (InitPadLayout dp_xres dp_yres g).iActionButtonSpacing = g.iActionButtonSpacing)
    ∧ (g.iDpadRadius ≠ -1 → (InitPadLayout dp_xres dp_yres g).iDpadRadius = g.iDpadRadius)
    ∧ (g.iActionButtonCenterX ≠ -1 → g.iActionButtonCenterY ≠ -1 →
        (InitPadLayout dp_xres dp_yres g).iActionButtonCenterX = g.iActionButtonCenterX
        ∧ (InitPadLayout dp_xres dp_yres g).iActionButtonCenterY = g.iActionButtonCenterY)
    ∧ (g.iDpadX ≠ -1 → g.iDpadY ≠ -1 →
        (InitPadLayout dp_xres dp_yres g).iDpadX = g.iDpadX
        ∧ (InitPadLayout dp_xres dp_yres g).iDpadY = g.iDpadY)
    ∧ (g.iAnalogStickX ≠ -1 → g.iAnalogStickY ≠ -1 →
        (InitPadLayout dp_xres dp_yres g).iAnalogStickX = g.iAnalogStickX
        ∧ (InitPadLayout dp_xres dp_yres g).iAnalogStickY = g.iAnalogStickY)
    ∧ (g.iStartKeyX ≠ -1 → g.iStartKeyY ≠ -1 →
        (InitPadLayout dp_xres dp_yres g).iStartKeyX = g.iStartKeyX
        ∧ (InitPadLayout dp_xres dp_yres g).iStartKeyY = g.iStartKeyY)
    ∧ (g.iSelectKeyX ≠ -1 → g.iSelectKeyY ≠ -1 →
        (InitPadLayout dp_xres dp_yres g).iSelectKeyX = g.iSelectKeyX
        ∧ (InitPadLayout dp_xres dp_yres g).iSelectKeyY = g.iSelectKeyY)
    ∧ (g.iUnthrottleKeyX ≠ -1 → g.iUnthrottleKeyY ≠ -1 →
        (InitPadLayout dp_xres dp_yres g).iUnthrottleKeyX = g.iUnthrottleKeyX
        ∧ (InitPadLayout dp_xres dp_yres g).iUnthrottleKeyY = g.iUnthrottleKeyY)
    ∧ (g.iLKeyX ≠ -1 → g.iLKeyY ≠ -1 →
        (InitPadLayout dp_xres dp_yres g).iLKeyX = g.iLKeyX
        ∧ (InitPadLayout dp_xres dp_yres g).iLKeyY = g.iLKeyY)
    ∧ (g.iRKeyX ≠ -1 → g.iRKeyY ≠ -1 →
        (InitPadLayout dp_xres dp_yres g).iRKeyX = g.iRKeyX
        ∧ (InitPadLayout dp_xres dp_yres g).iRKeyY = g.iRKeyY)
    ∧ (g.iActionButtonCenterX = -1 ∨ g.iActionButtonCenterY = -1 →
        (InitPadLayout dp_xres dp_yres g).iActionButtonCenterX = Action_button_center_X dp_xres g.fButtonScale
        ∧ (InitPadLayout dp_xres dp_yres g).iActionButtonCenterY = Action_button_center_Y dp_yres g.fButtonScale)
    ∧ (g.iDpadX = -1 ∨ g.iDpadY = -1 →
        (InitPadLayout dp_xres dp_yres g).iDpadX = D_pad_X g.fButtonScale
        ∧ (InitPadLayout dp_xres dp_yres g).iDpadY = D_pad_Y dp_yres g.fButtonScale g.bShowAnalogStick)
    ∧ (g.iAnalogStickX = -1 ∨ g.iAnalogStickY = -1 →
        (InitPadLayout dp_xres dp_yres g).iAnalogStickX = D_pad_X g.fButtonScale
        ∧ (InitPadLayout dp_xres dp_yres g).iAnalogStickY = analog_stick_Y dp_yres g.fButtonScale)
    ∧ (g.iStartKeyX = -1 ∨ g.iStartKeyY = -1 →
        (InitPadLayout dp_xres dp_yres g).iStartKeyX = start_key_X dp_xres g.fButtonScale
        ∧ (InitPadLayout dp_xres dp_yres g).iStartKeyY = bottom_key_Y dp_yres g.fButtonScale)
    ∧ (g.iSelectKeyX = -1 ∨ g.iSelectKeyY = -1 →
        (InitPadLayout dp_xres dp_yres g).iSelectKeyX = select_key_X dp_xres
        ∧ (InitPadLayout dp_xres dp_yres g).iSelectKeyY = bottom_key_Y dp_yres g.fButtonScale)
    ∧ (g.iUnthrottleKeyX = -1 ∨ g.iUnthrottleKeyY = -1 →
        (InitPadLayout dp_xres dp_yres g).iUnthrottleKeyX = unthrottle_key_X dp_xres g.fButtonScale
        ∧ (InitPadLayout dp_xres dp_yres g).iUnthrottleKeyY = bottom_key_Y dp_yres g.fButtonScale)
    ∧ (g.iLKeyX = -1 ∨ g.iLKeyY = -1 →
        (InitPadLayout dp_xres dp_yres g).iLKeyX = l_key_X g.fButtonScale
        ∧ (InitPadLayout dp_xres dp_yres g).iLKeyY = shoulder_key_Y g.fButtonScale)
    ∧ (g.iRKeyX = -1 ∨ g.iRKeyY = -1 →
        (InitPadLayout dp_xres dp_yres g).iRKeyX = r_key_X dp_xres g.fButtonScale
        ∧ (InitPadLayout dp_xres dp_yres g).iRKeyY = shoulder_key_Y g.fButtonScale) := by
  rw [InitPadLayout_fields]
  refine ⟨?_, ?_, ?_, ?_, ?_, ?_, ?_, ?_, ?_, ?_, ?_, ?_, ?_, ?_, ?_, ?_, ?_, ?_⟩
  · intro h
    simp [h]
  · intro h
    simp [h]
  · intro hx hy
    simp [hx, hy]
  · intro hx hy
    simp [hx, hy]
  · intro hx hy
    simp [hx, hy]
  · intro hx hy
    simp [hx, hy]
  · intro hx hy
    simp [hx, hy]
  · intro hx hy
    simp [hx, hy]
  · intro hx hy
    simp [hx, hy]
  · intro hx hy
    simp [hx, hy]
  · intro h
    simp [h]
  · intro h
    simp [h]
  · intro h
    simp [h]
  · intro h
    simp [h]
  · intro h
    simp [h]
  · intro h
    simp [h]
  · intro h
    simp [h]
  · intro h
    simp [h]

/-- Witness for C17, amended: in `exConfigHalfSet` the D-pad's Y is unset, so
both of its coordinates get their defaults. -/
theorem InitPadLayout_keeps_set_pairs_witness :
    (exConfigHalfSet.iDpadX = -1 ∨ exConfigHalfSet.iDpadY = -1)
    ∧ (InitPadLayout 800 480 exConfigHalfSet).iDpadX = D_pad_X exConfigHalfSet.fButtonScale
    ∧ (InitPadLayout 800 480 exConfigHalfSet).iDpadY
        = D_pad_Y 480 exConfigHalfSet.fButtonScale exConfigHalfSet.bShowAnalogStick :=
  have h : exConfigHalfSet.iDpadX = -1 ∨ exConfigHalfSet.iDpadY = -1 := Or.inr rfl
  ⟨h, (InitPadLayout_keeps_set_pairs 800 480 exConfigHalfSet).2.2.2.2.2.2.2.2.2.2.2.1 h⟩

/-! ## Theorems: sequences of events -/

theorem MultiTouchButton.Touch_bounds (b : MultiTouchButton) (e : TouchInput) :
    (b.Touch e).bounds_ = b.bounds_ := by
  unfold MultiTouchButton.Touch
  dsimp only
  split_ifs <;> rfl

theorem MultiTouchButton.Touch_lt (b : MultiTouchButton) (e : TouchInput)
    (hm : b.pointerDownMask_ < 2 ^ 32) : (b.Touch e).pointerDownMask_ < 2 ^ 32 := by
  unfold MultiTouchButton.Touch
  dsimp only
  split_ifs <;>
    first
      | exact hm
      | exact setBit_lt _ _
      | exact clearBit_lt _ _ hm
      | exact clearBit_lt _ _ (setBit_lt _ _)
      | exact clearBit_lt _ _ (clearBit_lt _ _ hm)
      | exact clearBit_lt _ _ (clearBit_lt _ _ (setBit_lt _ _))

/-- One event, any combination of flags: the bit of the event's pointer after
`MultiTouchButton::Touch`, and every other bit. -/
theorem MultiTouchButton.Touch_testBit (b : MultiTouchButton) (e : TouchInput) (j : Nat)
    (hm : b.pointerDownMask_ < 2 ^ 32) (h0 : 0 ≤ e.id) (h1 : e.id < 32) :
    (b.Touch e).pointerDownMask_.testBit j =
      if j = e.id.toNat then
        (if hasFlag e.flags TOUCH_UP = true then false
          else if hasFlag e.flags TOUCH_MOVE = true then b.bounds_.Contains e.x e.y
          else ((hasFlag e.flags TOUCH_DOWN && b.bounds_.Contains e.x e.y)
            || b.pointerDownMask_.testBit j))
      else b.pointerDownMask_.testBit j := by
  have hs := setBit_lt b.pointerDownMask_ e.id
  have hs2 := setBit_lt (u32 (b.pointerDownMask_ ||| shl1 e.id)) e.id
  have hc := clearBit_lt b.pointerDownMask_ e.id hm
  have hc2 := clearBit_lt _ e.id hs
  unfold MultiTouchButton.Touch
  by_cases hd : hasFlag e.flags TOUCH_DOWN = true <;>
    by_cases hmv : hasFlag e.flags TOUCH_MOVE = true <;>
    by_cases hu : hasFlag e.flags TOUCH_UP = true <;>
    by_cases hin : b.bounds_.Contains e.x e.y = true <;>
    by_cases hj : j = e.id.toNat <;>
    simp [hd, hmv, hu, hin, hj, testBit_setBit _ _ _ hm h0 h1, testBit_setBit _ _ _ hs h0 h1,
      testBit_clearBit _ _ _ hm h0 h1, testBit_clearBit _ _ _ hs h0 h1,
      testBit_clearBit _ _ _ hs2 h0 h1, testBit_clearBit _ _ _ hc h0 h1,
      testBit_clearBit _ _ _ hc2 h0 h1]
theorem MultiTouchButton.run_snoc (b : MultiTouchButton) (evs : List TouchInput)
    (e : TouchInput) : b.run (evs ++ [e]) = (b.run evs).Touch e := by
  simp [MultiTouchButton.run, List.foldl_append]

theorem MultiTouchButton.run_bounds (b : MultiTouchButton) (evs : List TouchInput) :
    (b.run evs).bounds_ = b.bounds_ := by
  induction evs using List.reverseRecOn with
  | nil => rfl
  | append_singleton l e ih => rw [MultiTouchButton.run_snoc, MultiTouchButton.Touch_bounds, ih]

theorem MultiTouchButton.run_lt (b : MultiTouchButton) (evs : List TouchInput)
    (hm : b.pointerDownMask_ < 2 ^ 32) : (b.run evs).pointerDownMask_ < 2 ^ 32 := by
  induction evs using List.reverseRecOn with
  | nil => exact hm
  | append_singleton l e ih =>
    rw [MultiTouchButton.run_snoc]
    exact MultiTouchButton.Touch_lt _ _ ih

/-- C16: for every sequence of touch events with pointer IDs in 0..31 applied
by `MultiTouchButton::Touch` to a widget whose mask starts empty, pointer `i`
is in the final mask only if the sequence contains a Down or Move event of `i`
whose position is inside the bounds and that is followed by no Up event of `i`
and by no Move event of `i` whose position is outside the bounds. -/
theorem pointer_mask_invariant (b : MultiTouchButton) (evs : List TouchInput) (i : Int)
    (hempty : b.pointerDownMask_ = 0) (hids : ∀ e ∈ evs, 0 ≤ e.id ∧ e.id < 32)
    (h0 : 0 ≤ i) (h1 : i < 32)
    (hbit : (b.run evs).pointerDownMask_.testBit i.toNat = true) :
    ∃ pre e post, evs = pre ++ e :: post ∧ isCapture b.bounds_ i e = true
      ∧ ∀ f ∈ post, isRelease b.bounds_ i f = false := by
  induction evs using List.reverseRecOn with
  | nil =>
    simp [MultiTouchButton.run, hempty] at hbit
  | append_singleton l e ih =>
    have hl : ∀ f ∈ l, 0 ≤ f.id ∧ f.id < 32 := fun f hf => hids f (by simp [hf])
    have he : 0 ≤ e.id ∧ e.id < 32 := hids e (by simp)
    have hlt : (b.run l).pointerDownMask_ < 2 ^ 32 :=
      MultiTouchButton.run_lt b l (by rw [hempty]; norm_num)
    rw [MultiTouchButton.run_snoc,
      MultiTouchButton.Touch_testBit _ _ _ hlt he.1 he.2, MultiTouchButton.run_bounds] at hbit
    have extend : (b.run l).pointerDownMask_.testBit i.toNat = true →
        isRelease b.bounds_ i e = false →
        ∃ pre e0 post, l ++ [e] = pre ++ e0 :: post ∧ isCapture b.bounds_ i e0 = true
          ∧ ∀ f ∈ post, isRelease b.bounds_ i f = false := by
      intro hold hrel
      obtain ⟨pre, e0, post, hsplit, hcap, hpost⟩ := ih hl hold
      refine ⟨pre, e0, post ++ [e], by rw [hsplit]; simp, hcap, ?_⟩
      intro f hf
      rcases List.mem_append.mp hf with hf | hf
      · exact hpost f hf
      · rw [List.mem_singleton] at hf
        rw [hf]
        exact hrel
    by_cases hie : i.toNat = e.id.toNat
    · have heq : e.id = i := by omega
      rw [if_pos hie] at hbit
      by_cases hu : hasFlag e.flags TOUCH_UP = true
      · simp [hu] at hbit
      · by_cases hmv : hasFlag e.flags TOUCH_MOVE = true
        · simp [hu, hmv] at hbit
          exact ⟨l, e, [], rfl, by simp [isCapture, heq, hmv, hbit], by simp⟩
        · simp [hu, hmv] at hbit
          rcases hbit with ⟨hd, hin⟩ | hold
          · exact ⟨l, e, [], rfl, by simp [isCapture, heq, hd, hin], by simp⟩
          · exact extend hold (by simp [isRelease, hu, hmv])
    · rw [if_neg hie] at hbit
      have hne : e.id ≠ i := fun h => hie (by rw [h])
      exact extend hbit (by simp [isRelease, hne])

/-- Witness for C16: pointer 1 goes down inside, pointer 2 comes and goes. -/
theorem pointer_mask_invariant_witness :
    (⟨exBounds, 0⟩ : MultiTouchButton).pointerDownMask_ = 0
    ∧ (∀ e ∈ [downEvent 1 5 5, downEvent 2 6 6, upEvent 2 6 6], 0 ≤ e.id ∧ e.id < 32)
    ∧ (0 : Int) ≤ 1 ∧ (1 : Int) < 32
    ∧ ((⟨exBounds, 0⟩ : MultiTouchButton).run
        [downEvent 1 5 5, downEvent 2 6 6, upEvent 2 6 6]).pointerDownMask_.testBit
          (1 : Int).toNat = true
    ∧ ∃ pre e post, [downEvent 1 5 5, downEvent 2 6 6, upEvent 2 6 6] = pre ++ e :: post
        ∧ isCapture (⟨exBounds, 0⟩ : MultiTouchButton).bounds_ 1 e = true
        ∧ ∀ f ∈ post, isRelease (⟨exBounds, 0⟩ : MultiTouchButton).bounds_ 1 f = false :=
  have hids : ∀ e ∈ [downEvent 1 5 5, downEvent 2 6 6, upEvent 2 6 6],
      0 ≤ e.id ∧ e.id < 32 := by
    simp [downEvent, upEvent]
  have hbit : ((⟨exBounds, 0⟩ : MultiTouchButton).run
      [downEvent 1 5 5, downEvent 2 6 6, upEvent 2 6 6]).pointerDownMask_.testBit
        (1 : Int).toNat = true := by
    obtain ⟨h1, h2, h3, -, -, -, h7, h8, h9⟩ := hasFlag_single
    have hin1 : exBounds.Contains 5 5 = true := by
      norm_num [Bounds.Contains, exBounds]
    have hin2 : exBounds.Contains 6 6 = true := by
      norm_num [Bounds.Contains, exBounds]
    simp [MultiTouchButton.run, MultiTouchButton.Touch, downEvent, upEvent, h1, h2, h3, h7,
      h8, h9, hin1, hin2]
    decide
  ⟨rfl, hids, by norm_num, by norm_num, hbit,
   pointer_mask_invariant ⟨exBounds, 0⟩ [downEvent 1 5 5, downEvent 2 6 6, upEvent 2 6 6] 1
     rfl hids (by norm_num) (by norm_num) hbit⟩

/-! ## Theorems: the pressed look of a button -/

theorem lor_land_self (r b : Nat) : (r ||| b) &&& b = b := by
  apply Nat.eq_of_testBit_eq
  intro j
  rw [Nat.testBit_and, Nat.testBit_or]
  cases r.testBit j <;> cases b.testBit j <;> rfl

theorem land_not32_land_self (r b : Nat) (hb : b < 2 ^ 32) : (r &&& not32 b) &&& b = 0 := by
  apply Nat.eq_of_testBit_eq
  intro j
  rw [Nat.testBit_and, Nat.testBit_and, Nat.zero_testBit]
  by_cases hj : j < 32
  · rw [testBit_not32 _ _ hj]
    cases r.testBit j <;> cases b.testBit j <;> rfl
  · rw [testBit_high b j hb (by omega)]
    simp

/-- One event keeps the register bit of a `PSPButton` equal to its logical
state. -/
theorem PSPButton.Touch_register (haptic : Bool) (b : PSPButton) (e : TouchInput)
    (buttons : Nat) (hbit : b.pspButtonBit_ ≠ 0) (hbit32 : b.pspButtonBit_ < 2 ^ 32)
    (hinv : buttons &&& b.pspButtonBit_ ≠ 0 ↔ b.pointerDownMask_ ≠ 0) :
    ((PSPButton.Touch haptic b e).2.foldl applyCall buttons
        &&& (PSPButton.Touch haptic b e).1.pspButtonBit_ ≠ 0
      ↔ (PSPButton.Touch haptic b e).1.pointerDownMask_ ≠ 0)
    ∧ (PSPButton.Touch haptic b e).1.pspButtonBit_ = b.pspButtonBit_ := by
  have hw := PSPButton.Touch_widget haptic b e
  have hbit2 : (PSPButton.Touch haptic b e).1.pspButtonBit_ = b.pspButtonBit_ := by rw [hw]
  have hmask : (PSPButton.Touch haptic b e).1.pointerDownMask_
      = (b.toMultiTouchButton.Touch e).pointerDownMask_ := by rw [hw]
  refine ⟨?_, hbit2⟩
  rw [hbit2, hmask]
  unfold PSPButton.Touch
  by_cases h0 : b.pointerDownMask_ = 0 <;>
    by_cases h1 : (b.toMultiTouchButton.Touch e).pointerDownMask_ = 0
  · have hb0 : buttons &&& b.pspButtonBit_ = 0 := by
      by_contra h
      exact hinv.1 h h0
    simp [h0, h1, hb0]
  · cases haptic <;>
      simp [h0, h1, applyCall, CtrlButtonDown, lor_land_self, hbit]
  · simp [h0, h1, applyCall, CtrlButtonUp, land_not32_land_self _ _ hbit32]
  · have hb1 : buttons &&& b.pspButtonBit_ ≠ 0 := hinv.2 h0
    simp [h0, h1, hb1]

theorem PSPButton.run_register (haptic : Bool) (evs : List TouchInput) :
    ∀ (b : PSPButton) (buttons : Nat), b.pspButtonBit_ ≠ 0 → b.pspButtonBit_ < 2 ^ 32 →
      (buttons &&& b.pspButtonBit_ ≠ 0 ↔ b.pointerDownMask_ ≠ 0) →
      ((PSPButton.run haptic b evs).2.foldl applyCall buttons
          &&& (PSPButton.run haptic b evs).1.pspButtonBit_ ≠ 0
        ↔ (PSPButton.run haptic b evs).1.pointerDownMask_ ≠ 0) := by
  induction evs with
  | nil =>
    intro b buttons _ _ hinv
    simpa [PSPButton.run] using hinv
  | cons e es ih =>
    intro b buttons hbit hbit32 hinv
    obtain ⟨hstep, hsame⟩ := PSPButton.Touch_register haptic b e buttons hbit hbit32 hinv
    have := ih (PSPButton.Touch haptic b e).1
      ((PSPButton.Touch haptic b e).2.foldl applyCall buttons)
      (by rw [hsame]; exact hbit) (by rw [hsame]; exact hbit32) hstep
    simpa [PSPButton.run, List.foldl_append] using this

/-- C18: with the input sink a button-bit register that only this widget's
`__CtrlButtonDown` / `__CtrlButtonUp` calls modify, and in which the (non-zero)
bit `pspButtonBit_` starts clear, after every sequence of touch events with
pointer IDs in 0..31 from an empty mask `PSPButton::IsDown()` equals
`pointerDownMask_ != 0`. -/
theorem PSPButton_IsDown_is_logical_state (haptic : Bool) (b : PSPButton) (buttons : Nat)
    (evs : List TouchInput) (hempty : b.pointerDownMask_ = 0)
    (hclear : buttons &&& b.pspButtonBit_ = 0)
    (hbit : b.pspButtonBit_ ≠ 0) (hbit32 : b.pspButtonBit_ < 2 ^ 32)
    (_hids : ∀ e ∈ evs, 0 ≤ e.id ∧ e.id < 32) :
    PSPButton.IsDown (PSPButton.run haptic b evs).1
        ((PSPButton.run haptic b evs).2.foldl applyCall buttons)
      = decide ((PSPButton.run haptic b evs).1.pointerDownMask_ ≠ 0) := by
  have h := PSPButton.run_register haptic evs b buttons hbit hbit32 (by simp [hempty, hclear])
  unfold PSPButton.IsDown CtrlPeekButtons
  exact decide_eq_decide.mpr h

/-- Witness for C18: two fingers on the Cross button, one lifted again. -/
theorem PSPButton_IsDown_is_logical_state_witness :
    (⟨⟨exBounds, 0⟩, 0x4000⟩ : PSPButton).pointerDownMask_ = 0
    ∧ 0 &&& (⟨⟨exBounds, 0⟩, 0x4000⟩ : PSPButton).pspButtonBit_ = 0
    ∧ (⟨⟨exBounds, 0⟩, 0x4000⟩ : PSPButton).pspButtonBit_ ≠ 0
    ∧ (⟨⟨exBounds, 0⟩, 0x4000⟩ : PSPButton).pspButtonBit_ < 2 ^ 32
    ∧ (∀ e ∈ [downEvent 0 5 5, downEvent 1 6 6, upEvent 0 5 5], 0 ≤ e.id ∧ e.id < 32)
    ∧ PSPButton.IsDown
        (PSPButton.run true ⟨⟨exBounds, 0⟩, 0x4000⟩
          [downEvent 0 5 5, downEvent 1 6 6, upEvent 0 5 5]).1
        ((PSPButton.run true ⟨⟨exBounds, 0⟩, 0x4000⟩
          [downEvent 0 5 5, downEvent 1 6 6, upEvent 0 5 5]).2.foldl applyCall 0)
      = decide ((PSPButton.run true ⟨⟨exBounds, 0⟩, 0x4000⟩
          [downEvent 0 5 5, downEvent 1 6 6, upEvent 0 5 5]).1.pointerDownMask_ ≠ 0) :=
  have hids : ∀ e ∈ [downEvent 0 5 5, downEvent 1 6 6, upEvent 0 5 5],
      0 ≤ e.id ∧ e.id < 32 := by
    simp [downEvent, upEvent]
  ⟨rfl, by decide, by decide, by decide, hids,
   PSPButton_IsDown_is_logical_state true ⟨⟨exBounds, 0⟩, 0x4000⟩ 0
     [downEvent 0 5 5, downEvent 1 6 6, upEvent 0 5 5] rfl (by decide) (by decide) (by decide)
     hids⟩

/-! ## Theorems: nothing stays stuck -/

/-- One event with a non-negative pointer ID keeps the invariant of a
`PSPCross`: no owner, no direction. -/
theorem PSPCross.cross_Touch_no_stuck (L : Libm) (haptic : Bool) (c : PSPCross) (e : TouchInput)
    (h0 : 0 ≤ e.id) (hinv : c.dragPointerId_ = -1 → c.down_ = 0)
    (hfin : (PSPCross.Touch L haptic c e).1.dragPointerId_ = -1) :
    (PSPCross.Touch L haptic c e).1.down_ = 0 := by
  have hne : e.id ≠ -1 := by omega
  unfold PSPCross.Touch at hfin ⊢
  by_cases hd : hasFlag e.flags TOUCH_DOWN = true <;>
    by_cases hm : hasFlag e.flags TOUCH_MOVE = true <;>
    by_cases hu : hasFlag e.flags TOUCH_UP = true <;>
    by_cases hcap : (c.dragPointerId_ = -1 ∧ c.bounds_.Contains e.x e.y = true) <;>
    by_cases hown : e.id = c.dragPointerId_ <;>
    simp [hd, hm, hu, hcap, hown, hne, PSPCross.ProcessTouch_drag,
      PSPCross.ProcessTouch_not_down] at hfin ⊢ <;>
    first
      | exact hinv hfin
      | exact hinv hcap.1
      | (exfalso; omega)

theorem PSPCross.run_no_stuck (L : Libm) (haptic : Bool) (c : PSPCross)
    (evs : List TouchInput) (hids : ∀ e ∈ evs, 0 ≤ e.id ∧ e.id < 32)
    (hinv : c.dragPointerId_ = -1 → c.down_ = 0) :
    (PSPCross.run L haptic c evs).dragPointerId_ = -1 →
      (PSPCross.run L haptic c evs).down_ = 0 := by
  induction evs using List.reverseRecOn with
  | nil => exact hinv
  | append_singleton l e ih =>
    have hl : ∀ f ∈ l, 0 ≤ f.id ∧ f.id < 32 := fun f hf => hids f (by simp [hf])
    have he : 0 ≤ e.id ∧ e.id < 32 := hids e (by simp)
    have hrun : PSPCross.run L haptic c (l ++ [e])
        = (PSPCross.Touch L haptic (PSPCross.run L haptic c l) e).1 := by
      simp [PSPCross.run, List.foldl_append]
    rw [hrun]
    exact PSPCross.cross_Touch_no_stuck L haptic _ e he.1 (ih hl)

theorem PSPStick.Touch_stick (L : Libm) (s : PSPStick) (e : TouchInput) :
    (s.Touch L e).1.stick_ = s.stick_ := by
  unfold PSPStick.Touch
  dsimp only
  split_ifs <;> rfl

theorem PSPStick.run_stick (L : Libm) (s : PSPStick) (evs : List TouchInput) :
    (s.run L evs).stick_ = s.stick_ := by
  induction evs using List.reverseRecOn with
  | nil => rfl
  | append_singleton l e ih =>
    have hrun : s.run L (l ++ [e]) = ((s.run L l).Touch L e).1 := by
      simp [PSPStick.run, List.foldl_append]
    rw [hrun, PSPStick.Touch_stick, ih]

/-- One event with a non-negative pointer ID that leaves a `PSPStick` without
owner and wrote the axis wrote (0, 0) last. -/
theorem PSPStick.stick_Touch_no_stuck (L : Libm) (s : PSPStick) (e : TouchInput) (h0 : 0 ≤ e.id)
    (hfin : (s.Touch L e).1.dragPointerId_ = -1) (hwrote : (s.Touch L e).2 ≠ []) :
    ∃ pre, (s.Touch L e).2
      = pre ++ [SinkCall.CtrlSetAnalogX (IEEE.fin 0) s.stick_,
          SinkCall.CtrlSetAnalogY (IEEE.fin 0) s.stick_] := by
  have hne : e.id ≠ -1 := by omega
  have hzero : ∀ (w : PSPStick) (x y : ℚ), w.ProcessTouch L x y false
      = [SinkCall.CtrlSetAnalogX (IEEE.fin 0) w.stick_,
          SinkCall.CtrlSetAnalogY (IEEE.fin 0) w.stick_] :=
    fun _ _ _ => rfl
  unfold PSPStick.Touch at hfin hwrote ⊢
  by_cases hd : hasFlag e.flags TOUCH_DOWN = true <;>
    by_cases hm : hasFlag e.flags TOUCH_MOVE = true <;>
    by_cases hu : hasFlag e.flags TOUCH_UP = true <;>
    by_cases hcap : (s.dragPointerId_ = -1 ∧ s.bounds_.Contains e.x e.y = true) <;>
    by_cases hown : e.id = s.dragPointerId_ <;>
    simp [hd, hm, hu, hcap, hown, hne, hzero] at hfin hwrote ⊢ <;>
    first
      | (exfalso; omega)
      | exact ⟨_, rfl⟩
      | exact ⟨[], rfl⟩
      | exact ⟨_, (List.append_assoc _ _ _).symm⟩

/-- C20: no input stays stuck once the drag pointer is gone.  For every
sequence of touch events with pointer IDs in 0..31 applied to a freshly
constructed `PSPCross`, if `dragPointerId_ == -1` afterwards then `down_` is
0; and for a freshly constructed `PSPStick`, if `dragPointerId_ == -1` after
an event that wrote the axis, the last two calls of that event are
`__CtrlSetAnalogX(0)` and `__CtrlSetAnalogY(0)`. -/
theorem no_stuck_input (L : Libm) (haptic : Bool) (bounds : Bounds) (scale radius : ℚ)
    (stick : Int) (evs : List TouchInput) (e : TouchInput)
    (hids : ∀ f ∈ evs, 0 ≤ f.id ∧ f.id < 32) (he : 0 ≤ e.id ∧ e.id < 32) :
    ((PSPCross.run L haptic (PSPCross.new bounds scale radius) evs).dragPointerId_ = -1 →
        (PSPCross.run L haptic (PSPCross.new bounds scale radius) evs).down_ = 0)
    ∧ ((((PSPStick.new bounds stick scale).run L evs).Touch L e).1.dragPointerId_ = -1 →
        (((PSPStick.new bounds stick scale).run L evs).Touch L e).2 ≠ [] →
        ∃ pre, (((PSPStick.new bounds stick scale).run L evs).Touch L e).2
          = pre ++ [SinkCall.CtrlSetAnalogX (IEEE.fin 0) stick,
              SinkCall.CtrlSetAnalogY (IEEE.fin 0) stick]) := by
  constructor
  · exact PSPCross.run_no_stuck L haptic _ evs hids (fun _ => rfl)
  · intro hfin hwrote
    have h := PSPStick.stick_Touch_no_stuck L _ e he.1 hfin hwrote
    rw [PSPStick.run_stick] at h
    exact h

/-- Witness for C20: pointer 3 goes down on a fresh D-pad and is lifted. -/
theorem no_stuck_input_witness :
    (∀ f ∈ [downEvent 3 120 80, upEvent 3 120 80], 0 ≤ f.id ∧ f.id < 32)
    ∧ ((0 : Int) ≤ (upEvent 3 120 80).id ∧ (upEvent 3 120 80).id < 32)
    ∧ ((PSPCross.run exLibm true (PSPCross.new exBounds 1 40)
          [downEvent 3 120 80, upEvent 3 120 80]).dragPointerId_ = -1 →
        (PSPCross.run exLibm true (PSPCross.new exBounds 1 40)
          [downEvent 3 120 80, upEvent 3 120 80]).down_ = 0) :=
  have hids : ∀ f ∈ [downEvent 3 120 80, upEvent 3 120 80], 0 ≤ f.id ∧ f.id < 32 := by
    simp [downEvent, upEvent]
  have he : (0 : Int) ≤ (upEvent 3 120 80).id ∧ (upEvent 3 120 80).id < 32 := by
    simp [upEvent]
  ⟨hids, he,
   (no_stuck_input exLibm true exBounds 1 40 0 [downEvent 3 120 80, upEvent 3 120 80]
      (upEvent 3 120 80) hids he).1⟩

/-! ## Theorems: pointer IDs outside 0..31 -/

/-- C15, as stated, fails: a Down event with pointer ID 40 inside the bounds of
a fresh `PSPStick` captures the pointer and writes the axis, and an Up event
with pointer ID -1 on a fresh `PSPStick` writes the axis. -/
theorem out_of_range_id_is_captured :
    ¬ ((0 : Int) ≤ 40 ∧ (40 : Int) < 32)
    ∧ (PSPStick.new exBounds 0 1).dragPointerId_ = -1
    ∧ ((PSPStick.new exBounds 0 1).Touch exLibm (downEvent 40 80 80)).1.dragPointerId_ = 40
    ∧ ((PSPStick.new exBounds 0 1).Touch exLibm (downEvent 40 80 80)).2 ≠ []
    ∧ ((PSPStick.new exBounds 0 1).Touch exLibm (upEvent (-1) 80 80)).2
        = [SinkCall.CtrlSetAnalogX (IEEE.fin 0) 0, SinkCall.CtrlSetAnalogY (IEEE.fin 0) 0] := by
  have hin : exBounds.Contains 80 80 = true := by
    norm_num [Bounds.Contains, exBounds]
  refine ⟨by norm_num, rfl, ?_, ?_, ?_⟩
  · rw [PSPStick.stick_Touch_down, if_pos ⟨rfl, hin⟩]
  · rw [PSPStick.stick_Touch_down, if_pos ⟨rfl, hin⟩]
    simp [PSPStick.ProcessTouch]
  · have hown : (-1 : Int) = (PSPStick.new exBounds 0 1).dragPointerId_ := rfl
    rw [PSPStick.stick_Touch_up, if_pos hown]
    rfl

/-- C15, amended: pointer IDs are not validated.  For an event whose ID is
outside 0..31, `PSPCross::Touch` and `PSPStick::Touch` behave as for any other
ID: a Down that is not accepted (a pointer is owned, or the position is
outside the bounds) and a Move or Up whose ID differs from `dragPointerId_`
leave the widget unchanged and make no call, while a Down inside the bounds of
a widget that owns no pointer captures the ID; `MultiTouchButton::Touch`
leaves the mask unchanged on a Down outside the bounds. -/
theorem out_of_range_id_not_validated (L : Libm) (haptic : Bool) (b : MultiTouchButton)
    (c : PSPCross) (s : PSPStick) (id : Int) (x y : ℚ) (_hid : ¬ (0 ≤ id ∧ id < 32)) :
    (b.bounds_.Contains x y = false → b.Touch (downEvent id x y) = b)
    ∧ (¬ (c.dragPointerId_ = -1 ∧ c.bounds_.Contains x y = true) →
        PSPCross.Touch L haptic c (downEvent id x y) = (c, []))
    ∧ (id ≠ c.dragPointerId_ → PSPCross.Touch L haptic c (moveEvent id x y) = (c, []))
    ∧ (id ≠ c.dragPointerId_ → PSPCross.Touch L haptic c (upEvent id x y) = (c, []))
    ∧ (c.dragPointerId_ = -1 ∧ c.bounds_.Contains x y = true →
        (PSPCross.Touch L haptic c (downEvent id x y)).1.dragPointerId_ = id)
    ∧ (¬ (s.dragPointerId_ = -1 ∧ s.bounds_.Contains x y = true) →
        s.Touch L (downEvent id x y) = (s, []))
    ∧ (id ≠ s.dragPointerId_ → s.Touch L (moveEvent id x y) = (s, []))
    ∧ (id ≠ s.dragPointerId_ → s.Touch L (upEvent id x y) = (s, []))
    ∧ (s.dragPointerId_ = -1 ∧ s.bounds_.Contains x y = true →
        (s.Touch L (downEvent id x y)).1.dragPointerId_ = id) := by
  refine ⟨?_, ?_, ?_, ?_, ?_, ?_, ?_, ?_, ?_⟩
  · intro hout
    rw [MultiTouchButton.button_Touch_down]
    simp [hout]
  · intro hcond
    rw [PSPCross.cross_Touch_down, if_neg hcond]
  · intro hne
    rw [PSPCross.cross_Touch_move, if_neg hne]
  · intro hne
    rw [PSPCross.cross_Touch_up, if_neg hne]
  · intro hcond
    rw [PSPCross.cross_Touch_down, if_pos hcond, PSPCross.ProcessTouch_drag]
  · intro hcond
    rw [PSPStick.stick_Touch_down, if_neg hcond]
  · intro hne
    rw [PSPStick.stick_Touch_move, if_neg hne]
  · intro hne
    rw [PSPStick.stick_Touch_up, if_neg hne]
  · intro hcond
    rw [PSPStick.stick_Touch_down, if_pos hcond]

/-- Witness for C15, amended: pointer ID 40 moves while pointer 3 is owned. -/
theorem out_of_range_id_not_validated_witness :
    ¬ ((0 : Int) ≤ 40 ∧ (40 : Int) < 32) ∧ (40 : Int) ≠ exCross.dragPointerId_
    ∧ PSPCross.Touch exLibm true exCross (moveEvent 40 120 80) = (exCross, []) :=
  have hid : ¬ ((0 : Int) ≤ 40 ∧ (40 : Int) < 32) := by norm_num
  have hne : (40 : Int) ≠ exCross.dragPointerId_ := by decide
  ⟨hid, hne,
   (out_of_range_id_not_validated exLibm true ⟨exBounds, 0⟩ exCross exStick 40 120 80
      hid).2.2.1 hne⟩

/-! ## Theorems: directions and the sign of the offset -/

theorem M_PI_lt_four : M_PI < 4 := by
  unfold M_PI
  norm_num

/-- The angle behind each direction of the octant table. -/
theorem octant_angle (a : ℚ) (hrange : |a| ≤ M_PI + 1 / 1000000) :
    (hasDir (PSPCross.switchMask (⌊a / (2 * M_PI) * 8 + 1 / 2⌋ % 8)) CTRL_RIGHT = true →
        |a| ≤ 3 * M_PI / 8)
    ∧ (hasDir (PSPCross.switchMask (⌊a / (2 * M_PI) * 8 + 1 / 2⌋ % 8)) CTRL_LEFT = true →
        5 * M_PI / 8 ≤ |a|)
    ∧ (hasDir (PSPCross.switchMask (⌊a / (2 * M_PI) * 8 + 1 / 2⌋ % 8)) CTRL_DOWN = true →
        M_PI / 8 ≤ a ∧ a < 7 * M_PI / 8)
    ∧ (hasDir (PSPCross.switchMask (⌊a / (2 * M_PI) * 8 + 1 / 2⌋ % 8)) CTRL_UP = true →
        -(7 * M_PI / 8) ≤ a ∧ a < -(M_PI / 8)) := by
  have hpi := M_PI_gt_three
  have hpi4 := M_PI_lt_four
  have hpos : (0 : ℚ) < M_PI := by linarith
  have habs := abs_le.mp hrange
  have hq : a / (2 * M_PI) * 8 + 1 / 2 = a * 4 / M_PI + 1 / 2 := by
    field_simp
    ring
  rw [hq]
  generalize hn : ⌊a * 4 / M_PI + 1 / 2⌋ = n
  have hlo : (n : ℚ) ≤ a * 4 / M_PI + 1 / 2 := by
    rw [← hn]
    exact Int.floor_le _
  have hhi : a * 4 / M_PI + 1 / 2 < n + 1 := by
    rw [← hn]
    exact Int.lt_floor_add_one _
  have hlo2 : ((n : ℚ) - 1 / 2) * M_PI ≤ a * 4 := by
    have h : (n : ℚ) - 1 / 2 ≤ a * 4 / M_PI := by linarith
    rwa [le_div_iff₀ hpos] at h
  have hhi2 : a * 4 < ((n : ℚ) + 1 / 2) * M_PI := by
    have h : a * 4 / M_PI < (n : ℚ) + 1 / 2 := by linarith
    rwa [div_lt_iff₀ hpos] at h
  have hn4 : n ≤ 4 := by
    by_contra h
    have h5 : (5 : ℚ) ≤ n := by exact_mod_cast (not_le.mp h)
    nlinarith [habs.2]
  have hn4' : -4 ≤ n := by
    by_contra h
    have h5 : (n : ℚ) ≤ -5 := by exact_mod_cast (Int.le_sub_one_of_lt (not_le.mp h))
    nlinarith [habs.1]
  clear hn hlo hhi hq
  interval_cases n <;> norm_num at hlo2 hhi2 <;>
    refine ⟨fun h => ?_, fun h => ?_, fun h => ?_, fun h => ?_⟩ <;>
    first
      | exact absurd h (by decide)
      | (rw [abs_le]; constructor <;> linarith)
      | exact le_abs.2 (Or.inl (by linarith))
      | exact le_abs.2 (Or.inr (by linarith))
      | (constructor <;> linarith)

/-- Rounding that keeps the sign keeps a float with clear sign bit so. -/
theorem IEEE.roundWith_plus (r : ℚ → ℚ) (hr : ∀ q : ℚ, 0 ≤ q → 0 ≤ r q) (v : IEEE)
    (h : v ≠ IEEE.nan ∧ v.signBit = false) :
    IEEE.roundWith r v ≠ IEEE.nan ∧ (IEEE.roundWith r v).signBit = false := by
  obtain ⟨hn, hs⟩ := h
  cases v with
  | fin q =>
    have hq : 0 ≤ q := by simpa [IEEE.signBit] using hs
    have hneg : ¬ q < 0 := not_lt.mpr hq
    by_cases h0 : q = 0
    · simp [IEEE.roundWith, h0, IEEE.signBit]
    · by_cases hov : FLT_MAX < |r q|
      · simp [IEEE.roundWith, h0, hov, hneg, IEEE.signBit]
      · by_cases hr0 : r q = 0
        · have hF : ¬ FLT_MAX < 0 := by norm_num [FLT_MAX]
          simp [IEEE.roundWith, h0, hneg, IEEE.ofValue, hr0, IEEE.signBit, hF]
        · have hnr : ¬ r q < 0 := not_lt.mpr (hr q hq)
          simp [IEEE.roundWith, h0, hov, hneg, IEEE.ofValue, hr0, IEEE.signBit, hnr]
  | negZero => simp [IEEE.signBit] at hs
  | inf s =>
    have hs2 : s = false := by simpa [IEEE.signBit] using hs
    subst hs2
    simp [IEEE.roundWith, IEEE.signBit]
  | nan => exact absurd rfl hn

/-- Rounding that keeps the sign keeps a float that is not above zero so. -/
theorem IEEE.roundWith_nonpos (r : ℚ → ℚ) (hr : ∀ q : ℚ, q ≤ 0 → r q ≤ 0) (v : IEEE)
    (h : v ≠ IEEE.nan ∧ IEEE.lt (IEEE.fin 0) v = false) :
    IEEE.roundWith r v ≠ IEEE.nan ∧ IEEE.lt (IEEE.fin 0) (IEEE.roundWith r v) = false := by
  obtain ⟨hn, hs⟩ := h
  cases v with
  | fin q =>
    have hq : q ≤ 0 := by simpa [IEEE.lt, IEEE.value?] using hs
    by_cases h0 : q = 0
    · simp [IEEE.roundWith, h0, IEEE.lt, IEEE.value?]
    · have hneg : q < 0 := lt_of_le_of_ne hq h0
      by_cases hov : FLT_MAX < |r q|
      · simp [IEEE.roundWith, h0, hov, hneg, IEEE.lt, IEEE.value?]
      · by_cases hr0 : r q = 0
        · have hF : ¬ FLT_MAX < 0 := by norm_num [FLT_MAX]
          simp [IEEE.roundWith, h0, hneg, IEEE.ofValue, hr0, IEEE.lt, IEEE.value?, hF]
        · simp [IEEE.roundWith, h0, hov, hneg, IEEE.ofValue, hr0, IEEE.lt, IEEE.value?,
            hr q hq]
  | negZero => simp [IEEE.roundWith, IEEE.lt, IEEE.value?]
  | inf s =>
    have hs2 : s = true := by simpa [IEEE.lt, IEEE.value?] using hs
    subst hs2
    simp [IEEE.roundWith, IEEE.lt, IEEE.value?]
  | nan => exact absurd rfl hn

theorem IEEE.roundWith_nan (r : ℚ → ℚ) (v : IEEE) (h : v = IEEE.nan) :
    IEEE.roundWith r v = IEEE.nan := by
  rw [h]
  rfl

/-- The product of two floats with clear sign bit is NaN or has a clear sign
bit. -/
theorem IEEE.mul_plus_plus (a b : IEEE) (ha : a ≠ IEEE.nan ∧ a.signBit = false)
    (hb : b ≠ IEEE.nan ∧ b.signBit = false) :
    IEEE.mul a b = IEEE.nan ∨ (IEEE.mul a b ≠ IEEE.nan ∧ (IEEE.mul a b).signBit = false) := by
  obtain ⟨han, has⟩ := ha
  obtain ⟨hbn, hbs⟩ := hb
  cases a with
  | fin p =>
    have hp : 0 ≤ p := by simpa [IEEE.signBit] using has
    have hpn : ¬ p < 0 := not_lt.mpr hp
    cases b with
    | fin q =>
      have hq : 0 ≤ q := by simpa [IEEE.signBit] using hbs
      have hqn : ¬ q < 0 := not_lt.mpr hq
      right
      by_cases h0 : p * q = 0
      · simp [IEEE.mul, IEEE.value?, IEEE.signBit, IEEE.ofValue, h0, hpn, hqn]
      · have hpq : ¬ p * q < 0 := not_lt.mpr (mul_nonneg hp hq)
        have h0' : ¬ (p = 0 ∨ q = 0) := fun h => h0 (mul_eq_zero.mpr h)
        simp [IEEE.mul, IEEE.value?, IEEE.signBit, IEEE.ofValue, h0', hpn, hqn, hpq]
    | negZero => simp [IEEE.signBit] at hbs
    | inf t =>
      have ht : t = false := by simpa [IEEE.signBit] using hbs
      subst ht
      by_cases h0 : p = 0
      · left
        simp [IEEE.mul, IEEE.value?, h0]
      · right
        simp [IEEE.mul, IEEE.value?, IEEE.signBit, h0, hpn]
    | nan => exact absurd rfl hbn
  | negZero => simp [IEEE.signBit] at has
  | inf s =>
    have hs : s = false := by simpa [IEEE.signBit] using has
    subst hs
    cases b with
    | fin q =>
      have hq : 0 ≤ q := by simpa [IEEE.signBit] using hbs
      have hqn : ¬ q < 0 := not_lt.mpr hq
      by_cases h0 : q = 0
      · left
        simp [IEEE.mul, IEEE.value?, h0]
      · right
        simp [IEEE.mul, IEEE.value?, IEEE.signBit, h0, hqn]
    | negZero => simp [IEEE.signBit] at hbs
    | inf t =>
      have ht : t = false := by simpa [IEEE.signBit] using hbs
      subst ht
      right
      simp [IEEE.mul, IEEE.value?, IEEE.signBit]
    | nan => exact absurd rfl hbn
  | nan => exact absurd rfl han

/-- The product of a float that is not above zero and a float with clear sign
bit is NaN or not above zero. -/
theorem IEEE.mul_nonpos_plus (a b : IEEE)
    (ha : a ≠ IEEE.nan ∧ IEEE.lt (IEEE.fin 0) a = false)
    (hb : b ≠ IEEE.nan ∧ b.signBit = false) :
    IEEE.mul a b = IEEE.nan
      ∨ (IEEE.mul a b ≠ IEEE.nan ∧ IEEE.lt (IEEE.fin 0) (IEEE.mul a b) = false) := by
  obtain ⟨han, has⟩ := ha
  obtain ⟨hbn, hbs⟩ := hb
  cases a with
  | fin p =>
    have hp : p ≤ 0 := by simpa [IEEE.lt, IEEE.value?] using has
    cases b with
    | fin q =>
      have hq : 0 ≤ q := by simpa [IEEE.signBit] using hbs
      right
      have hpq : p * q ≤ 0 := mul_nonpos_of_nonpos_of_nonneg hp hq
      have hv : (IEEE.mul (IEEE.fin p) (IEEE.fin q)).value? = some (p * q) := by
        unfold IEEE.mul
        simp only [IEEE.value?]
        exact IEEE.value?_ofValue _ _
      constructor
      · intro h
        rw [h] at hv
        simp [IEEE.value?] at hv
      · rw [IEEE.lt_of_values (IEEE.fin 0) _ 0 (p * q) rfl hv]
        exact decide_eq_false (not_lt.mpr hpq)
    | negZero => simp [IEEE.signBit] at hbs
    | inf t =>
      have ht : t = false := by simpa [IEEE.signBit] using hbs
      subst ht
      by_cases h0 : p = 0
      · left
        simp [IEEE.mul, IEEE.value?, h0]
      · right
        have hneg : p < 0 := lt_of_le_of_ne hp h0
        simp [IEEE.mul, IEEE.value?, IEEE.signBit, h0, hneg, IEEE.lt]
    | nan => exact absurd rfl hbn
  | negZero =>
    cases b with
    | fin q =>
      right
      have hv : (IEEE.mul IEEE.negZero (IEEE.fin q)).value? = some (0 * q) := by
        unfold IEEE.mul
        simp only [IEEE.value?]
        exact IEEE.value?_ofValue _ _
      constructor
      · intro h
        rw [h] at hv
        simp [IEEE.value?] at hv
      · rw [IEEE.lt_of_values (IEEE.fin 0) _ 0 (0 * q) rfl hv]
        simp
    | negZero => simp [IEEE.signBit] at hbs
    | inf t =>
      left
      simp [IEEE.mul, IEEE.value?]
    | nan => exact absurd rfl hbn
  | inf s =>
    have hs : s = true := by simpa [IEEE.lt, IEEE.value?] using has
    subst hs
    cases b with
    | fin q =>
      have hq : 0 ≤ q := by simpa [IEEE.signBit] using hbs
      have hqn : ¬ q < 0 := not_lt.mpr hq
      by_cases h0 : q = 0
      · left
        simp [IEEE.mul, IEEE.value?, h0]
      · right
        simp [IEEE.mul, IEEE.value?, IEEE.signBit, h0, hqn, IEEE.lt]
    | negZero => simp [IEEE.signBit] at hbs
    | inf t =>
      have ht : t = false := by simpa [IEEE.signBit] using hbs
      subst ht
      right
      simp [IEEE.mul, IEEE.value?, IEEE.lt]
    | nan => exact absurd rfl hbn
  | nan => exact absurd rfl han

/-- The float reciprocal `1.0f / (size * scale)` of a positive product has a
clear sign bit and is not NaN: it is a finite value that is not negative, or
plus infinity. -/
theorem Libm.inv_plus (L : Libm) (hr : ∀ q : ℚ, 0 ≤ q → 0 ≤ L.round q) (size scale : ℚ)
    (hpos : 0 < size * scale) :
    L.fdiv (IEEE.fin 1) (L.fmul (IEEE.fin size) (IEEE.fin scale)) ≠ IEEE.nan
    ∧ (L.fdiv (IEEE.fin 1) (L.fmul (IEEE.fin size) (IEEE.fin scale))).signBit = false := by
  have hprod : L.fmul (IEEE.fin size) (IEEE.fin scale) ≠ IEEE.nan
      ∧ (L.fmul (IEEE.fin size) (IEEE.fin scale)).signBit = false := by
    unfold Libm.fmul
    rw [IEEE.mul_fin_fin _ _ (ne_of_gt hpos)]
    apply IEEE.roundWith_plus _ hr
    simp [IEEE.signBit, not_lt.mpr (le_of_lt hpos)]
  have hdiv : ∀ p : IEEE, p ≠ IEEE.nan ∧ p.signBit = false →
      IEEE.div (IEEE.fin 1) p ≠ IEEE.nan ∧ (IEEE.div (IEEE.fin 1) p).signBit = false := by
    intro p hp
    obtain ⟨hn, hs⟩ := hp
    cases p with
    | fin q =>
      have hq : 0 ≤ q := by simpa [IEEE.signBit] using hs
      have hqn : ¬ q < 0 := not_lt.mpr hq
      by_cases h0 : q = 0
      · simp [IEEE.div, IEEE.value?, IEEE.signBit, h0]
      · have hq' : ¬ q⁻¹ < 0 := by
          rw [inv_lt_zero]
          exact hqn
        simp [IEEE.div, IEEE.value?, IEEE.signBit, IEEE.ofValue, h0, hqn, hq']
    | negZero => simp [IEEE.signBit] at hs
    | inf t =>
      have ht : t = false := by simpa [IEEE.signBit] using hs
      subst ht
      have h1 : ¬ (1 : ℚ) < 0 := by norm_num
      simp [IEEE.div, IEEE.value?, IEEE.signBit, IEEE.ofValue, h1]
    | nan => exact absurd rfl hn
  unfold Libm.fdiv
  exact IEEE.roundWith_plus _ hr _ (hdiv _ hprod)

/-- The sign of the normalised offset `(v - centre) * (1.0f / (size * scale))`
for a positive product and a rounding that keeps the sign: an offset that is
not NaN is above zero only to the right of the centre, and below zero only to
the left. -/
theorem Libm.offset_sign (L : Libm)
    (hr : ∀ q : ℚ, (0 ≤ q → 0 ≤ L.round q) ∧ (q ≤ 0 → L.round q ≤ 0))
    (v centre size scale : ℚ) (hpos : 0 < size * scale)
    (hnan : L.fmul (L.fsub (IEEE.fin v) (IEEE.fin centre))
        (L.fdiv (IEEE.fin 1) (L.fmul (IEEE.fin size) (IEEE.fin scale))) ≠ IEEE.nan) :
    (IEEE.lt (IEEE.fin 0) (L.fmul (L.fsub (IEEE.fin v) (IEEE.fin centre))
        (L.fdiv (IEEE.fin 1) (L.fmul (IEEE.fin size) (IEEE.fin scale)))) = true → centre < v)
    ∧ (IEEE.lt (L.fmul (L.fsub (IEEE.fin v) (IEEE.fin centre))
        (L.fdiv (IEEE.fin 1) (L.fmul (IEEE.fin size) (IEEE.fin scale)))) (IEEE.fin 0) = true →
          v < centre) := by
  have hrp : ∀ q : ℚ, 0 ≤ q → 0 ≤ L.round q := fun q => (hr q).1
  have hrn : ∀ q : ℚ, q ≤ 0 → L.round q ≤ 0 := fun q => (hr q).2
  have hinv := Libm.inv_plus L hrp size scale hpos
  generalize L.fdiv (IEEE.fin 1) (L.fmul (IEEE.fin size) (IEEE.fin scale)) = inv at hinv hnan ⊢
  constructor
  · intro h
    by_contra hle
    have hvc : v ≤ centre := not_lt.mp hle
    have hX : L.fsub (IEEE.fin v) (IEEE.fin centre) ≠ IEEE.nan
        ∧ IEEE.lt (IEEE.fin 0) (L.fsub (IEEE.fin v) (IEEE.fin centre)) = false := by
      unfold Libm.fsub
      apply IEEE.roundWith_nonpos _ hrn
      rw [IEEE.sub_fin]
      by_cases he : v = centre
      · simp [he, IEEE.lt, IEEE.value?]
      · have hlt : ¬ (0 < v - centre) := by
          intro h2
          linarith
        simp [he, IEEE.lt, IEEE.value?]
        linarith
    rcases IEEE.mul_nonpos_plus _ _ hX hinv with hm | hm
    · exact hnan (IEEE.roundWith_nan _ _ hm)
    · have h2 := (IEEE.roundWith_nonpos _ hrn _ hm).2
      unfold Libm.fmul at h
      rw [h2] at h
      exact Bool.noConfusion h
  · intro h
    by_contra hle
    have hvc : centre ≤ v := not_lt.mp hle
    have hX : L.fsub (IEEE.fin v) (IEEE.fin centre) ≠ IEEE.nan
        ∧ (L.fsub (IEEE.fin v) (IEEE.fin centre)).signBit = false := by
      unfold Libm.fsub
      apply IEEE.roundWith_plus _ hrp
      rw [IEEE.sub_fin]
      by_cases he : v = centre
      · simp [he, IEEE.signBit]
      · simp [he, IEEE.signBit]
        linarith
    rcases IEEE.mul_plus_plus _ _ hX hinv with hm | hm
    · exact hnan (IEEE.roundWith_nan _ _ hm)
    · have h2 := IEEE.roundWith_plus _ hrp _ hm
      unfold Libm.fmul at h
      generalize IEEE.roundWith L.round
        (IEEE.mul (L.fsub (IEEE.fin v) (IEEE.fin centre)) inv) = w at h h2
      cases w with
      | fin q =>
        have hq : ¬ q < 0 := by simpa [IEEE.signBit] using h2.2
        simp [IEEE.lt, IEEE.value?, hq] at h
      | negZero => simp [IEEE.signBit] at h2
      | inf s =>
        have hs : s = false := by simpa [IEEE.signBit] using h2.2
        subst hs
        simp [IEEE.lt, IEEE.value?] at h
      | nan => exact h2.1 rfl

/-- A float that is not NaN and is neither above nor below zero is a zero. -/
theorem IEEE.value_zero_of_not_lt (v : IEEE) (hn : v ≠ IEEE.nan)
    (h1 : IEEE.lt (IEEE.fin 0) v = false) (h2 : IEEE.lt v (IEEE.fin 0) = false) :
    v.value? = some 0 := by
  cases v with
  | fin q =>
    have ha : ¬ 0 < q := by simpa [IEEE.lt, IEEE.value?] using h1
    have hb : ¬ q < 0 := by simpa [IEEE.lt, IEEE.value?] using h2
    have hq : q = 0 := le_antisymm (not_lt.mp ha) (not_lt.mp hb)
    rw [hq]
    rfl
  | negZero => rfl
  | inf s =>
    cases s
    · simp [IEEE.lt, IEEE.value?] at h1
    · simp [IEEE.lt, IEEE.value?] at h2
  | nan => exact absurd rfl hn

/-- A direction in the mask means that the touch passed the deadzone test and
that the octant table gave the direction. -/
theorem PSPCross.ProcessTouch_hasDir (L : Libm) (haptic : Bool) (c : PSPCross) (x y : ℚ)
    (down : Bool) (d : Nat)
    (h : hasDir (PSPCross.ProcessTouch L haptic c x y down).1.down_ d = true) :
    IEEE.lt (c.rad L x y) (IEEE.fin (17 / 100)) = false
    ∧ hasDir (PSPCross.switchMask (PSPCross.direction L (c.dy L y) (c.dx L x))) d = true := by
  have hmask := PSPCross.ProcessTouch_mask L haptic c x y down
  cases hlt : IEEE.lt (c.rad L x y) (IEEE.fin (17 / 100))
  · refine ⟨rfl, ?_⟩
    by_cases hz : (if (IEEE.lt (c.rad L x y) (IEEE.fin deadzone)
        || IEEE.lt (IEEE.fin 2) (c.rad L x y)) = true then false else down) = true
    · rw [if_pos hz] at hmask
      rw [← hmask]
      exact h
    · rw [if_neg hz] at hmask
      rw [hmask] at h
      simp [hasDir] at h
  · have h0 := PSPCross.ProcessTouch_dead L haptic c x y down (Or.inl hlt)
    rw [h0] at h
    simp [hasDir] at h

/-- C19, amended: the directions that `PSPCross::ProcessTouch` reports agree
with the sign of the touch offset whenever the normalised offsets `dx` and `dy`
that the code computes are not NaN.  For positive `radius_ * scale_`, a
rounding that keeps the sign, `sqrtf(0) = 0` and an `atan2f` that respects the
quadrants to within one millionth on arguments that are not NaN and not both
zero (its value is finite and at most `M_PI` in size; at least `M_PI / 2` in
size when `dx` is not above zero, at most `M_PI / 2` in size when `dx` is not
below zero; not positive or else `M_PI` when `dy` is not above zero, not
negative or else `-M_PI` when `dy` is not below zero): if `CTRL_RIGHT` is in
the resulting mask then `dx > 0`, if `CTRL_LEFT` then `dx < 0`, if `CTRL_DOWN`
then `dy > 0`, and if `CTRL_UP` then `dy < 0`; the same holds of the raw
offsets from the centre. -/
theorem PSPCross_direction_signs (L : Libm) (haptic : Bool) (c : PSPCross) (x y : ℚ)
    (down : Bool) (hpos : 0 < c.radius_ * c.scale_)
    (hdxn : c.dx L x ≠ IEEE.nan) (hdyn : c.dy L y ≠ IEEE.nan)
    (hround : ∀ q : ℚ, (0 ≤ q → 0 ≤ L.round q) ∧ (q ≤ 0 → L.round q ≤ 0))
    (hsqrt : L.sqrtf (IEEE.fin 0) = IEEE.fin 0)
    (hrange : ∀ dy dx : IEEE, dy ≠ IEEE.nan → dx ≠ IEEE.nan →
      ∃ a : ℚ, (L.atan2f dy dx).value? = some a ∧ |a| ≤ M_PI + 1 / 1000000)
    (hleft : ∀ (dy dx : IEEE) (a : ℚ), dy ≠ IEEE.nan → dx ≠ IEEE.nan →
      (L.atan2f dy dx).value? = some a → ¬ (dy.value? = some 0 ∧ dx.value? = some 0) →
      IEEE.lt (IEEE.fin 0) dx = false → M_PI / 2 - 1 / 1000000 ≤ |a|)
    (hright : ∀ (dy dx : IEEE) (a : ℚ), dy ≠ IEEE.nan → dx ≠ IEEE.nan →
      (L.atan2f dy dx).value? = some a → ¬ (dy.value? = some 0 ∧ dx.value? = some 0) →
      IEEE.lt dx (IEEE.fin 0) = false → |a| ≤ M_PI / 2 + 1 / 1000000)
    (hlow : ∀ (dy dx : IEEE) (a : ℚ), dy ≠ IEEE.nan → dx ≠ IEEE.nan →
      (L.atan2f dy dx).value? = some a → ¬ (dy.value? = some 0 ∧ dx.value? = some 0) →
      IEEE.lt (IEEE.fin 0) dy = false → a ≤ 1 / 1000000 ∨ M_PI - 1 / 1000000 ≤ a)
    (hhigh : ∀ (dy dx : IEEE) (a : ℚ), dy ≠ IEEE.nan → dx ≠ IEEE.nan →
      (L.atan2f dy dx).value? = some a → ¬ (dy.value? = some 0 ∧ dx.value? = some 0) →
      IEEE.lt dy (IEEE.fin 0) = false → -(1 / 1000000) ≤ a ∨ a ≤ -(M_PI - 1 / 1000000)) :
    (hasDir (PSPCross.ProcessTouch L haptic c x y down).1.down_ CTRL_RIGHT = true →
        IEEE.lt (IEEE.fin 0) (c.dx L x) = true ∧ c.bounds_.centerX < x)
    ∧ (hasDir (PSPCross.ProcessTouch L haptic c x y down).1.down_ CTRL_LEFT = true →
        IEEE.lt (c.dx L x) (IEEE.fin 0) = true ∧ x < c.bounds_.centerX)
    ∧ (hasDir (PSPCross.ProcessTouch L haptic c x y down).1.down_ CTRL_DOWN = true →
        IEEE.lt (IEEE.fin 0) (c.dy L y) = true ∧ c.bounds_.centerY < y)
    ∧ (hasDir (PSPCross.ProcessTouch L haptic c x y down).1.down_ CTRL_UP = true →
        IEEE.lt (c.dy L y) (IEEE.fin 0) = true ∧ y < c.bounds_.centerY) := by
  have hpi := M_PI_gt_three
  obtain ⟨a, hval, har⟩ := hrange (c.dy L y) (c.dx L x) hdyn hdxn
  have hang := octant_angle a har
  have hxs : (IEEE.lt (IEEE.fin 0) (c.dx L x) = true → c.bounds_.centerX < x)
      ∧ (IEEE.lt (c.dx L x) (IEEE.fin 0) = true → x < c.bounds_.centerX) :=
    Libm.offset_sign L hround x c.bounds_.centerX c.radius_ c.scale_ hpos hdxn
  have hys : (IEEE.lt (IEEE.fin 0) (c.dy L y) = true → c.bounds_.centerY < y)
      ∧ (IEEE.lt (c.dy L y) (IEEE.fin 0) = true → y < c.bounds_.centerY) :=
    Libm.offset_sign L hround y c.bounds_.centerY c.radius_ c.scale_ hpos hdyn
  have hdir : ∀ d : Nat,
      hasDir (PSPCross.ProcessTouch L haptic c x y down).1.down_ d = true →
      ¬ ((c.dy L y).value? = some 0 ∧ (c.dx L x).value? = some 0)
      ∧ hasDir (PSPCross.switchMask (⌊a / (2 * M_PI) * 8 + 1 / 2⌋ % 8)) d = true := by
    intro d h
    obtain ⟨hdead, hd⟩ := PSPCross.ProcessTouch_hasDir L haptic c x y down d h
    rw [PSPCross.direction_of_value L _ _ a hval] at hd
    refine ⟨fun hz => ?_, hd⟩
    rw [PSPCross.rad_of_zero L c x y hz.2 hz.1, hsqrt,
      IEEE.lt_of_values (IEEE.fin 0) (IEEE.fin (17 / 100)) 0 (17 / 100) rfl rfl] at hdead
    norm_num at hdead
  refine ⟨fun h => ?_, fun h => ?_, fun h => ?_, fun h => ?_⟩
  · obtain ⟨hnz, hd⟩ := hdir _ h
    have h3 := hang.1 hd
    have hdx : IEEE.lt (IEEE.fin 0) (c.dx L x) = true := by
      cases hlt : IEEE.lt (IEEE.fin 0) (c.dx L x)
      · have h2 := hleft _ _ a hdyn hdxn hval hnz hlt
        linarith
      · rfl
    exact ⟨hdx, hxs.1 hdx⟩
  · obtain ⟨hnz, hd⟩ := hdir _ h
    have h3 := hang.2.1 hd
    have hdx : IEEE.lt (c.dx L x) (IEEE.fin 0) = true := by
      cases hlt : IEEE.lt (c.dx L x) (IEEE.fin 0)
      · have h2 := hright _ _ a hdyn hdxn hval hnz hlt
        linarith
      · rfl
    exact ⟨hdx, hxs.2 hdx⟩
  · obtain ⟨hnz, hd⟩ := hdir _ h
    have h3 := hang.2.2.1 hd
    have hdy : IEEE.lt (IEEE.fin 0) (c.dy L y) = true := by
      cases hlt : IEEE.lt (IEEE.fin 0) (c.dy L y)
      · rcases hlow _ _ a hdyn hdxn hval hnz hlt with h2 | h2 <;> linarith [h3.1, h3.2]
      · rfl
    exact ⟨hdy, hys.1 hdy⟩
  · obtain ⟨hnz, hd⟩ := hdir _ h
    have h3 := hang.2.2.2 hd
    have hdy : IEEE.lt (c.dy L y) (IEEE.fin 0) = true := by
      cases hlt : IEEE.lt (c.dy L y) (IEEE.fin 0)
      · rcases hhigh _ _ a hdyn hdxn hval hnz hlt with h2 | h2 <;> linarith [h3.1, h3.2]
      · rfl
    exact ⟨hdy, hys.2 hdy⟩

/-- C19, as stated, fails: the D-pad of radius 40 whose `scale_` is the float
`1e-41f`, touched with `down = true` at its centre (80, 80).  The product
`radius_ * scale_` is positive and the offset from the centre is 0, but the
float reciprocal of the product is plus infinity, the normalised offsets are
`0 * inf`, which is NaN, `rad` is NaN, neither deadzone test holds, and the
octant of the NaN angle converted to `int` is 0: `CTRL_RIGHT` is pressed. -/
theorem tiny_scale_cross_presses_right_at_centre :
    0 < exCrossTiny.radius_ * exCrossTiny.scale_
    ∧ 80 - exCrossTiny.bounds_.centerX = 0
    ∧ exCrossTiny.dx exLibm 80 = IEEE.nan
    ∧ (PSPCross.ProcessTouch exLibm true exCrossTiny 80 80 true).1.down_ = CTRL_RIGHT
    ∧ hasDir (PSPCross.ProcessTouch exLibm true exCrossTiny 80 80 true).1.down_ CTRL_RIGHT
        = true
    ∧ ¬ (exCrossTiny.bounds_.centerX < 80) := by
  have hr : ∀ q, exLibm.round q = q := fun _ => rfl
  have hx : exCrossTiny.bounds_.centerX = 80 := by
    norm_num [exCrossTiny, exCross, exBounds, Bounds.centerX]
  have hy : exCrossTiny.bounds_.centerY = 80 := by
    norm_num [exCrossTiny, exCross, exBounds, Bounds.centerY]
  have hnan := Libm.offset_centre_tiny exLibm hr 80 40 (by norm_num) (by norm_num)
  have hdx : exCrossTiny.dx exLibm 80 = IEEE.nan := by
    unfold PSPCross.dx PSPCross.inv_stick_size
    rw [hx]
    exact hnan
  have hdy : exCrossTiny.dy exLibm 80 = IEEE.nan := by
    unfold PSPCross.dy PSPCross.inv_stick_size
    rw [hy]
    exact hnan
  have hrad : exCrossTiny.rad exLibm 80 80 = IEEE.nan := by
    unfold PSPCross.rad
    rw [hdx, hdy]
    rfl
  have hdir : PSPCross.direction exLibm IEEE.nan IEEE.nan = 0 := by
    unfold PSPCross.direction
    have hv : (exLibm.atan2f IEEE.nan IEEE.nan).value? = none := rfl
    rw [hv]
    rfl
  have hmask : (PSPCross.ProcessTouch exLibm true exCrossTiny 80 80 true).1.down_
      = CTRL_RIGHT := by
    rw [PSPCross.ProcessTouch_mask, hrad, hdx, hdy, hdir]
    rfl
  refine ⟨by norm_num [exCrossTiny, exCross, tinyScale], by rw [hx]; norm_num, hdx, hmask,
    ?_, by rw [hx]; norm_num⟩
  rw [hmask]
  decide

/-- The `atan2f` of `quadLibm` respects the quadrants. -/
theorem quadLibm_quadrants :
    (∀ dy dx : IEEE, dy ≠ IEEE.nan → dx ≠ IEEE.nan →
      ∃ a : ℚ, (quadLibm.atan2f dy dx).value? = some a ∧ |a| ≤ M_PI + 1 / 1000000)
    ∧ (∀ (dy dx : IEEE) (a : ℚ), dy ≠ IEEE.nan → dx ≠ IEEE.nan →
      (quadLibm.atan2f dy dx).value? = some a →
      ¬ (dy.value? = some 0 ∧ dx.value? = some 0) →
      IEEE.lt (IEEE.fin 0) dx = false → M_PI / 2 - 1 / 1000000 ≤ |a|)
    ∧ (∀ (dy dx : IEEE) (a : ℚ), dy ≠ IEEE.nan → dx ≠ IEEE.nan →
      (quadLibm.atan2f dy dx).value? = some a →
      ¬ (dy.value? = some 0 ∧ dx.value? = some 0) →
      IEEE.lt dx (IEEE.fin 0) = false → |a| ≤ M_PI / 2 + 1 / 1000000)
    ∧ (∀ (dy dx : IEEE) (a : ℚ), dy ≠ IEEE.nan → dx ≠ IEEE.nan →
      (quadLibm.atan2f dy dx).value? = some a →
      ¬ (dy.value? = some 0 ∧ dx.value? = some 0) →
      IEEE.lt (IEEE.fin 0) dy = false → a ≤ 1 / 1000000 ∨ M_PI - 1 / 1000000 ≤ a)
    ∧ (∀ (dy dx : IEEE) (a : ℚ), dy ≠ IEEE.nan → dx ≠ IEEE.nan →
      (quadLibm.atan2f dy dx).value? = some a →
      ¬ (dy.value? = some 0 ∧ dx.value? = some 0) →
      IEEE.lt dy (IEEE.fin 0) = false →
      -(1 / 1000000) ≤ a ∨ a ≤ -(M_PI - 1 / 1000000)) := by
  have hpi := M_PI_gt_three
  have hval : ∀ dy dx : IEEE, dy ≠ IEEE.nan → dx ≠ IEEE.nan →
      quadLibm.atan2f dy dx = IEEE.fin (quadAngle dy dx) := by
    intro dy dx hdy hdx
    simp [quadLibm, hdy, hdx]
  have hangle : ∀ (dy dx : IEEE) (a : ℚ), dy ≠ IEEE.nan → dx ≠ IEEE.nan →
      (quadLibm.atan2f dy dx).value? = some a → a = quadAngle dy dx := by
    intro dy dx a hdy hdx h
    rw [hval dy dx hdy hdx] at h
    simpa [IEEE.value?] using h.symm
  refine ⟨?_, ?_, ?_, ?_, ?_⟩
  · intro dy dx hdy hdx
    refine ⟨quadAngle dy dx, by rw [hval dy dx hdy hdx]; rfl, ?_⟩
    unfold quadAngle
    rw [abs_le]
    split_ifs <;> constructor <;> linarith
  · intro dy dx a hdy hdx h hnz hlt
    rw [hangle dy dx a hdy hdx h]
    unfold quadAngle
    rw [if_neg (by simp [hlt])]
    split_ifs with h1 h2 h3 h4 h5 <;>
      first
        | exact le_abs.2 (Or.inl (by linarith))
        | exact le_abs.2 (Or.inr (by linarith))
        | (exfalso
           exact hnz ⟨IEEE.value_zero_of_not_lt dy hdy (by simpa using h4) (by simpa using h5),
             IEEE.value_zero_of_not_lt dx hdx hlt (by simpa using h1)⟩)
  · intro dy dx a hdy hdx h _ hlt
    rw [hangle dy dx a hdy hdx h]
    unfold quadAngle
    rw [abs_le]
    split_ifs <;>
      first
        | (constructor <;> linarith)
        | (exfalso; simp_all)
  · intro dy dx a hdy hdx h _ hlt
    rw [hangle dy dx a hdy hdx h]
    unfold quadAngle
    split_ifs <;>
      first
        | exact Or.inl (by linarith)
        | exact Or.inr (by linarith)
        | (exfalso; simp_all)
  · intro dy dx a hdy hdx h _ hlt
    rw [hangle dy dx a hdy hdx h]
    unfold quadAngle
    split_ifs <;>
      first
        | exact Or.inl (by linarith)
        | exact Or.inr (by linarith)
        | (exfalso; simp_all)

/-- Witness for C19, amended: a touch at (120, 80) on a D-pad of radius 40 at
scale 1 centred at (80, 80), which presses `CTRL_RIGHT`. -/
theorem PSPCross_direction_signs_witness :
    0 < exCross.radius_ * exCross.scale_
    ∧ exCross.dx quadLibm 120 ≠ IEEE.nan ∧ exCross.dy quadLibm 80 ≠ IEEE.nan
    ∧ (∀ q : ℚ, (0 ≤ q → 0 ≤ quadLibm.round q) ∧ (q ≤ 0 → quadLibm.round q ≤ 0))
    ∧ quadLibm.sqrtf (IEEE.fin 0) = IEEE.fin 0
    ∧ hasDir (PSPCross.ProcessTouch quadLibm true exCross 120 80 true).1.down_ CTRL_RIGHT
        = true
    ∧ IEEE.lt (IEEE.fin 0) (exCross.dx quadLibm 120) = true
    ∧ exCross.bounds_.centerX < 120 :=
  have hr : ∀ q, quadLibm.round q = q := fun _ => rfl
  have hpos : 0 < exCross.radius_ * exCross.scale_ := by norm_num [exCross]
  have hx : exCross.dx quadLibm 120 = IEEE.fin ((120 - 80) / 40) :=
    exCross_dx quadLibm hr 120 (by norm_num) (by norm_num) (by norm_num)
  have hy : exCross.dy quadLibm 80 = IEEE.fin 0 := (exCross_centre quadLibm hr).2
  have hdxn : exCross.dx quadLibm 120 ≠ IEEE.nan := by
    rw [hx]
    exact fun h => IEEE.noConfusion h
  have hdyn : exCross.dy quadLibm 80 ≠ IEEE.nan := by
    rw [hy]
    exact fun h => IEEE.noConfusion h
  have hround : ∀ q : ℚ, (0 ≤ q → 0 ≤ quadLibm.round q) ∧ (q ≤ 0 → quadLibm.round q ≤ 0) :=
    fun q => ⟨fun h => by rw [hr]; exact h, fun h => by rw [hr]; exact h⟩
  have hsqrt : quadLibm.sqrtf (IEEE.fin 0) = IEEE.fin 0 := by
    norm_num [quadLibm, exLibm, exSqrt]
  have hrad : ∃ r : ℚ, (exCross.rad quadLibm 120 80).value? = some r ∧ 17 / 100 ≤ r
      ∧ r ≤ 2 := by
    refine ⟨1, ?_, by norm_num, by norm_num⟩
    rw [exCross_rad_on_axis quadLibm hr 120 (by norm_num) (by norm_num) (by norm_num)]
    norm_num [quadLibm, exLibm, exSqrt, IEEE.value?]
  have hmask : (PSPCross.ProcessTouch quadLibm true exCross 120 80 true).1.down_
      = CTRL_RIGHT := by
    rw [PSPCross.ProcessTouch_mask_in_range quadLibm true exCross 120 80 hrad, hx, hy]
    have hat : (quadLibm.atan2f (IEEE.fin 0) (IEEE.fin ((120 - 80) / 40))).value?
        = some 0 := by
      have h1 : ¬ (IEEE.fin 0 = IEEE.nan ∨ IEEE.fin ((120 - 80) / 40) = IEEE.nan) := by
        rintro (h | h) <;> exact IEEE.noConfusion h
      have h2 : quadLibm.atan2f (IEEE.fin 0) (IEEE.fin ((120 - 80) / 40))
          = IEEE.fin (quadAngle (IEEE.fin 0) (IEEE.fin ((120 - 80) / 40))) := by
        simp only [quadLibm]
        rw [if_neg h1]
      rw [h2]
      norm_num [quadAngle, IEEE.lt, IEEE.value?]
    rw [PSPCross.direction_of_value quadLibm _ _ 0 hat]
    have hdir : ⌊(0 : ℚ) / (2 * M_PI) * 8 + 1 / 2⌋ % 8 = 0 := by norm_num
    rw [hdir]
    decide
  have hright : hasDir (PSPCross.ProcessTouch quadLibm true exCross 120 80 true).1.down_
      CTRL_RIGHT = true := by
    rw [hmask]
    decide
  have hconc := (PSPCross_direction_signs quadLibm true exCross 120 80 true hpos hdxn hdyn
    hround hsqrt quadLibm_quadrants.1 quadLibm_quadrants.2.1 quadLibm_quadrants.2.2.1
    quadLibm_quadrants.2.2.2.1 quadLibm_quadrants.2.2.2.2).1 hright
  ⟨hpos, hdxn, hdyn, hround, hsqrt, hright, hconc.1, hconc.2⟩

/-! ## Theorems: division by a zero radius or scale -/

/-- The quotient `(v - centre) * (1 / 0)` and its clamp: NaN on the centre
line, otherwise an infinity whose sign is the sign of the offset, reversed
when the zero divisor is negative; the clamp is -1 for NaN. -/
theorem clampIEEE_of_zero_divisor (v centre : ℚ) (neg : Bool) :
    stdMinIEEE (IEEE.fin 1) (stdMaxIEEE (IEEE.fin (-1))
        (IEEE.mul (IEEE.sub (IEEE.fin v) (IEEE.fin centre)) (IEEE.inf neg)))
      = if v = centre then IEEE.fin (-1)
        else if xor (decide (v < centre)) neg then IEEE.fin (-1) else IEEE.fin 1 := by
  rw [IEEE.sub_fin]
  by_cases h : v = centre
  · rw [if_pos h, if_pos h, IEEE.mul_fin_inf, if_pos rfl]
    exact clampIEEE_special.1
  · rw [if_neg h, if_neg h, IEEE.mul_fin_inf, if_neg (sub_ne_zero.mpr h)]
    have hs : decide (v - centre < 0) = decide (v < centre) := by
      rw [decide_eq_decide]
      exact sub_neg
    rw [hs]
    cases hx : xor (decide (v < centre)) neg
    · rw [if_neg (by simp)]
      exact clampIEEE_special.2.1
    · rw [if_pos rfl]
      exact clampIEEE_special.2.2

/-- With `stick_size_ * scale_` zero, `PSPStick::ProcessTouch` with `down = true`
writes the clamp of an infinite or NaN quotient on each axis. -/
theorem PSPStick.ProcessTouchIEEE_zero (s : PSPStick) (x y : ℚ)
    (hz : s.stick_size_ * s.scale_ = 0) :
    s.ProcessTouchIEEE x y true
      = (if x = s.bounds_.centerX then IEEE.fin (-1)
          else if xor (decide (x < s.bounds_.centerX))
              (xor (decide (s.stick_size_ < 0)) (decide (s.scale_ < 0))) then IEEE.fin (-1)
          else IEEE.fin 1,
        IEEE.neg
          (if y = s.bounds_.centerY then IEEE.fin (-1)
            else if xor (decide (y < s.bounds_.centerY))
                (xor (decide (s.stick_size_ < 0)) (decide (s.scale_ < 0))) then IEEE.fin (-1)
            else IEEE.fin 1)) := by
  unfold PSPStick.ProcessTouchIEEE
  simp only [if_true]
  rw [IEEE.mul_fin_of_zero _ _ hz, IEEE.one_div_zero, clampIEEE_of_zero_divisor,
    clampIEEE_of_zero_divisor]

/-- With a zero divisor and when no rounding is applied to the offset from the
centre, which is within the float range, the float quotient of
`ProcessTouch` is the quotient without the rounding step. -/
theorem Libm.offset_zero_divisor (L : Libm) (hr : ∀ q, L.round q = q)
    (v centre size scale : ℚ) (hz : size * scale = 0)
    (h1 : -FLT_MAX ≤ v - centre) (h2 : v - centre ≤ FLT_MAX) :
    L.fmul (L.fsub (IEEE.fin v) (IEEE.fin centre))
        (L.fdiv (IEEE.fin 1) (L.fmul (IEEE.fin size) (IEEE.fin scale)))
      = IEEE.mul (IEEE.sub (IEEE.fin v) (IEEE.fin centre))
          (IEEE.div (IEEE.fin 1) (IEEE.mul (IEEE.fin size) (IEEE.fin scale))) := by
  have hP : L.fmul (IEEE.fin size) (IEEE.fin scale)
      = IEEE.mul (IEEE.fin size) (IEEE.fin scale) := by
    unfold Libm.fmul
    apply IEEE.roundWith_of_value_zero
    rw [IEEE.mul_fin_of_zero _ _ hz]
    split_ifs <;> rfl
  have hD : L.fdiv (IEEE.fin 1) (IEEE.mul (IEEE.fin size) (IEEE.fin scale))
      = IEEE.div (IEEE.fin 1) (IEEE.mul (IEEE.fin size) (IEEE.fin scale)) := by
    unfold Libm.fdiv
    rw [IEEE.mul_fin_of_zero _ _ hz, IEEE.one_div_zero]
    rfl
  have hS : L.fsub (IEEE.fin v) (IEEE.fin centre)
      = IEEE.sub (IEEE.fin v) (IEEE.fin centre) := by
    unfold Libm.fsub
    rw [IEEE.sub_fin]
    by_cases h : v = centre
    · rw [if_pos h]
      simp [IEEE.roundWith]
    · rw [if_neg h]
      exact IEEE.roundWith_exact _ hr _ (sub_ne_zero.mpr h) h1 h2
  rw [hP, hD, hS]
  unfold Libm.fmul
  rw [IEEE.mul_fin_of_zero _ _ hz, IEEE.one_div_zero, IEEE.sub_fin]
  by_cases h : v = centre
  · rw [if_pos h, IEEE.mul_fin_inf, if_pos rfl]
    rfl
  · rw [if_neg h, IEEE.mul_fin_inf, if_neg (sub_ne_zero.mpr h)]
    rfl

/-- With `stick_size_ * scale_` zero, and when no rounding is applied to the
offsets from the centre, which are within the float range, the values that
`PSPStick::ProcessTouch` writes are those of `ProcessTouchIEEE`. -/
theorem PSPStick.ProcessTouch_zero_divisor (L : Libm) (hr : ∀ q, L.round q = q)
    (s : PSPStick) (x y : ℚ) (hz : s.stick_size_ * s.scale_ = 0)
    (hx1 : -FLT_MAX ≤ x - s.bounds_.centerX) (hx2 : x - s.bounds_.centerX ≤ FLT_MAX)
    (hy1 : -FLT_MAX ≤ y - s.bounds_.centerY) (hy2 : y - s.bounds_.centerY ≤ FLT_MAX) :
    s.ProcessTouch L x y true
      = [SinkCall.CtrlSetAnalogX (s.ProcessTouchIEEE x y true).1 s.stick_,
          SinkCall.CtrlSetAnalogY (s.ProcessTouchIEEE x y true).2 s.stick_] := by
  rw [PSPStick.ProcessTouch_down]
  unfold PSPStick.dx PSPStick.dy PSPStick.inv_stick_size
  rw [Libm.offset_zero_divisor L hr x _ _ _ hz hx1 hx2,
    Libm.offset_zero_divisor L hr y _ _ _ hz hy1 hy2]
  rfl

theorem PSPCross.switchMask_ne_zero (d : Int) (h0 : 0 ≤ d) (h8 : d < 8) :
    PSPCross.switchMask d ≠ 0 := by
  interval_cases d <;> decide

/-- With `radius_ * scale_` zero and the touch on the vertical centre line the
quotient `dx` is NaN; when `sqrtf` of NaN is NaN the deadzone test lets the
touch through and the direction mask is not empty, whatever the conversion of
the NaN angle to `int` gives. -/
theorem PSPCross.ProcessTouchIEEE_nan (M : LibmIEEE) (haptic : Bool) (c : PSPCross) (y : ℚ)
    (hz : c.radius_ * c.scale_ = 0) (hsqrt : M.sqrtf IEEE.nan = IEEE.nan) :
    (PSPCross.ProcessTouchIEEE M haptic c c.bounds_.centerX y true).1.down_ ≠ 0 := by
  have hdx : ∀ neg : Bool, IEEE.mul (IEEE.sub (IEEE.fin c.bounds_.centerX)
      (IEEE.fin c.bounds_.centerX)) (IEEE.inf neg) = IEEE.nan := by
    intro neg
    rw [IEEE.sub_fin, if_pos rfl, IEEE.mul_fin_inf, if_pos rfl]
  have hnan : ∀ v : IEEE, IEEE.add (IEEE.mul IEEE.nan IEEE.nan) v = IEEE.nan := by
    intro v
    cases v <;> simp [IEEE.add, IEEE.mul, IEEE.value?]
  unfold PSPCross.ProcessTouchIEEE
  simp only
  rw [IEEE.mul_fin_of_zero _ _ hz, IEEE.one_div_zero, hdx, hnan, hsqrt]
  have hlt : (IEEE.lt IEEE.nan (IEEE.fin deadzone) || IEEE.lt (IEEE.fin 2) IEEE.nan) = false := by
    simp [IEEE.lt, IEEE.value?]
  rw [hlt]
  simp only [Bool.false_eq_true, if_false, if_true]
  exact PSPCross.switchMask_ne_zero _ (Int.emod_nonneg _ (by norm_num))
    (Int.emod_lt_of_pos _ (by norm_num))

/-- With `radius_ * scale_` zero and the touch off both centre lines, both
quotients are infinite, `rad` is the square root of plus infinity, and the
test `rad > 2.0f` clears `down`. -/
theorem PSPCross.ProcessTouchIEEE_inf (M : LibmIEEE) (haptic : Bool) (c : PSPCross)
    (x y : ℚ) (down : Bool) (hz : c.radius_ * c.scale_ = 0)
    (hx : x ≠ c.bounds_.centerX) (hy : y ≠ c.bounds_.centerY)
    (hsqrt : M.sqrtf (IEEE.inf false) = IEEE.inf false) :
    (PSPCross.ProcessTouchIEEE M haptic c x y down).1.down_ = 0 := by
  have hq : ∀ (v centre : ℚ) (neg : Bool), v ≠ centre →
      ∃ t, IEEE.mul (IEEE.sub (IEEE.fin v) (IEEE.fin centre)) (IEEE.inf neg) = IEEE.inf t := by
    intro v centre neg hne
    rw [IEEE.sub_fin, if_neg hne, IEEE.mul_fin_inf, if_neg (sub_ne_zero.mpr hne)]
    exact ⟨_, rfl⟩
  have hsq : ∀ t u : Bool,
      IEEE.add (IEEE.mul (IEEE.inf t) (IEEE.inf t)) (IEEE.mul (IEEE.inf u) (IEEE.inf u))
        = IEEE.inf false := by
    intro t u
    cases t <;> cases u <;> simp [IEEE.add, IEEE.mul, IEEE.value?]
  unfold PSPCross.ProcessTouchIEEE
  simp only
  rw [IEEE.mul_fin_of_zero _ _ hz, IEEE.one_div_zero]
  obtain ⟨t, ht⟩ := hq x c.bounds_.centerX _ hx
  obtain ⟨u, hu⟩ := hq y c.bounds_.centerY _ hy
  rw [ht, hu, hsq, hsqrt]
  have hlt : IEEE.lt (IEEE.fin 2) (IEEE.inf false) = true := by
    simp [IEEE.lt, IEEE.value?]
  rw [hlt]
  simp

/-- C14, as stated, fails: the division is not guarded.  An analog stick with
`scale_ = 0` (so `stick_size_ * scale_ = 0`) touched at (100, 100), right of and
below its centre (80, 80), writes (1, -1) and not (0, 0). -/
theorem zero_scale_stick_is_not_guarded :
    exStickZero.stick_size_ * exStickZero.scale_ = 0
    ∧ exStickZero.ProcessTouchIEEE 100 100 true = (IEEE.fin 1, IEEE.fin (-1))
    ∧ exStickZero.ProcessTouchIEEE 100 100 true ≠ (IEEE.fin 0, IEEE.fin 0) := by
  have hz : exStickZero.stick_size_ * exStickZero.scale_ = 0 := by
    norm_num [exStickZero, exStick]
  have hval : exStickZero.ProcessTouchIEEE 100 100 true = (IEEE.fin 1, IEEE.fin (-1)) := by
    rw [PSPStick.ProcessTouchIEEE_zero _ _ _ hz]
    norm_num [exStickZero, exStick, exBounds, Bounds.centerX, Bounds.centerY, IEEE.neg]
  refine ⟨hz, hval, ?_⟩
  rw [hval]
  intro h
  have h1 : IEEE.fin 1 = IEEE.fin 0 := congrArg Prod.fst h
  have h2 : (1 : ℚ) = 0 := IEEE.fin.inj h1
  exact one_ne_zero h2

/-- C14, amended: the division by `radius_ * scale_` and by
`stick_size_ * scale_` is not guarded.  When `stick_size_ * scale_` is zero,
`PSPStick::ProcessTouch` with `down = true` writes on each axis the square
clamp of an infinite or NaN quotient: X and Y are each exactly 1 or -1, so the
values reaching the axis sink are finite but are not (0, 0).  When
`radius_ * scale_` is zero, `PSPCross::ProcessTouch` yields the empty direction
mask for a touch off both centre lines, where `rad` is plus infinity (given
that `sqrtf` of plus infinity is plus infinity). -/
theorem division_by_zero_is_unguarded (M : LibmIEEE) (haptic : Bool) (s : PSPStick)
    (c : PSPCross) (x y : ℚ) :
    (s.stick_size_ * s.scale_ = 0 →
        ((s.ProcessTouchIEEE x y true).1 = IEEE.fin 1
          ∨ (s.ProcessTouchIEEE x y true).1 = IEEE.fin (-1))
        ∧ ((s.ProcessTouchIEEE x y true).2 = IEEE.fin 1
          ∨ (s.ProcessTouchIEEE x y true).2 = IEEE.fin (-1)))
    ∧ (c.radius_ * c.scale_ = 0 → x ≠ c.bounds_.centerX → y ≠ c.bounds_.centerY →
        M.sqrtf (IEEE.inf false) = IEEE.inf false →
        (PSPCross.ProcessTouchIEEE M haptic c x y true).1.down_ = 0) := by
  constructor
  · intro hz
    rw [PSPStick.ProcessTouchIEEE_zero _ _ _ hz]
    have hneg1 : IEEE.neg (IEEE.fin 1) = IEEE.fin (-1) := by simp [IEEE.neg]
    have hneg2 : IEEE.neg (IEEE.fin (-1)) = IEEE.fin 1 := by simp [IEEE.neg]
    constructor
    · dsimp only
      split_ifs
      · exact Or.inr rfl
      · exact Or.inr rfl
      · exact Or.inl rfl
    · dsimp only
      split_ifs
      · exact Or.inl hneg2
      · exact Or.inl hneg2
      · exact Or.inr hneg1
  · intro hz hx hy hsqrt
    exact PSPCross.ProcessTouchIEEE_inf M haptic c x y true hz hx hy hsqrt

/-- Witness for C14, amended: the D-pad and the stick with `scale_ = 0`, touched
at (100, 100). -/
theorem division_by_zero_is_unguarded_witness :
    exCrossZero.radius_ * exCrossZero.scale_ = 0
    ∧ (100 : ℚ) ≠ exCrossZero.bounds_.centerX ∧ (100 : ℚ) ≠ exCrossZero.bounds_.centerY
    ∧ exLibmIEEE.sqrtf (IEEE.inf false) = IEEE.inf false
    ∧ (PSPCross.ProcessTouchIEEE exLibmIEEE true exCrossZero 100 100 true).1.down_ = 0 :=
  have hz : exCrossZero.radius_ * exCrossZero.scale_ = 0 := by
    norm_num [exCrossZero, exCross]
  have hx : (100 : ℚ) ≠ exCrossZero.bounds_.centerX := by
    norm_num [exCrossZero, exCross, exBounds, Bounds.centerX]
  have hy : (100 : ℚ) ≠ exCrossZero.bounds_.centerY := by
    norm_num [exCrossZero, exCross, exBounds, Bounds.centerY]
  ⟨hz, hx, hy, rfl,
   (division_by_zero_is_unguarded exLibmIEEE true exStickZero exCrossZero 100 100).2
      hz hx hy rfl⟩

end GamepadEmu
